import Mathlib

/-!
# trello_cli: a shallow embedding of the listing flow, the detail flow, the API
client, the config store and the prompts

The Go sources embedded here are `src/main.go`, `src/trello/trello.go`,
`src/config/config.go` and `src/prompts.go`.

* A Go string is a sequence of bytes (`GoString`).  The strings of the flows
  come out of the JSON decoder or out of the prompts, which yield valid UTF-8
  only, and are carried as Lean `String`s (sequences of Unicode scalar values);
  `SaveConfig` takes a config of arbitrary Go strings (`RawConfig`).  Go `int`
  is `Int`, slices are `List`s, and the built-in `map[string]V` is an
  association list.
* A Go function that returns `(value, error)` returns a pair whose second
  component is `none` for a nil error; `LoadConfig` returns `Except`.
* Effects are explicit: the file system is a value of `FS`, the remote service
  a function `Transport`, and every request is appended to a list that is
  threaded through the flow; `log.Fatalf` ends a run with its message in
  `Outcome.fatal`.  What the terminal delivers to the credential form and to
  `fmt.Scanf` is a value of `Terminal`, and a run of `main` records every call
  of `SaveConfig` in `Run.saves`.
* Library routines the program calls are embedded from their Go implementation
  under the Go names: `sort.Slice` (the pattern-defeating quicksort of Go 1.19
  and later), `strings.Split`, `strings.TrimSpace`, `strings.ToLower`, the
  padding of `fmt`, and `encoding/json` as far as `Config` goes through it.
  What these routines take from tables, the terminal or the decoding of the
  service's records is carried in the structure `Lib`.
-/

namespace TrelloCli

/-! ## Data model (`src/trello/trello.go`) -/

/-- The record `trello.Card`. -/
structure Card where
  ID : String
  Name : String
  IDMembers : List String
  ShortLink : String
  IDShort : Int
  IDList : String
  deriving DecidableEq, Repr

/-- The record `trello.List`. -/
structure BoardList where
  ID : String
  Name : String
  deriving DecidableEq, Repr

/-- The record `trello.Board`. -/
structure Board where
  ID : String
  Name : String
  deriving DecidableEq, Repr

/-- The record `trello.Organization`. -/
structure Organization where
  ID : String
  Name : String
  deriving DecidableEq, Repr

/-- The field `Data` of `trello.Comment`. -/
structure CommentData where
  Text : String
  deriving DecidableEq, Repr

/-- The field `MemberCreator` of `trello.Comment`. -/
structure MemberCreator where
  FullName : String
  Username : String
  deriving DecidableEq, Repr

/-- The record `trello.Comment`. -/
structure Comment where
  ID : String
  Data : CommentData
  Date : String
  MemberCreator : MemberCreator
  deriving DecidableEq, Repr

/-- An element of the field `Labels` of `trello.DetailedCard`. -/
structure Label where
  Name : String
  deriving DecidableEq, Repr

/-- The record `trello.DetailedCard`. -/
structure DetailedCard where
  ID : String
  Name : String
  Desc : String
  IDMembers : List String
  ShortLink : String
  IDShort : Int
  IDList : String
  Closed : Bool
  DateLastActivity : String
  Labels : List Label
  deriving DecidableEq, Repr

/-- Modelled from the spec: the result of `Client.GetMember`, whose declaration
is not among the sources; the spec gives it as `{full_name, username}` for one
member. -/
structure Member where
  FullName : String
  Username : String
  deriving DecidableEq, Repr

/-- The record `config.Config` (`src/config/config.go`, lines 10-15). -/
structure Config where
  APIKey : String
  APIToken : String
  Workspace : String
  BoardID : String
  deriving DecidableEq, Repr

/-- The anonymous struct collected in `cardsToDisplay` (`main`, lines 367-371). -/
structure Row where
  id : Int
  name : String
  listName : String
  deriving DecidableEq, Repr

/-! ## Go's built-in `map[string]V` -/

/-- A Go map with string keys: association list, the most recent binding of a
key first. -/
abbrev GoMap (V : Type) := List (String × V)

/-- The statement `m[k] = v`. -/
def GoMap.set {V : Type} (m : GoMap V) (k : String) (v : V) : GoMap V :=
  (k, v) :: m

/-- The two-result index expression `v, ok := m[k]`. -/
def GoMap.find {V : Type} (m : GoMap V) (k : String) : Option V :=
  List.lookup k m

/-- The index expression `m[k]`: the zero value when the key is absent. -/
def GoMap.get {V : Type} (zero : V) (m : GoMap V) (k : String) : V :=
  (m.find k).getD zero

/-! ## `sort.Slice` (Go 1.19 and later: pattern-defeating quicksort)

`data.Less(i, j)` is `less(i, j)` of the caller, here always a comparison
`lt data[i] data[j]` of two elements; `data.Swap(i, j)` exchanges two slots.  -/

section SortSlice

variable {α : Type}

/-- The method `data.Swap(i, j)`. -/
def swapAt (data : List α) (i j : Nat) : List α :=
  match data[i]?, data[j]? with
  | some x, some y => (data.set i y).set j x
  | _, _ => data

/-- The method `data.Less(i, j)`. -/
def lessAt (lt : α → α → Bool) (data : List α) (i j : Nat) : Bool :=
  match data[i]?, data[j]? with
  | some x, some y => lt x y
  | _, _ => false

/-- The inner loop of `insertionSort_func`:
`for j := i; j > a && data.Less(j, j-1); j-- { data.Swap(j, j-1) }`. -/
def insertionSort_inner (lt : α → α → Bool) (a : Nat) : Nat → List α → List α
  | 0, data => data
  | j + 1, data =>
    if j + 1 > a && lessAt lt data (j + 1) j then
      insertionSort_inner lt a j (swapAt data (j + 1) j)
    else data

/-- The outer loop of `insertionSort_func`, `for i := ...; i < b; i++`, with
`n` the number of iterations left. -/
def insertionSort_outer (lt : α → α → Bool) (a b : Nat) : Nat → Nat → List α → List α
  | 0, _, data => data
  | n + 1, i, data =>
    if i < b then insertionSort_outer lt a b n (i + 1) (insertionSort_inner lt a i data)
    else data

/-- The routine `insertionSort_func(data, a, b)`: sorts `data[a:b]`. -/
def insertionSort_func (lt : α → α → Bool) (data : List α) (a b : Nat) : List α :=
  insertionSort_outer lt a b (b - (a + 1)) (a + 1) data

/-- The routine `siftDown_func(data, lo, hi, first)`; `root` starts at `lo` and
grows in every round, `fuel` bounds the rounds. -/
def siftDown_func (lt : α → α → Bool) (hi first : Nat) : Nat → Nat → List α → List α
  | 0, _, data => data
  | fuel + 1, root, data =>
    let child := 2 * root + 1
    if child ≥ hi then data
    else
      let child :=
        if child + 1 < hi && lessAt lt data (first + child) (first + child + 1) then child + 1
        else child
      if !lessAt lt data (first + root) (first + child) then data
      else siftDown_func lt hi first fuel child (swapAt data (first + root) (first + child))

/-- First loop of `heapSort_func`: `for i := (hi-1)/2; i >= 0; i-- { siftDown(i, hi) }`. -/
def heapSort_build (lt : α → α → Bool) (hi first : Nat) : Nat → List α → List α
  | 0, data => siftDown_func lt hi first hi 0 data
  | i + 1, data => heapSort_build lt hi first i (siftDown_func lt hi first hi (i + 1) data)

/-- Second loop of `heapSort_func`:
`for i := hi-1; i >= 0; i-- { Swap(first, first+i); siftDown(lo, i) }`, with
`n = i + 1`. -/
def heapSort_pop (lt : α → α → Bool) (first : Nat) : Nat → List α → List α
  | 0, data => data
  | i + 1, data =>
    heapSort_pop lt first i (siftDown_func lt i first i 0 (swapAt data first (first + i)))

/-- The routine `heapSort_func(data, a, b)`. -/
def heapSort_func (lt : α → α → Bool) (data : List α) (a b : Nat) : List α :=
  let hi := b - a
  heapSort_pop lt a hi (heapSort_build lt hi a ((hi - 1) / 2) data)

/-- The loop `for i <= j && data.Less(i, a) { i++ }` (and its negated twin),
with the loop test `p i`; `fuel` bounds the rounds. -/
def scanUp (p : Nat → Bool) (j : Nat) : Nat → Nat → Nat
  | 0, i => i
  | fuel + 1, i => if i ≤ j && p i then scanUp p j fuel (i + 1) else i

/-- The loop `for i <= j && !data.Less(j, a) { j-- }` (and its negated twin),
with the loop test `p j`; the callers have `i ≥ 1`. -/
def scanDown (p : Nat → Bool) (i : Nat) : Nat → Nat
  | 0 => 0
  | j + 1 => if i ≤ j + 1 && p (j + 1) then scanDown p i j else j + 1

/-- The main loop of `partition_func`; returns the data and the final `j`. -/
def partition_loop (lt : α → α → Bool) (a : Nat) : Nat → List α → Nat → Nat → List α × Nat
  | 0, data, _, j => (data, j)
  | fuel + 1, data, i, j =>
    let i := scanUp (fun i => lessAt lt data i a) j (j + 1 - i) i
    let j := scanDown (fun j => !lessAt lt data j a) i j
    if i > j then (data, j)
    else partition_loop lt a fuel (swapAt data i j) (i + 1) (j - 1)

/-- The routine `partition_func(data, a, b, pivot)`: returns the data, the new
pivot position and `alreadyPartitioned`. -/
def partition_func (lt : α → α → Bool) (data : List α) (a b pivot : Nat) :
    List α × Nat × Bool :=
  let data := swapAt data a pivot
  let i := a + 1
  let j := b - 1
  let i := scanUp (fun i => lessAt lt data i a) j (j + 1 - i) i
  let j := scanDown (fun j => !lessAt lt data j a) i j
  if i > j then (swapAt data j a, j, true)
  else
    let data := swapAt data i j
    let r := partition_loop lt a (j + 1 - i) data (i + 1) (j - 1)
    (swapAt r.1 r.2 a, r.2, false)

/-- The loop of `partitionEqual_func`; returns the data and the final `i`. -/
def partitionEqual_loop (lt : α → α → Bool) (a : Nat) : Nat → List α → Nat → Nat → List α × Nat
  | 0, data, i, _ => (data, i)
  | fuel + 1, data, i, j =>
    let i := scanUp (fun i => !lessAt lt data a i) j (j + 1 - i) i
    let j := scanDown (fun j => lessAt lt data a j) i j
    if i > j then (data, i)
    else partitionEqual_loop lt a fuel (swapAt data i j) (i + 1) (j - 1)

/-- The routine `partitionEqual_func(data, a, b, pivot)`. -/
def partitionEqual_func (lt : α → α → Bool) (data : List α) (a b pivot : Nat) : List α × Nat :=
  let data := swapAt data a pivot
  partitionEqual_loop lt a (b - a) data (a + 1) (b - 1)

/-- The inner loop of `partialInsertionSort_func`:
`for i < b && !data.Less(i, i-1) { i++ }`, `n` bounding the rounds. -/
def sortedRun (lt : α → α → Bool) (data : List α) (b : Nat) : Nat → Nat → Nat
  | 0, i => i
  | n + 1, i => if i < b && !lessAt lt data i (i - 1) then sortedRun lt data b n (i + 1) else i

/-- The loop "shift the smaller one to the left":
`for j := i - 1; j >= 1; j-- { if !Less(j, j-1) { break }; Swap(j, j-1) }`. -/
def shiftLeft_loop (lt : α → α → Bool) : Nat → List α → List α
  | 0, data => data
  | j + 1, data =>
    if !lessAt lt data (j + 1) j then data
    else shiftLeft_loop lt j (swapAt data (j + 1) j)

/-- The loop "shift the greater one to the right":
`for j := i + 1; j < b; j++ { if !Less(j, j-1) { break }; Swap(j, j-1) }`,
`n` bounding the rounds. -/
def shiftRight_loop (lt : α → α → Bool) (b : Nat) : Nat → Nat → List α → List α
  | 0, _, data => data
  | n + 1, j, data =>
    if j < b then
      if !lessAt lt data j (j - 1) then data
      else shiftRight_loop lt b n (j + 1) (swapAt data j (j - 1))
    else data

/-- The loop `for j := 0; j < maxSteps; j++` of `partialInsertionSort_func`,
`steps` rounds left; returns the data and the boolean result. -/
def partialInsertionSort_loop (lt : α → α → Bool) (a b : Nat) :
    Nat → Nat → List α → List α × Bool
  | 0, _, data => (data, false)
  | steps + 1, i, data =>
    let i := sortedRun lt data b (b - i) i
    if i = b then (data, true)
    else if b - a < 50 then (data, false)
    else
      let data := swapAt data i (i - 1)
      let data := if i - a ≥ 2 then shiftLeft_loop lt (i - 1) data else data
      let data := if b - i ≥ 2 then shiftRight_loop lt b (b - (i + 1)) (i + 1) data else data
      partialInsertionSort_loop lt a b steps i data

/-- The routine `partialInsertionSort_func(data, a, b)` (`maxSteps = 5`,
`shortestShifting = 50`). -/
def partialInsertionSort_func (lt : α → α → Bool) (data : List α) (a b : Nat) : List α × Bool :=
  partialInsertionSort_loop lt a b 5 (a + 1) data

/-- The function `bits.Len`: the number of bits needed to write `n`. -/
def bitsLen_aux : Nat → Nat → Nat
  | 0, _ => 0
  | fuel + 1, n => if n = 0 then 0 else bitsLen_aux fuel (n / 2) + 1

/-- The function `bits.Len(uint(n))`. -/
def bitsLen (n : Nat) : Nat := bitsLen_aux n n

/-- The function `nextPowerOfTwo(length)`. -/
def nextPowerOfTwo (length : Nat) : Nat := 2 ^ bitsLen length

/-- The loop `for i := 0; i < 3; i++` of `breakPatterns_func`; `rng` is the
step `random.Next()` of the library's xorshift generator on its 64-bit state
`random`. -/
def breakPatterns_loop (rng : Nat → Nat) (a length idx modulus : Nat) :
    Nat → Nat → Nat → List α → List α
  | 0, _, _, data => data
  | n + 1, i, random, data =>
    let random := rng random
    let other := random % modulus
    let other := if other ≥ length then other - length else other
    breakPatterns_loop rng a length idx modulus n (i + 1) random
      (swapAt data (idx - 1 + i) (a + other))

/-- The routine `breakPatterns_func(data, a, b)`. -/
def breakPatterns_func (rng : Nat → Nat) (data : List α) (a b : Nat) : List α :=
  let length := b - a
  if length ≥ 8 then
    breakPatterns_loop rng a length (a + (length / 4) * 2 - 1) (nextPowerOfTwo length) 3 0
      length data
  else data

/-- The type `sortedHint`. -/
inductive sortedHint where
  | unknownHint
  | increasingHint
  | decreasingHint
  deriving DecidableEq, Repr

/-- The routine `order2_func(data, a, b, swaps)`; the counter is returned. -/
def order2_func (lt : α → α → Bool) (data : List α) (a b swaps : Nat) : Nat × Nat × Nat :=
  if lessAt lt data b a then (b, a, swaps + 1) else (a, b, swaps)

/-- The routine `median_func(data, a, b, c, swaps)`; returns the index and the counter. -/
def median_func (lt : α → α → Bool) (data : List α) (a b c swaps : Nat) : Nat × Nat :=
  let r1 := order2_func lt data a b swaps
  let r2 := order2_func lt data r1.2.1 c r1.2.2
  let r3 := order2_func lt data r1.1 r2.1 r2.2.2
  (r3.2.1, r3.2.2)

/-- The routine `medianAdjacent_func(data, a, swaps)`. -/
def medianAdjacent_func (lt : α → α → Bool) (data : List α) (a swaps : Nat) : Nat × Nat :=
  median_func lt data (a - 1) a (a + 1) swaps

/-- The routine `choosePivot_func(data, a, b)` (`shortestNinther = 50`,
`maxSwaps = 4 * 3`). -/
def choosePivot_func (lt : α → α → Bool) (data : List α) (a b : Nat) : Nat × sortedHint :=
  let l := b - a
  let i := a + l / 4 * 1
  let j := a + l / 4 * 2
  let k := a + l / 4 * 3
  let js : Nat × Nat :=
    if l ≥ 8 then
      if l ≥ 50 then
        let mi := medianAdjacent_func lt data i 0
        let mj := medianAdjacent_func lt data j mi.2
        let mk := medianAdjacent_func lt data k mj.2
        median_func lt data mi.1 mj.1 mk.1 mk.2
      else median_func lt data i j k 0
    else (j, 0)
  if js.2 = 0 then (js.1, sortedHint.increasingHint)
  else if js.2 = 12 then (js.1, sortedHint.decreasingHint)
  else (js.1, sortedHint.unknownHint)

/-- The loop of `reverseRange_func`: `for i < j { Swap(i, j); i++; j-- }`. -/
def reverseRange_loop : Nat → Nat → Nat → List α → List α
  | 0, _, _, data => data
  | n + 1, i, j, data =>
    if i < j then reverseRange_loop n (i + 1) (j - 1) (swapAt data i j) else data

/-- The routine `reverseRange_func(data, a, b)`. -/
def reverseRange_func (data : List α) (a b : Nat) : List α :=
  reverseRange_loop (b - a) a (b - 1) data

/-- The routine `pdqsort_func(data, a, b, limit)` (`maxInsertion = 12`).  One
unit of `fuel` is spent per round of its `for` loop and per recursive call;
every round shrinks `b - a`, so `b - a + 1` units are enough.  The locals
`wasBalanced` and `wasPartitioned` are carried from round to round. -/
def pdqsort_func (lt : α → α → Bool) (rng : Nat → Nat) :
    Nat → List α → Nat → Nat → Nat → Bool → Bool → List α
  | 0, data, _, _, _, _, _ => data
  | fuel + 1, data, a, b, limit, wasBalanced, wasPartitioned =>
    let length := b - a
    if length ≤ 12 then insertionSort_func lt data a b
    else if limit = 0 then heapSort_func lt data a b
    else
      let data := if !wasBalanced then breakPatterns_func rng data a b else data
      let limit := if !wasBalanced then limit - 1 else limit
      let ph := choosePivot_func lt data a b
      let data := if ph.2 = sortedHint.decreasingHint then reverseRange_func data a b else data
      let pivot := if ph.2 = sortedHint.decreasingHint then (b - 1) - (ph.1 - a) else ph.1
      let hint := if ph.2 = sortedHint.decreasingHint then sortedHint.increasingHint else ph.2
      let pis :=
        if wasBalanced && wasPartitioned && hint = sortedHint.increasingHint then
          partialInsertionSort_func lt data a b
        else (data, false)
      if pis.2 then pis.1
      else
        let data := pis.1
        if a > 0 && !lessAt lt data (a - 1) pivot then
          let r := partitionEqual_func lt data a b pivot
          pdqsort_func lt rng fuel r.1 r.2 b limit wasBalanced wasPartitioned
        else
          let r := partition_func lt data a b pivot
          let data := r.1
          let mid := r.2.1
          let leftLen := mid - a
          let rightLen := b - mid
          let balanceThreshold := length / 8
          if leftLen < rightLen then
            let data := pdqsort_func lt rng fuel data a mid limit true true
            pdqsort_func lt rng fuel data (mid + 1) b limit (leftLen ≥ balanceThreshold) r.2.2
          else
            let data := pdqsort_func lt rng fuel data (mid + 1) b limit true true
            pdqsort_func lt rng fuel data a mid limit (rightLen ≥ balanceThreshold) r.2.2

/-- The function `sort.Slice(x, less)` with `less(i, j) = lt x[i] x[j]`. -/
def Slice (lt : α → α → Bool) (rng : Nat → Nat) (x : List α) : List α :=
  pdqsort_func lt rng (x.length + 1) x 0 x.length (bitsLen x.length) true true

end SortSlice

/-! ## Library parameters

Library behaviour that rests on Unicode tables, on the state of the terminal,
or on the decoding of the service's records is carried as a parameter. -/

/-- What the embedded library routines take from outside the program text. -/
structure Lib where
  /-- The function `unicode.ToLower` on runes above U+007F (the Unicode case tables). -/
  unicodeLower : Char → Char
  /-- The step `(*xorshift).Next` of the generator used by `breakPatterns_func`. -/
  xorshiftNext : Nat → Nat
  /-- The method `lipgloss.Style.Render` of the yellow style of `main`, line 428:
  the text itself on a terminal without colour, the text wrapped in escape
  sequences on a colour terminal. -/
  styleRender : String → String
  /-- The function `foldName` of `encoding/json`: the case-folded form of an
  object key, which the decoder uses when no field has the exact name. -/
  foldName : List Char → List Char
  /-- The function `filepath.Join`. -/
  filepathJoin : List String → String
  /-- The function `filepath.Dir`. -/
  filepathDir : String → String
  /-- The call `json.Unmarshal(body, &cards)` with `cards []Card`. -/
  unmarshalCards : String → Except String (List Card)
  /-- The call `json.Unmarshal(body, &member)` of `GetMemberID`, field `ID`. -/
  unmarshalMemberID : String → Except String String
  /-- The call `json.Unmarshal(body, &organizations)`. -/
  unmarshalOrganizations : String → Except String (List Organization)
  /-- The call `json.Unmarshal(body, &boards)`. -/
  unmarshalBoards : String → Except String (List Board)
  /-- The call `json.Unmarshal(body, &lists)`. -/
  unmarshalLists : String → Except String (List BoardList)
  /-- The call `json.Unmarshal(body, &card)` with `card DetailedCard`. -/
  unmarshalDetailedCard : String → Except String DetailedCard
  /-- The call `json.Unmarshal(body, &comments)`. -/
  unmarshalComments : String → Except String (List Comment)
  /-- The decoding of a member record by `GetMember`. -/
  unmarshalMember : String → Except String Member
  /-- The calls `time.Parse(time.RFC3339, date)` and
  `Format("Jan 2, 2006 at 3:04 PM")`: `none` when parsing fails. -/
  formatDate : String → Option String
  /-- The markdown renderer of `glamour`: `glamour.Render(text, "dark")` when
  the flag is set, the auto-style renderer without word wrap otherwise. -/
  glamourRender : Bool → String → Except String String

/-! ## Go strings (`string`, package `unicode/utf8`)

A Go `string` is a sequence of bytes.  The strings of the flows are text: they
come out of the JSON decoder, which writes valid UTF-8 only, or out of the
prompts, and are carried as Lean `String`s.  `SaveConfig` is embedded for every
Go string. -/

/-- A byte. -/
abbrev Byte := Fin 256

/-- A Go `string`: a sequence of bytes, valid UTF-8 or not. -/
abbrev GoString := List Byte

/-- The conversion `byte(n)`. -/
def byte (n : Nat) : Byte := Fin.ofNat n

/-- The function `utf8.AppendRune` on a rune that is a Unicode scalar value:
the UTF-8 encoding of the rune. -/
def encodeRune (c : Char) : GoString :=
  let r := c.toNat
  if r < 0x80 then [byte r]
  else if r < 0x800 then [byte (0xC0 + r / 64), byte (0x80 + r % 64)]
  else if r < 0x10000 then
    [byte (0xE0 + r / 4096), byte (0x80 + r / 64 % 64), byte (0x80 + r % 64)]
  else
    [byte (0xF0 + r / 262144), byte (0x80 + r / 4096 % 64), byte (0x80 + r / 64 % 64),
      byte (0x80 + r % 64)]

/-- The bytes of a text: the Go string that holds it. -/
def utf8 (s : String) : GoString :=
  s.data.flatMap encodeRune

/-- The tables `first` and `acceptRanges` of `unicode/utf8` for a leading byte
of an encoding of more than one byte: the width of the encoding and the bounds
of the second byte; `none` for every other byte above 0x7F. -/
def leading (s0 : Nat) : Option (Nat × Nat × Nat) :=
  if 0xC2 ≤ s0 ∧ s0 ≤ 0xDF then some (2, 0x80, 0xBF)
  else if s0 = 0xE0 then some (3, 0xA0, 0xBF)
  else if (0xE1 ≤ s0 ∧ s0 ≤ 0xEC) ∨ s0 = 0xEE ∨ s0 = 0xEF then some (3, 0x80, 0xBF)
  else if s0 = 0xED then some (3, 0x80, 0x9F)
  else if s0 = 0xF0 then some (4, 0x90, 0xBF)
  else if 0xF1 ≤ s0 ∧ s0 ≤ 0xF3 then some (4, 0x80, 0xBF)
  else if s0 = 0xF4 then some (4, 0x80, 0x8F)
  else none

/-- The function `utf8.DecodeRuneInString`: the rune at the head of the string
and its width; `(none, 1)` stands for the result `(RuneError, 1)` of an invalid
encoding, `(none, 0)` for the result of the empty string. -/
def DecodeRuneInString : GoString → Option Char × Nat
  | [] => (none, 0)
  | s0 :: rest =>
    if s0.val < 0x80 then (some (Char.ofNat s0.val), 1)
    else
      match leading s0.val with
      | none => (none, 1)
      | some (sz, lo, hi) =>
        if (s0 :: rest).length < sz then (none, 1)
        else
          match rest with
          | [] => (none, 1)
          | s1 :: rest =>
            if s1.val < lo ∨ hi < s1.val then (none, 1)
            else if sz ≤ 2 then (some (Char.ofNat (s0.val % 32 * 64 + s1.val % 64)), 2)
            else
              match rest with
              | [] => (none, 1)
              | s2 :: rest =>
                if s2.val < 0x80 ∨ 0xBF < s2.val then (none, 1)
                else if sz ≤ 3 then
                  (some (Char.ofNat (s0.val % 16 * 4096 + s1.val % 64 * 64 + s2.val % 64)), 3)
                else
                  match rest with
                  | [] => (none, 1)
                  | s3 :: _ =>
                    if s3.val < 0x80 ∨ 0xBF < s3.val then (none, 1)
                    else
                      (some (Char.ofNat (s0.val % 8 * 262144 + s1.val % 64 * 4096
                        + s2.val % 64 * 64 + s3.val % 64)), 4)

/-- The runes of a Go string as a loop over `utf8.DecodeRuneInString` reads
them: `some c` for an encoded rune, `none` for a byte that starts no valid
encoding.  The first `skip` bytes belong to the rune read before. -/
def runes : Nat → GoString → List (Option Char)
  | _, [] => []
  | skip + 1, _ :: rest => runes skip rest
  | 0, s0 :: rest =>
    (DecodeRuneInString (s0 :: rest)).1 :: runes ((DecodeRuneInString (s0 :: rest)).2 - 1) rest

/-- The function `utf8.ValidString`: every byte belongs to a valid encoding. -/
def ValidString (s : GoString) : Bool :=
  (runes 0 s).all Option.isSome

/-- The record `config.Config` with Go strings in its fields, as `SaveConfig`
receives it: the four strings are arbitrary byte sequences. -/
structure RawConfig where
  APIKey : GoString
  APIToken : GoString
  Workspace : GoString
  BoardID : GoString
  deriving DecidableEq, Repr

/-- The Go value of a config whose strings are text. -/
def Config.bytes (config : Config) : RawConfig :=
  ⟨utf8 config.APIKey, utf8 config.APIToken, utf8 config.Workspace, utf8 config.BoardID⟩

/-! ## The package `encoding/json`, as far as `Config` uses it -/

/-- A parsed JSON text. -/
inductive JValue where
  | null
  | bool (b : Bool)
  | number
  | str (s : List Char)
  | arr (items : List JValue)
  | obj (members : List (List Char × JValue))
  deriving Repr

/-- The table `hex` of the encoder: the lower-case digit of `n < 16`. -/
def hexChar (n : Nat) : Char :=
  if n < 10 then Char.ofNat ('0'.toNat + n) else Char.ofNat ('a'.toNat + (n - 10))

/-- The set `htmlSafeSet` of the encoder: the ASCII characters written as they are. -/
def htmlSafe (c : Char) : Bool :=
  0x20 ≤ c.toNat && c.toNat < 0x80 && c != '"' && c != '&' && c != '<' && c != '>' && c != '\\'

/-- One character of a string as `appendString` (with `escapeHTML`) writes it
(Go 1.22 and later; earlier versions write the backspace and the form feed as
`\u0008` and `\u000c`, which read back as the same characters). -/
def escapeChar (c : Char) : List Char :=
  if c.toNat < 0x80 then
    if htmlSafe c then [c]
    else if c = '\\' ∨ c = '"' then ['\\', c]
    else if c.toNat = 0x08 then ['\\', 'b']
    else if c.toNat = 0x0C then ['\\', 'f']
    else if c = '\n' then ['\\', 'n']
    else if c = '\r' then ['\\', 'r']
    else if c = '\t' then ['\\', 't']
    else ['\\', 'u', '0', '0', hexChar (c.toNat / 16), hexChar (c.toNat % 16)]
  else if c.toNat = 0x2028 ∨ c.toNat = 0x2029 then
    ['\\', 'u', '2', '0', '2', hexChar (c.toNat % 16)]
  else [c]

/-- One step of the loop of `appendString`: an encoded rune is written as
`escapeChar` gives it, a byte that starts no valid encoding as the six
characters `\ufffd`. -/
def escapeRune : Option Char → List Char
  | some c => escapeChar c
  | none => ['\\', 'u', 'f', 'f', 'f', 'd']

/-- The function `appendString`: a Go string as a JSON string literal. -/
def appendString (s : GoString) : List Char :=
  '"' :: ((runes 0 s).flatMap escapeRune ++ ['"'])

/-- The function `json.MarshalIndent(config, "", "  ")` on a non-nil `*Config`:
an object of four string members, which the encoder always succeeds in
writing.  The text is valid UTF-8 whatever the four strings are. -/
def MarshalIndent (config : RawConfig) : String :=
  String.mk
    ("\x7b\n  \"api_key\": ".data ++ appendString config.APIKey
      ++ ",\n  \"api_token\": ".data ++ appendString config.APIToken
      ++ ",\n  \"workspace\": ".data ++ appendString config.Workspace
      ++ ",\n  \"board_id\": ".data ++ appendString config.BoardID
      ++ "\n\x7d".data)

/-- The value of a hexadecimal digit. -/
def hexVal (c : Char) : Option Nat :=
  let n := c.toNat
  if '0'.toNat ≤ n ∧ n ≤ '9'.toNat then some (n - '0'.toNat)
  else if 'a'.toNat ≤ n ∧ n ≤ 'f'.toNat then some (n - 'a'.toNat + 10)
  else if 'A'.toNat ≤ n ∧ n ≤ 'F'.toNat then some (n - 'A'.toNat + 10)
  else none

/-- The function `getu4`: the number written by four hexadecimal digits. -/
def getu4 (a b c d : Char) : Option Nat :=
  match hexVal a, hexVal b, hexVal c, hexVal d with
  | some x, some y, some z, some w => some (((x * 16 + y) * 16 + z) * 16 + w)
  | _, _, _, _ => none

/-- The escapes of one character: the character written after the backslash. -/
def unescape (e : Char) : Option Char :=
  if e = '"' then some '"' else if e = '\\' then some '\\' else if e = '/' then some '/'
  else if e = 'b' then some (Char.ofNat 0x08) else if e = 'f' then some (Char.ofNat 0x0C)
  else if e = 'n' then some '\n' else if e = 'r' then some '\r' else if e = 't' then some '\t'
  else none

/-- Put a decoded character in front of the rest of a decoded string. -/
def consChar (c : Char) (r : Option (List Char × List Char)) : Option (List Char × List Char) :=
  r.map (fun p => (c :: p.1, p.2))

/-- A JSON string literal after its opening quote (scanner and `unquote`
together): the decoded text and the input after the closing quote.  A
`\u` escape of a surrogate half that is not followed by its other half
decodes to U+FFFD. -/
def unquoteBody : Nat → List Char → Option (List Char × List Char)
  | 0, _ => none
  | _ + 1, [] => none
  | fuel + 1, c :: rest =>
    if c = '"' then some ([], rest)
    else if c = '\\' then
      match rest with
      | [] => none
      | e :: rest =>
        if e = 'u' then
          match rest with
          | h1 :: h2 :: h3 :: h4 :: rest =>
            match getu4 h1 h2 h3 h4 with
            | none => none
            | some rr =>
              if 0xD800 ≤ rr ∧ rr < 0xE000 then
                match rest with
                | b :: u :: g1 :: g2 :: g3 :: g4 :: rest1 =>
                  match (if b = '\\' ∧ u = 'u' then getu4 g1 g2 g3 g4 else none) with
                  | some rr1 =>
                    if rr < 0xDC00 ∧ 0xDC00 ≤ rr1 ∧ rr1 < 0xE000 then
                      consChar (Char.ofNat ((rr - 0xD800) * 0x400 + (rr1 - 0xDC00) + 0x10000))
                        (unquoteBody fuel rest1)
                    else consChar (Char.ofNat 0xFFFD) (unquoteBody fuel rest)
                  | none => consChar (Char.ofNat 0xFFFD) (unquoteBody fuel rest)
                | _ => consChar (Char.ofNat 0xFFFD) (unquoteBody fuel rest)
              else consChar (Char.ofNat rr) (unquoteBody fuel rest)
          | _ => none
        else
          match unescape e with
          | none => none
          | some c => consChar c (unquoteBody fuel rest)
    else if c.toNat < 0x20 then none
    else consChar c (unquoteBody fuel rest)

/-- White space between JSON tokens. -/
def isJSONSpace (c : Char) : Bool :=
  c = ' ' || c = '\t' || c = '\r' || c = '\n'

/-- Skip white space. -/
def skipSpace (input : List Char) : List Char :=
  input.dropWhile isJSONSpace

/-- A decimal digit. -/
def isDigit (c : Char) : Bool := '0'.toNat ≤ c.toNat && c.toNat ≤ '9'.toNat

/-- The digits `[0-9]+`: the input after them, `none` when there is no digit. -/
def digits1 (input : List Char) : Option (List Char) :=
  match input with
  | c :: _ => if isDigit c then some (input.dropWhile isDigit) else none
  | [] => none

/-- A JSON number, `-?(0|[1-9][0-9]*)(\.[0-9]+)?([eE][+-]?[0-9]+)?`: the input after it. -/
def scanNumber (input : List Char) : Option (List Char) :=
  let input := match input with
    | '-' :: rest => rest
    | _ => input
  let afterInt : Option (List Char) :=
    match input with
    | c :: rest => if c = '0' then some rest else if isDigit c then some (rest.dropWhile isDigit) else none
    | [] => none
  match afterInt with
  | none => none
  | some input =>
    let afterFrac : Option (List Char) :=
      match input with
      | c :: rest => if c = '.' then digits1 rest else some input
      | [] => some input
    match afterFrac with
    | none => none
    | some input =>
      match input with
      | c :: rest =>
        if c = 'e' ∨ c = 'E' then
          match rest with
          | s :: rest1 => if s = '+' ∨ s = '-' then digits1 rest1 else digits1 rest
          | [] => none
        else some input
      | [] => some input

/-- The limit `maxNestingDepth` of the scanner. -/
def maxNestingDepth : Nat := 10000

/-- The rest of a literal name (`true`, `false`, `null`) after its first
letter: the input after it. -/
def scanLiteral : List Char → List Char → Option (List Char)
  | [], input => some input
  | _ :: _, [] => none
  | l :: lit, c :: input => if c = l then scanLiteral lit input else none

mutual
/-- One JSON value at the head of the input (no white space before it). -/
def parseValue : Nat → Nat → List Char → Option (JValue × List Char)
  | 0, _, _ => none
  | _ + 1, _, [] => none
  | fuel + 1, depth, c :: rest =>
    if c = '"' then (unquoteBody (rest.length + 1) rest).map (fun p => (JValue.str p.1, p.2))
    else if c = '\x7b' then
      if depth + 1 > maxNestingDepth then none
      else
        match skipSpace rest with
        | [] => none
        | d :: rest1 =>
          if d = '\x7d' then some (JValue.obj [], rest1)
          else (parseMembers fuel (depth + 1) (d :: rest1)).map (fun p => (JValue.obj p.1, p.2))
    else if c = '[' then
      if depth + 1 > maxNestingDepth then none
      else
        match skipSpace rest with
        | [] => none
        | d :: rest1 =>
          if d = ']' then some (JValue.arr [], rest1)
          else (parseItems fuel (depth + 1) (d :: rest1)).map (fun p => (JValue.arr p.1, p.2))
    else if c = 't' then (scanLiteral ['r', 'u', 'e'] rest).map (fun r => (JValue.bool true, r))
    else if c = 'f' then
      (scanLiteral ['a', 'l', 's', 'e'] rest).map (fun r => (JValue.bool false, r))
    else if c = 'n' then (scanLiteral ['u', 'l', 'l'] rest).map (fun r => (JValue.null, r))
    else (scanNumber (c :: rest)).map (fun r => (JValue.number, r))
/-- The members of an object after its opening brace or a comma (white space
skipped), up to and including the closing brace. -/
def parseMembers : Nat → Nat → List Char → Option (List (List Char × JValue) × List Char)
  | 0, _, _ => none
  | _ + 1, _, [] => none
  | fuel + 1, depth, c :: rest =>
    if c = '"' then
      match unquoteBody (rest.length + 1) rest with
      | none => none
      | some (key, rest1) =>
        match skipSpace rest1 with
        | [] => none
        | d :: rest2 =>
          if d = ':' then
            match parseValue fuel depth (skipSpace rest2) with
            | none => none
            | some (v, rest3) =>
              match skipSpace rest3 with
              | [] => none
              | e :: rest4 =>
                if e = ',' then
                  (parseMembers fuel depth (skipSpace rest4)).map
                    (fun p => ((key, v) :: p.1, p.2))
                else if e = '\x7d' then some ([(key, v)], rest4)
                else none
          else none
    else none
/-- The items of an array after `[` or `,` (white space skipped), up to and
including the closing `]`. -/
def parseItems : Nat → Nat → List Char → Option (List JValue × List Char)
  | 0, _, _ => none
  | fuel + 1, depth, input =>
    match parseValue fuel depth input with
    | none => none
    | some (v, rest) =>
      match skipSpace rest with
      | [] => none
      | e :: rest1 =>
        if e = ',' then (parseItems fuel depth (skipSpace rest1)).map (fun p => (v :: p.1, p.2))
        else if e = ']' then some ([v], rest1)
        else none
end

/-- The function `checkValid` together with the scan of the decoder: the one
JSON value of a text, white space allowed around it. -/
def parseJSON (data : List Char) : Option JValue :=
  match parseValue (data.length + 1) 0 (skipSpace data) with
  | some (v, rest) => if skipSpace rest = [] then some v else none
  | none => none

/-- The field of `Config` that an object key names: the exact tag first, then
the case-folded comparison. -/
def configField (L : Lib) (key : List Char) : Option (Fin 4) :=
  if key = "api_key".data then some 0
  else if key = "api_token".data then some 1
  else if key = "workspace".data then some 2
  else if key = "board_id".data then some 3
  else if L.foldName key = L.foldName "api_key".data then some 0
  else if L.foldName key = L.foldName "api_token".data then some 1
  else if L.foldName key = L.foldName "workspace".data then some 2
  else if L.foldName key = L.foldName "board_id".data then some 3
  else none

/-- Assignment to the field with the given number. -/
def Config.setField (config : Config) (field : Fin 4) (s : String) : Config :=
  match field with
  | 0 => { config with APIKey := s }
  | 1 => { config with APIToken := s }
  | 2 => { config with Workspace := s }
  | 3 => { config with BoardID := s }

/-- One object member stored into the struct: a string is assigned, `null`
and unknown keys change nothing, any other value records a type error and the
decoding goes on. -/
def storeMember (L : Lib) (st : Config × Bool) (m : List Char × JValue) : Config × Bool :=
  match configField L m.1 with
  | none => st
  | some field =>
    match m.2 with
    | JValue.str s => (st.1.setField field (String.mk s), st.2)
    | JValue.null => st
    | _ => (st.1, true)

/-- The call `json.Unmarshal(data, &config)`: the struct afterwards and the error. -/
def Unmarshal (L : Lib) (data : String) (config : Config) : Config × Option String :=
  match parseJSON data.data with
  | none => (config, some "invalid character in JSON input")
  | some JValue.null => (config, none)
  | some (JValue.obj members) =>
    let r := members.foldl (storeMember L) (config, false)
    (r.1, if r.2 then some "json: cannot unmarshal value into Go struct field of type string"
      else none)
  | some _ => (config, some "json: cannot unmarshal value into Go value of type config.Config")

/-! ## Config store (`src/config/config.go`) -/

/-- What `os.Stat` and `os.ReadFile` find at a path. -/
inductive Node where
  /-- No such file (`os.IsNotExist`). -/
  | missing
  /-- A regular file that can be read, with its contents: a text, as every file
  is that `SaveConfig` writes. -/
  | file (data : String)
  /-- Anything that exists and cannot be read, with the error of the read. -/
  | failing (err : String)
  deriving DecidableEq, Repr

/-- The file system as the config store sees it. -/
structure FS where
  /-- The first result of `os.UserHomeDir()`. -/
  homeDir : String
  /-- The state of every path. -/
  node : String → Node
  /-- The error of `os.MkdirAll(dir, 0755)`, if it fails. -/
  mkdirAllErr : String → Option String
  /-- The error of `os.WriteFile(path, data, 0644)`, if it fails. -/
  writeFileErr : String → Option String

/-- The constant `configDir`. -/
def configDir : String := ".config/trello_cli"

/-- The constant `configFile`. -/
def configFile : String := "config.json"

/-- The function `getConfigPath`. -/
def getConfigPath (L : Lib) (fs : FS) : String :=
  L.filepathJoin [fs.homeDir, configDir, configFile]

/-- The call `os.WriteFile(path, data, 0644)`: on success the path holds the
data and reads back; a failed write is modelled as leaving the state as it was. -/
def FS.writeFile (fs : FS) (path : String) (data : String) : Option String × FS :=
  match fs.writeFileErr path with
  | some err => (some err, fs)
  | none => (none, { fs with node := fun p => if p = path then Node.file data else fs.node p })

/-- The function `LoadConfig`: the config behind the returned pointer, or the
returned error.  The strings of the result are texts: the decoder stores valid
UTF-8 only. -/
def LoadConfig (L : Lib) (fs : FS) : Except String Config :=
  let path := getConfigPath L fs
  match fs.node path with
  | Node.missing => Except.ok ⟨"", "", "", ""⟩
  | Node.failing err => Except.error ("failed to read config file: " ++ err)
  | Node.file data =>
    match Unmarshal L data ⟨"", "", "", ""⟩ with
    | (_, some err) => Except.error ("failed to parse config file: " ++ err)
    | (config, none) => Except.ok config

/-- The function `SaveConfig` on a non-nil pointer to a config of arbitrary Go
strings: the error and the file system afterwards. -/
def SaveConfig (L : Lib) (fs : FS) (config : RawConfig) : Option String × FS :=
  let path := getConfigPath L fs
  let dir := L.filepathDir path
  match fs.mkdirAllErr dir with
  | some err => (some ("failed to create config directory: " ++ err), fs)
  | none =>
    let data := MarshalIndent config
    match fs.writeFile path data with
    | (some err, fs) => (some ("failed to write config file: " ++ err), fs)
    | (none, fs) => (none, fs)

/-! ## The package `strings` and `fmt` -/

/-- The function `unicode.ToLower`. -/
def unicodeToLower (L : Lib) (r : Char) : Char :=
  if r.toNat ≤ 0x7F then
    if 'A'.toNat ≤ r.toNat ∧ r.toNat ≤ 'Z'.toNat then Char.ofNat (r.toNat + ('a'.toNat - 'A'.toNat))
    else r
  else L.unicodeLower r

/-- The function `strings.ToLower`. -/
def ToLower (L : Lib) (s : String) : String :=
  ⟨s.data.map (unicodeToLower L)⟩

/-- The function `unicode.IsSpace`. -/
def unicodeIsSpace (r : Char) : Bool :=
  let n := r.toNat
  if n ≤ 0xFF then
    n = 0x09 || n = 0x0A || n = 0x0B || n = 0x0C || n = 0x0D || n = 0x20 || n = 0x85 || n = 0xA0
  else
    n = 0x1680 || (0x2000 ≤ n && n ≤ 0x200A) || n = 0x2028 || n = 0x2029 || n = 0x202F
      || n = 0x205F || n = 0x3000

/-- The function `strings.TrimSpace`: leading and trailing white space removed. -/
def TrimSpace (s : String) : String :=
  ⟨((s.data.dropWhile unicodeIsSpace).reverse.dropWhile unicodeIsSpace).reverse⟩

/-- The function `strings.Split(s, sep)` for a separator of one character, on
the characters of `s`. -/
def splitChars (sep : Char) : List Char → List (List Char)
  | [] => [[]]
  | c :: cs =>
    if c = sep then [] :: splitChars sep cs
    else
      match splitChars sep cs with
      | [] => [[c]]
      | piece :: pieces => (c :: piece) :: pieces

/-- The function `strings.Split(s, sep)` for a separator of one character. -/
def Split (s : String) (sep : Char) : List String :=
  (splitChars sep s.data).map String.mk

/-- The verb `%d` of `fmt` on an `int`. -/
def fmtInt (n : Int) : String := toString n

/-- The call `fmt.Sprintf("#%d", id)`. -/
def idStr (id : Int) : String := "#" ++ fmtInt id

/-- The verb `%-*s` of `fmt`: the text, then blanks up to `width` runes. -/
def padRight (width : Nat) (s : String) : String :=
  s ++ String.mk (List.replicate (width - s.length) ' ')

/-! ## Card listing flow (`main`, lines 267-279 and 352-430) -/

/-- Lines 268-279: the map `allowedLists`; `none` is the nil map of an empty
filter string. -/
def parseListFilter (L : Lib) (listFilter : String) : Option (GoMap Bool) :=
  if listFilter ≠ "" then
    some ((Split listFilter ',').foldl
      (fun allowedLists name =>
        let trimmedName := TrimSpace name
        if trimmedName ≠ "" then allowedLists.set (ToLower L trimmedName) true
        else allowedLists)
      [])
  else none

/-- Lines 353-356: the map from list id to list name. -/
def buildListMap (lists : List BoardList) : GoMap String :=
  lists.foldl (fun listMap list => listMap.set list.ID list.Name) []

/-- Lines 359-364: the closure `shouldIncludeList`. -/
def shouldIncludeList (L : Lib) (allowedLists : Option (GoMap Bool)) (listName : String) : Bool :=
  match allowedLists with
  | none => true
  | some m => GoMap.get false m (ToLower L listName)

/-- Lines 376-379 and 393-396: the list name of a card, `"Unknown"` for an
empty lookup result. -/
def resolveListName (listMap : GoMap String) (card : Card) : String :=
  let listName := GoMap.get "" listMap card.IDList
  if listName = "" then "Unknown" else listName

/-- Lines 380-386 and 397-403: the conditional `append` to `cardsToDisplay`. -/
def appendCard (L : Lib) (allowedLists : Option (GoMap Bool)) (listMap : GoMap String)
    (cardsToDisplay : List Row) (card : Card) : List Row :=
  let listName := resolveListName listMap card
  if shouldIncludeList L allowedLists listName then
    cardsToDisplay ++ [⟨card.IDShort, card.Name, listName⟩]
  else cardsToDisplay

/-- Lines 391-406: the loop over `card.IDMembers`, which stops at the first
member equal to `userID`. -/
def memberLoop (L : Lib) (allowedLists : Option (GoMap Bool)) (listMap : GoMap String)
    (userID : String) (card : Card) (cardsToDisplay : List Row) : List String → List Row
  | [] => cardsToDisplay
  | memberID :: rest =>
    if memberID = userID then appendCard L allowedLists listMap cardsToDisplay card
    else memberLoop L allowedLists listMap userID card cardsToDisplay rest

/-- Lines 373-408: the rows collected from the fetched cards, in fetch order. -/
def collectCards (L : Lib) (allCards : Bool) (allowedLists : Option (GoMap Bool))
    (listMap : GoMap String) (userID : String) (cards : List Card) : List Row :=
  if allCards then
    cards.foldl (fun cardsToDisplay card => appendCard L allowedLists listMap cardsToDisplay card) []
  else
    cards.foldl
      (fun cardsToDisplay card =>
        memberLoop L allowedLists listMap userID card cardsToDisplay card.IDMembers)
      []

/-- Line 412: the comparison handed to `sort.Slice`. -/
def rowLess (x y : Row) : Bool := decide (x.id < y.id)

/-- Lines 411-413: `sort.Slice(cardsToDisplay, ...)`. -/
def sortRows (L : Lib) (cardsToDisplay : List Row) : List Row :=
  Slice rowLess L.xorshiftNext cardsToDisplay

/-- Lines 416-422: the widest `"#" + short_id`, in bytes (the text is ASCII,
one byte per character). -/
def maxIDWidth (cardsToDisplay : List Row) : Nat :=
  cardsToDisplay.foldl
    (fun maxIDWidth card =>
      if (idStr card.id).length > maxIDWidth then (idStr card.id).length else maxIDWidth)
    0

/-- Line 429: the text written by
`fmt.Printf("%-*s %s\n", maxIDWidth+1, styledID.Render(idStr), card.name)`. -/
def printRow (L : Lib) (maxIDWidth : Nat) (card : Row) : String :=
  padRight (maxIDWidth + 1) (L.styleRender (idStr card.id)) ++ " " ++ card.name ++ "\n"

/-- Lines 352-413: the rows that are displayed, in display order. -/
def cardsToDisplay (L : Lib) (allCards : Bool) (listFilter : String) (userID : String)
    (cards : List Card) (lists : List BoardList) : List Row :=
  sortRows L
    (collectCards L allCards (parseListFilter L listFilter) (buildListMap lists) userID cards)

/-- Lines 415-430: one written line per displayed row. -/
def printCards (L : Lib) (rows : List Row) : List String :=
  rows.map (printRow L (maxIDWidth rows))

/-- Lines 352-430: what the listing writes to standard output once the cards
and lists are fetched, one entry per `Printf` call. -/
def listCards (L : Lib) (allCards : Bool) (listFilter : String) (userID : String)
    (cards : List Card) (lists : List BoardList) : List String :=
  printCards L (cardsToDisplay L allCards listFilter userID cards lists)

/-! ## API client (`src/trello/trello.go`) -/

/-- The constant `baseURL`. -/
def baseURL : String := "https://api.trello.com/1"

/-- A request as `makeRequest` builds it: method, URL without the query, and
the query parameters. -/
structure Request where
  method : String
  url : String
  query : List (String × String)
  deriving DecidableEq, Repr

/-- The part of `*http.Response` that the client reads; `Body` is the result
of `io.ReadAll(resp.Body)`. -/
structure Response where
  StatusCode : Int
  Status : String
  Body : Except String String

/-- The remote side: the result of `url.Parse`, `http.NewRequest` and
`c.client.Do(req)` for a request, which may depend on the requests made before. -/
abbrev Transport := List Request → Request → Except String Response

/-- The record `trello.Client` (its `*http.Client` is the transport). -/
structure Client where
  apiKey : String
  apiToken : String
  deriving DecidableEq, Repr

/-- The function `NewClient`. -/
def NewClient (apiKey apiToken : String) : Client := ⟨apiKey, apiToken⟩

/-- The method `url.Values.Set`. -/
def querySet (q : List (String × String)) (k v : String) : List (String × String) :=
  if q.any (fun kv => kv.1 = k) then q.map (fun kv => if kv.1 = k then (k, v) else kv)
  else q ++ [(k, v)]

/-- The method `Client.makeRequest` up to the call of `c.client.Do`: the request. -/
def Client.makeRequest (c : Client) (method endpoint : String) (params : List (String × String)) :
    Request :=
  let q := querySet [] "key" c.apiKey
  let q := querySet q "token" c.apiToken
  let q := params.foldl (fun q kv => querySet q kv.1 kv.2) q
  ⟨method, baseURL ++ endpoint, q⟩

/-- The text shared by the fetch methods of `Client` (for `GetCards`, lines
103-125): the request, the status check, the read of the body and the
decoding.  `zero` is the value returned next to an error.  The second
component is the list of requests made so far. -/
def Client.fetch {T : Type} (c : Client) (tr : Transport) (endpoint : String)
    (params : List (String × String)) (zero : T) (unmarshal : String → Except String T)
    (sent : List Request) : (T × Option String) × List Request :=
  let req := c.makeRequest "GET" endpoint params
  let sent1 := sent ++ [req]
  match tr sent req with
  | Except.error err => ((zero, some err), sent1)
  | Except.ok resp =>
    if resp.StatusCode ≠ 200 then
      ((zero, some ("API request failed with status: " ++ resp.Status)), sent1)
    else
      match resp.Body with
      | Except.error err => ((zero, some err), sent1)
      | Except.ok body =>
        match unmarshal body with
        | Except.error err => ((zero, some err), sent1)
        | Except.ok v => ((v, none), sent1)

/-- The method `Client.GetCards`. -/
def Client.GetCards (L : Lib) (c : Client) (tr : Transport) (boardID : String)
    (sent : List Request) : (List Card × Option String) × List Request :=
  c.fetch tr ("/boards/" ++ boardID ++ "/cards") [("members", "true")] [] L.unmarshalCards sent

/-- The method `Client.GetMemberID`. -/
def Client.GetMemberID (L : Lib) (c : Client) (tr : Transport)
    (sent : List Request) : (String × Option String) × List Request :=
  c.fetch tr "/members/me" [] "" L.unmarshalMemberID sent

/-- The method `Client.GetOrganizations`. -/
def Client.GetOrganizations (L : Lib) (c : Client) (tr : Transport)
    (sent : List Request) : (List Organization × Option String) × List Request :=
  c.fetch tr "/members/me/organizations" [] [] L.unmarshalOrganizations sent

/-- The method `Client.GetBoards`. -/
def Client.GetBoards (L : Lib) (c : Client) (tr : Transport) (organizationID : String)
    (sent : List Request) : (List Board × Option String) × List Request :=
  c.fetch tr ("/organizations/" ++ organizationID ++ "/boards") [("filter", "open")] []
    L.unmarshalBoards sent

/-- The method `Client.GetLists`. -/
def Client.GetLists (L : Lib) (c : Client) (tr : Transport) (boardID : String)
    (sent : List Request) : (List BoardList × Option String) × List Request :=
  c.fetch tr ("/boards/" ++ boardID ++ "/lists") [] [] L.unmarshalLists sent

/-- The method `Client.GetCardDetails`; the pointer result is `none` for nil. -/
def Client.GetCardDetails (L : Lib) (c : Client) (tr : Transport) (cardID : String)
    (sent : List Request) : (Option DetailedCard × Option String) × List Request :=
  c.fetch tr ("/cards/" ++ cardID) [("members", "true"), ("labels", "true")] none
    (fun body => (L.unmarshalDetailedCard body).map some) sent

/-- The method `Client.GetCardComments`. -/
def Client.GetCardComments (L : Lib) (c : Client) (tr : Transport) (cardID : String)
    (sent : List Request) : (List Comment × Option String) × List Request :=
  c.fetch tr ("/cards/" ++ cardID ++ "/actions") [("filter", "commentCard")] []
    L.unmarshalComments sent

/-- Modelled from the spec: the method `Client.GetMember`, called by
`showCardDetails` and not among the sources.  The spec gives it as one GET of
`/members/{id}` returning `{full_name, username}`, under the error policy of
the other operations. -/
def Client.GetMember (L : Lib) (c : Client) (tr : Transport) (memberID : String)
    (sent : List Request) : (Member × Option String) × List Request :=
  c.fetch tr ("/members/" ++ memberID) [] ⟨"", ""⟩ L.unmarshalMember sent

/-! ## Card detail flow (`showCardDetails`, `src/main.go` lines 19-221) -/

/-- What a run of the program leaves behind: the text written to standard
output, the message of `log.Fatalf` when the run ends with it, and the
requests made, in order. -/
structure Outcome where
  stdout : String
  fatal : Option String
  sent : List Request
  deriving DecidableEq, Repr

/-- The environment of a run. -/
structure World where
  fs : FS
  transport : Transport
  /-- The value of `os.Getenv("CLICOLOR_FORCE")`. -/
  clicolorForce : String

/-- Lines 41-47: the first card whose `IDShort` is `cardID`. -/
def findCard (cardID : Int) : List Card → Option Card
  | [] => none
  | card :: rest => if card.IDShort = cardID then some card else findCard cardID rest

/-- Lines 97-106: the assignee lines of the document, one `GetMember` call per
member id; returns the text and the requests made so far. -/
def assigneeLines (L : Lib) (client : Client) (tr : Transport) :
    List String → List Request → String × List Request
  | [], sent => ("", sent)
  | memberID :: rest, sent =>
    let r := client.GetMember L tr memberID sent
    let line := if r.1.2.isSome then "- " ++ memberID ++ "\n" else "- " ++ r.1.1.FullName ++ "\n"
    let more := assigneeLines L client tr rest r.2
    (line ++ more.1, more.2)

/-- Lines 163-170: the names of the field `assignees`, one `GetMember` call
per member id. -/
def assigneeNames (L : Lib) (client : Client) (tr : Transport) :
    List String → List Request → List String × List Request
  | [], sent => ([], sent)
  | memberID :: rest, sent =>
    let r := client.GetMember L tr memberID sent
    let name := if r.1.2.isSome then memberID else r.1.1.FullName
    let more := assigneeNames L client tr rest r.2
    (name :: more.1, more.2)

/-- Lines 127-138: the section of one comment, `i` its index. -/
def commentSection (L : Lib) (i : Nat) (comment : Comment) : String :=
  let timeStr := match L.formatDate comment.Date with
    | some t => t
    | none => "Unknown time"
  "### Comment " ++ toString (i + 1) ++ "\n\n"
    ++ "**" ++ comment.MemberCreator.FullName ++ "** commented on " ++ timeStr ++ ":\n\n"
    ++ comment.Data.Text ++ "\n\n"
    ++ "---\n\n"

/-- Lines 125-139: the comment sections in order, `i` the index of the first. -/
def commentSections (L : Lib) : Nat → List Comment → String
  | _, [] => ""
  | i, comment :: rest => commentSection L i comment ++ commentSections L (i + 1) rest

/-- Lines 76-143: the markdown document; returns the text and the requests
made so far (the assignee lookups). -/
def buildMarkdown (L : Lib) (client : Client) (tr : Transport) (detailedCard : DetailedCard)
    (comments : List Comment) (listMap : GoMap String) (sent : List Request) :
    String × List Request :=
  let title := "# " ++ detailedCard.Name ++ "\n\n"
  let status := if detailedCard.Closed then "Closed" else "Open"
  let statusLine := "**" ++ status ++ "**\n\n"
  let description :=
    if detailedCard.Desc ≠ "" then "## Description\n\n" ++ detailedCard.Desc ++ "\n\n" else ""
  let assignees :=
    if detailedCard.IDMembers.length > 0 then
      let r := assigneeLines L client tr detailedCard.IDMembers sent
      ("## Assignees\n" ++ r.1 ++ "\n", r.2)
    else ("", sent)
  let labels :=
    if detailedCard.Labels.length > 0 then
      "## Labels\n" ++ String.join (detailedCard.Labels.map (fun label => "- " ++ label.Name ++ "\n"))
        ++ "\n"
    else ""
  let list := match listMap.find detailedCard.IDList with
    | some listName => "## List\n\n" ++ listName ++ "\n\n"
    | none => ""
  let commentsText :=
    if comments.length > 0 then
      "## Comments (" ++ toString comments.length ++ ")\n\n" ++ commentSections L 0 comments
    else ""
  let links := "## Links\n\n" ++ "- View this card on Trello: https://trello.com/c/"
    ++ detailedCard.ShortLink ++ "\n"
  (title ++ statusLine ++ description ++ assignees.1 ++ labels ++ list ++ commentsText ++ links,
    assignees.2)

/-- Lines 146-191: the `switch` on the lower-cased field name; `sent` are the
requests made before it. -/
def printField (L : Lib) (client : Client) (tr : Transport) (detailedCard : DetailedCard)
    (listMap : GoMap String) (fieldFilter : String) (sent : List Request) : Outcome :=
  let field := ToLower L fieldFilter
  if field = "title" then ⟨detailedCard.Name, none, sent⟩
  else if field = "description" then
    ⟨if detailedCard.Desc ≠ "" then detailedCard.Desc else "", none, sent⟩
  else if field = "status" then
    ⟨if detailedCard.Closed then "Closed" else "Open", none, sent⟩
  else if field = "assignees" then
    if detailedCard.IDMembers.length > 0 then
      let r := assigneeNames L client tr detailedCard.IDMembers sent
      ⟨String.intercalate ", " r.1, none, r.2⟩
    else ⟨"", none, sent⟩
  else if field = "labels" then
    if detailedCard.Labels.length > 0 then
      ⟨String.intercalate ", " (detailedCard.Labels.map (fun label => label.Name)), none, sent⟩
    else ⟨"", none, sent⟩
  else if field = "list" then
    match listMap.find detailedCard.IDList with
    | some listName => ⟨listName, none, sent⟩
    | none => ⟨"Unknown", none, sent⟩
  else
    ⟨"", some ("Unknown field: " ++ fieldFilter
      ++ ". Available fields: title, description, status, assignees, labels, list"), sent⟩

/-- The function `showCardDetails(cardID, fieldFilter)`. -/
def showCardDetails (L : Lib) (w : World) (cardID : Int) (fieldFilter : String) : Outcome :=
  match LoadConfig L w.fs with
  | Except.error err => ⟨"", some ("Failed to load config: " ++ err), []⟩
  | Except.ok cfg =>
    if cfg.APIKey = "" ∨ cfg.APIToken = "" then
      ⟨"", some ("API credentials not found. Please run without --card flag first to set up "
        ++ "credentials."), []⟩
    else
      let client := NewClient cfg.APIKey cfg.APIToken
      match client.GetCards L w.transport cfg.BoardID [] with
      | ((_, some err), sent) => ⟨"", some ("Failed to get cards: " ++ err), sent⟩
      | ((cards, none), sent) =>
        match findCard cardID cards with
        | none =>
          ⟨"", some ("Card with ID #" ++ fmtInt cardID ++ " not found on this board"), sent⟩
        | some targetCard =>
          match client.GetCardDetails L w.transport targetCard.ID sent with
          | ((_, some err), sent) => ⟨"", some ("Failed to get card details: " ++ err), sent⟩
          | ((none, none), sent) =>
            -- not reached: `GetCardDetails` returns a nil pointer only next to an error
            ⟨"", some "panic: runtime error: invalid memory address or nil pointer dereference",
              sent⟩
          | ((some detailedCard, none), sent) =>
            match client.GetCardComments L w.transport targetCard.ID sent with
            | ((_, some err), sent) => ⟨"", some ("Failed to get card comments: " ++ err), sent⟩
            | ((comments, none), sent) =>
              match client.GetLists L w.transport cfg.BoardID sent with
              | ((_, some err), sent) => ⟨"", some ("Failed to get lists: " ++ err), sent⟩
              | ((lists, none), sent) =>
                let listMap := buildListMap lists
                let md := buildMarkdown L client w.transport detailedCard comments listMap sent
                if fieldFilter ≠ "" then
                  printField L client w.transport detailedCard listMap fieldFilter md.2
                else
                  match L.glamourRender (decide (w.clicolorForce = "1")) md.1 with
                  | Except.error err =>
                    ⟨"", some ("Failed to render markdown: " ++ err), md.2⟩
                  | Except.ok out => ⟨out, none, md.2⟩

/-! ## A sample environment

One concrete library instance and world, used where a statement is evaluated
at a concrete input. -/

/-- A library instance: no colour, identity tables, and decoders that return
one card, one list, one detailed card and one member whatever the body. -/
def sampleLib : Lib where
  unicodeLower := fun c => c
  xorshiftNext := fun r => r
  styleRender := fun s => s
  foldName := fun key => key
  filepathJoin := fun parts => String.intercalate "/" parts
  filepathDir := fun _ => "/home/u/.config/trello_cli"
  unmarshalCards := fun _ => Except.ok [⟨"c1", "First", ["m1"], "sl1", 7, "l1"⟩]
  unmarshalMemberID := fun _ => Except.ok "m1"
  unmarshalOrganizations := fun _ => Except.ok []
  unmarshalBoards := fun _ => Except.ok []
  unmarshalLists := fun _ => Except.ok [⟨"l1", "Doing"⟩]
  unmarshalDetailedCard := fun _ =>
    Except.ok ⟨"c1", "First", "text", ["m1"], "sl1", 7, "l1", true, "", [⟨"red"⟩]⟩
  unmarshalComments := fun _ => Except.ok []
  unmarshalMember := fun _ => Except.ok ⟨"Ann", "ann"⟩
  formatDate := fun _ => none
  glamourRender := fun _ text => Except.ok text

/-- A config with credentials and a board. -/
def sampleConfig : Config := ⟨"k", "t", "w", "b"⟩

/-- A file system that holds the saved `sampleConfig`. -/
def sampleFS : FS where
  homeDir := "/home/u"
  node := fun p =>
    if p = "/home/u/.config/trello_cli/config.json" then
      Node.file (MarshalIndent sampleConfig.bytes)
    else Node.missing
  mkdirAllErr := fun _ => none
  writeFileErr := fun _ => none

/-- A service that answers every request with status 200. -/
def sampleWorld : World := ⟨sampleFS, fun _ _ => Except.ok ⟨200, "200 OK", Except.ok "{}"⟩, ""⟩

/-- A service that answers every request with status 404. -/
def notFoundTransport : Transport := fun _ _ => Except.ok ⟨404, "404 Not Found", Except.ok "{}"⟩

/-- The six field names of the `switch` of `showCardDetails`. -/
def validFields : List String := ["title", "description", "status", "assignees", "labels", "list"]

/-! ## Predicates of the sort proofs -/

section SortPredicates

variable {α : Type}

/-- The sort key of the element in a slot, `0` past the end of the slice. -/
def keyAt (key : α → Int) (data : List α) (i : Nat) : Int :=
  match data[i]? with
  | some x => key x
  | none => 0

/-- The slice `data'` is the slice `data` with the slots `a ≤ k < b` rearranged:
same length, same elements, every slot outside the range untouched, and every
property that all keys of the range have is kept. -/
structure Rearranged (key : α → Int) (data data' : List α) (a b : Nat) : Prop where
  length_eq : data'.length = data.length
  perm : data'.Perm data
  frame : ∀ k, k < a ∨ b ≤ k → data'[k]? = data[k]?
  keys : ∀ P : Int → Prop, (∀ k, a ≤ k → k < b → P (keyAt key data k)) →
    ∀ k, a ≤ k → k < b → P (keyAt key data' k)

/-- The keys of the slots `a ≤ k < b` are in non-decreasing order. -/
def SortedOn (key : α → Int) (data : List α) (a b : Nat) : Prop :=
  ∀ i j, a ≤ i → i ≤ j → j < b → keyAt key data i ≤ keyAt key data j

/-- Before the range nothing is larger than an element of the range (the
state in which `pdqsort_func` works on a range that does not start the slice). -/
def LowerBounded (key : α → Int) (data : List α) (a b : Nat) : Prop :=
  0 < a → ∀ k, a ≤ k → k < b → keyAt key data (a - 1) ≤ keyAt key data k

/-- In the heap of `n` slots that starts at slot `first`, the node `p` is not
smaller than its children. -/
def HeapAt (key : α → Int) (data : List α) (first n p : Nat) : Prop :=
  (2 * p + 1 < n → keyAt key data (first + (2 * p + 1)) ≤ keyAt key data (first + p))
    ∧ (2 * p + 2 < n → keyAt key data (first + (2 * p + 2)) ≤ keyAt key data (first + p))

end SortPredicates

/-- Thirteen rows in fetch order; the rows "r1" and "r2" share the short id 9.

With thirteen elements `pdqsort_func` does not take the insertion sort branch.
`choosePivot_func` looks at the slots 3, 6, 9 (ids 4, 5, 13) and returns slot 6
without an exchange; `partialInsertionSort_func` gives up at slot 3.
`partition_func` moves the pivot 5 to slot 0, exchanges slot 1 with slot 12
(id 9 of "r1" against id 2), then slot 2 with slot 11 (id 9 of "r2" against
id 1), then slot 4 with slot 6, and puts the pivot at slot 4. The ids are then
3 2 1 4 5 11 10 6 12 13 7 9 9 with "r2" in slot 11 and "r1" in slot 12, and the
insertion sort of the slots 5 to 12 keeps "r2" before "r1". -/
def thirteenRows : List Row :=
  [⟨3, "r0", "Doing"⟩, ⟨9, "r1", "Doing"⟩, ⟨9, "r2", "Doing"⟩, ⟨4, "r3", "Doing"⟩,
   ⟨10, "r4", "Doing"⟩, ⟨11, "r5", "Doing"⟩, ⟨5, "r6", "Doing"⟩, ⟨6, "r7", "Doing"⟩,
   ⟨12, "r8", "Doing"⟩, ⟨13, "r9", "Doing"⟩, ⟨7, "r10", "Doing"⟩, ⟨1, "r11", "Doing"⟩,
   ⟨2, "r12", "Doing"⟩]

/-- Four rows with the short ids 42, 7, 7, 13 in fetch order. -/
def fourRows : List Row :=
  [⟨42, "a", "Doing"⟩, ⟨7, "b", "Doing"⟩, ⟨7, "c", "Doing"⟩, ⟨13, "d", "Doing"⟩]

/-- The row that the listing makes of a card. -/
def rowOf (listMap : GoMap String) (card : Card) : Row :=
  ⟨card.IDShort, card.Name, resolveListName listMap card⟩

/-- The text of one member `"key": "value"` of the indented object, followed
by `tail`. -/
def memberText (key val : List Char) (tail : List Char) : List Char :=
  '"' :: (key.flatMap escapeChar
    ++ '"' :: ':' :: ' ' :: '"' :: (val.flatMap escapeChar ++ '"' :: tail))

/-! ## The credential form (`src/prompts.go`, lines 12-129)

The form is a model of the library `bubbletea` with two `textinput` components
of the library `bubbles`.  The component is taken through its interface; the
program loop of `bubbletea` is embedded as far as the form uses it: messages
are handed to `Update` in order until an update returns `tea.Quit`. -/

/-- The two styles the form gives to an input (`focusedStyle`, `noStyle`). -/
inductive FormStyle where
  | focusedStyle
  | noStyle
  deriving DecidableEq, Repr

/-- A message of the terminal program (`tea.Msg`): a key press, given by the
text of `msg.String()`, or any other message (cursor blink, window size). -/
inductive Msg where
  | key (s : String)
  | other (n : Nat)
  deriving DecidableEq, Repr

/-- The command an update returns: `tea.Quit`, or a batch of component
commands, none of which ends the program. -/
inductive Cmd where
  | Quit
  | Batch
  deriving DecidableEq, Repr

/-- The component `textinput.Model` of the library `bubbles` through the
operations the form calls. -/
structure Textinput where
  /-- The type `textinput.Model`. -/
  Model : Type
  /-- The function `textinput.New`. -/
  New : Model
  /-- The assignment to the field `Placeholder`. -/
  setPlaceholder : Model → String → Model
  /-- The assignment to the field `Width`. -/
  setWidth : Model → Int → Model
  /-- The assignment to the field `PromptStyle`. -/
  setPromptStyle : Model → FormStyle → Model
  /-- The assignment to the field `TextStyle`. -/
  setTextStyle : Model → FormStyle → Model
  /-- The method `Focus`, as it leaves the component. -/
  Focus : Model → Model
  /-- The method `Blur`. -/
  Blur : Model → Model
  /-- The method `Update`, as it leaves the component. -/
  Update : Model → Msg → Model
  /-- The method `Value`. -/
  Value : Model → String

/-- The record `model` (lines 19-23). -/
structure model (T : Textinput) where
  inputs : List T.Model
  focused : Int
  err : Option String

/-- The function `initialModel`. -/
def initialModel (T : Textinput) : model T :=
  let input0 := T.New
  let input0 := T.setPlaceholder input0 "Enter your Trello API Key"
  let input0 := T.Focus input0
  let input0 := T.setWidth input0 50
  let input1 := T.New
  let input1 := T.setPlaceholder input1 "Enter your Trello API Token"
  let input1 := T.setWidth input1 50
  { inputs := [input0, input1], focused := 0, err := none }

/-- Lines 80-90: the input at the index `focused` is focused and gets the
focused style, every other input is blurred and gets the plain style; `i` is
the index of the first input of the list. -/
def refocus (T : Textinput) (focused : Int) : Nat → List T.Model → List T.Model
  | _, [] => []
  | i, input :: rest =>
    (if (i : Int) = focused then
      T.setTextStyle (T.setPromptStyle (T.Focus input) FormStyle.focusedStyle)
        FormStyle.focusedStyle
    else
      T.setTextStyle (T.setPromptStyle (T.Blur input) FormStyle.noStyle) FormStyle.noStyle)
      :: refocus T focused (i + 1) rest

/-- Lines 96-99: every input handles the message. -/
def model.updateInputs {T : Textinput} (m : model T) (msg : Msg) : model T :=
  { m with inputs := m.inputs.map (fun input => T.Update input msg) }

/-- The method `model.Update` (lines 52-100). -/
def model.Update {T : Textinput} (m : model T) (msg : Msg) : model T × Cmd :=
  match msg with
  | Msg.key s =>
    if s = "ctrl+c" ∨ s = "esc" then (m, Cmd.Quit)
    else if s = "tab" ∨ s = "shift+tab" ∨ s = "enter" ∨ s = "up" ∨ s = "down" then
      if s = "enter" ∧ m.focused = (m.inputs.length : Int) - 1 then (m, Cmd.Quit)
      else
        let focused := if s = "up" ∨ s = "shift+tab" then m.focused - 1 else m.focused + 1
        let focused :=
          if focused > (m.inputs.length : Int) - 1 then 0
          else if focused < 0 then (m.inputs.length : Int) - 1
          else focused
        ({ m with focused := focused, inputs := refocus T focused 0 m.inputs }, Cmd.Batch)
    else (m.updateInputs msg, Cmd.Batch)
  | Msg.other _ => (m.updateInputs msg, Cmd.Batch)

/-- The loop of `(*tea.Program).Run`: what the terminal delivers is handled in
order, a message by `Update`, until an update returns `tea.Quit` (the run
returns the model and a nil error) or the terminal delivers an error (the run
returns that error).  `none`: everything delivered is handled and the program
is still waiting. -/
def eventLoop {T : Textinput} : model T → List (Except String Msg) → Option (model T × Option String)
  | _, [] => none
  | m, Except.error err :: _ => some (m, some err)
  | m, Except.ok msg :: rest =>
    match m.Update msg with
    | (m, Cmd.Quit) => some (m, none)
    | (m, Cmd.Batch) => eventLoop m rest

/-- The function `PromptForConfig` on what the terminal delivers to the form
(an error at the head: the terminal session fails to start).  The type
assertion of line 124 holds for every value `Update` returns.  The inputs are
two throughout; an index past the list reads as the empty text. -/
def PromptForConfig (T : Textinput) (session : List (Except String Msg)) :
    Option (String × String × String × String × Option String) :=
  match eventLoop (initialModel T) session with
  | none => none
  | some (_, some err) => some ("", "", "", "", some err)
  | some (m, none) =>
    some (((m.inputs[0]?).map T.Value).getD "", ((m.inputs[1]?).map T.Value).getD "", "", "", none)

/-- The model after a sequence of messages, each handled by `Update`. -/
def handled {T : Textinput} (m : model T) (msgs : List Msg) : model T :=
  msgs.foldl (fun m msg => (m.Update msg).1) m

/-- No message of the sequence makes `Update` return `tea.Quit`. -/
def keepsRunning {T : Textinput} : model T → List Msg → Bool
  | _, [] => true
  | m, msg :: rest => decide ((m.Update msg).2 = Cmd.Batch) && keepsRunning (m.Update msg).1 rest

/-- A text input that holds its text and whether it is focused; a focused
input appends the key of a one-character key press. -/
def sampleTextinput : Textinput where
  Model := String × Bool
  New := ("", false)
  setPlaceholder := fun input _ => input
  setWidth := fun input _ => input
  setPromptStyle := fun input _ => input
  setTextStyle := fun input _ => input
  Focus := fun input => (input.1, true)
  Blur := fun input => (input.1, false)
  Update := fun input msg =>
    match msg with
    | Msg.key s => if input.2 ∧ s.length = 1 then (input.1 ++ s, input.2) else input
    | Msg.other _ => input
  Value := fun input => input.1

/-! ## The workspace and board prompts (`src/prompts.go`, lines 131-179) -/

/-- The call `fmt.Scanf("%d", &choice)`: the parsed number or the error of the
scan; `scans` holds the results of the calls to come, and a call past them
finds the input at its end. -/
def Scanf (scans : List (Except String Int)) : Except String Int × List (Except String Int) :=
  match scans with
  | [] => (Except.error "unexpected EOF", [])
  | r :: rest => (r, rest)

/-- Lines 142-144 and 167-169: one line `"%d. %s\n"` per entry, numbered from
`i + 1`. -/
def numbered {α : Type} (name : α → String) : Nat → List α → String
  | _, [] => ""
  | i, x :: rest => fmtInt (i + 1) ++ ". " ++ name x ++ "\n" ++ numbered name (i + 1) rest

/-- The two results of a prompt, with what the call wrote to standard output
and what it leaves of the requests and of the scans. -/
structure Prompted where
  value : String
  err : Option String
  out : String
  sent : List Request
  scans : List (Except String Int)

/-- Lines 146-153 and 171-178: the selection of one of `ids` by its number. -/
def choose (ids : List String) (out : String) (sent : List Request)
    (scans : List (Except String Int)) : Prompted :=
  match Scanf scans with
  | (Except.error _, scans) => ⟨"", some "invalid choice", out, sent, scans⟩
  | (Except.ok choice, scans) =>
    if choice < 1 ∨ choice > (ids.length : Int) then ⟨"", some "invalid choice", out, sent, scans⟩
    else ⟨(ids[(choice - 1).toNat]?).getD "", none, out, sent, scans⟩

/-- The function `PromptForOrganization`. -/
def PromptForOrganization (L : Lib) (client : Client) (tr : Transport) (sent : List Request)
    (scans : List (Except String Int)) : Prompted :=
  match client.GetOrganizations L tr sent with
  | ((_, some err), sent) => ⟨"", some ("failed to fetch organizations: " ++ err), "", sent, scans⟩
  | ((organizations, none), sent) =>
    if organizations.length = 0 then ⟨"", some "no organizations found", "", sent, scans⟩
    else
      choose (organizations.map (fun org => org.ID))
        ("Available Workspaces:\n" ++ numbered (fun org : Organization => org.Name) 0 organizations
          ++ "Select workspace (number): ")
        sent scans

/-- The function `PromptForBoard`. -/
def PromptForBoard (L : Lib) (client : Client) (tr : Transport) (organizationID : String)
    (sent : List Request) (scans : List (Except String Int)) : Prompted :=
  match client.GetBoards L tr organizationID sent with
  | ((_, some err), sent) => ⟨"", some ("failed to fetch boards: " ++ err), "", sent, scans⟩
  | ((boards, none), sent) =>
    if boards.length = 0 then ⟨"", some "no boards found in this workspace", "", sent, scans⟩
    else
      choose (boards.map (fun board => board.ID))
        ("Available Boards:\n" ++ numbered (fun board : Board => board.Name) 0 boards
          ++ "Select board (number): ")
        sent scans

/-! ## The function `main` (`src/main.go`, lines 223-431) -/

/-- The values of the command-line flags after `flag.Parse()`. -/
structure Flags where
  assignedOnly : Bool
  allCards : Bool
  listFilter : String
  showCard : String
  fieldFilter : String
  deriving DecidableEq, Repr

/-- What the terminal gives to a run: the messages for the credential form and
the results of the calls of `fmt.Scanf`. -/
structure Terminal where
  session : List (Except String Msg)
  scans : List (Except String Int)

/-- What a run of `main` leaves behind: the text written with `fmt` to standard
output (the drawing of the credential form is left out), the message of
`log.Fatalf` when the run ends with it, the requests made, the calls of
`SaveConfig` (each with the requests made before it and its argument), and the
file system. -/
structure Run where
  stdout : String
  fatal : Option String
  sent : List Request
  saves : List (List Request × Config)
  fs : FS

/-- The function `strconv.Atoi` on a 64-bit platform: an optional sign and at
least one decimal digit, the value in the range of `int`; `none` for an error. -/
def Atoi (s : String) : Option Int :=
  let body := match s.data with
    | '-' :: rest => rest
    | '+' :: rest => rest
    | rest => rest
  if body = [] ∨ ¬ body.all isDigit then none
  else
    let n : Nat := body.foldl (fun n ch => n * 10 + (ch.toNat - '0'.toNat)) 0
    let v : Int := match s.data with
      | '-' :: _ => - (n : Int)
      | _ => (n : Int)
    if - (2 : Int) ^ 63 ≤ v ∧ v < (2 : Int) ^ 63 then some v else none

/-- Lines 334-430 of `main`: the three fetches and the listing. -/
def fetchAndList (L : Lib) (tr : Transport) (flags : Flags) (cfg : Config) (client : Client)
    (out : String) (sent : List Request) (saves : List (List Request × Config)) (fs : FS) : Run :=
  match client.GetMemberID L tr sent with
  | ((_, some err), sent) => ⟨out, some ("Failed to get user ID: " ++ err), sent, saves, fs⟩
  | ((userID, none), sent) =>
    match client.GetCards L tr cfg.BoardID sent with
    | ((_, some err), sent) => ⟨out, some ("Failed to get cards: " ++ err), sent, saves, fs⟩
    | ((cards, none), sent) =>
      match client.GetLists L tr cfg.BoardID sent with
      | ((_, some err), sent) => ⟨out, some ("Failed to get lists: " ++ err), sent, saves, fs⟩
      | ((lists, none), sent) =>
        ⟨out ++ String.join (listCards L flags.allCards flags.listFilter userID cards lists),
          none, sent, saves, fs⟩

/-- Lines 309-430 of `main`: the selection of workspace and board with the call
of `SaveConfig` when one of them is missing, then the fetches and the listing. -/
def selectBoard (L : Lib) (tr : Transport) (term : Terminal) (flags : Flags) (cfg : Config)
    (client : Client) (out : String) (sent : List Request) (fs : FS) : Run :=
  if cfg.Workspace = "" ∨ cfg.BoardID = "" then
    let out := out ++ "Fetching available workspaces...\n"
    let org := PromptForOrganization L client tr sent term.scans
    match org.err with
    | some err => ⟨out ++ org.out, some ("Failed to select workspace: " ++ err), org.sent, [], fs⟩
    | none =>
      let out := out ++ org.out ++ "Fetching available boards...\n"
      let board := PromptForBoard L client tr org.value org.sent org.scans
      match board.err with
      | some err =>
        ⟨out ++ board.out, some ("Failed to select board: " ++ err), board.sent, [], fs⟩
      | none =>
        let out := out ++ board.out
        let cfg := { cfg with Workspace := org.value, BoardID := board.value }
        match SaveConfig L fs cfg.bytes with
        | (some err, fs) =>
          ⟨out, some ("Failed to save config: " ++ err), board.sent, [(board.sent, cfg)], fs⟩
        | (none, fs) => fetchAndList L tr flags cfg client out board.sent [(board.sent, cfg)] fs
  else fetchAndList L tr flags cfg client out sent [] fs

/-- Lines 287-430 of `main`: the credential form and the check of the entered
credentials when one of them is missing, then the rest of the run.  `none`: the
form never ends. -/
def withConfig (L : Lib) (T : Textinput) (w : World) (term : Terminal) (flags : Flags)
    (cfg : Config) (out : String) : Option Run :=
  if cfg.APIKey = "" ∨ cfg.APIToken = "" then
    let out := out ++ "Please provide your Trello API credentials:\n"
    match PromptForConfig T term.session with
    | none => none
    | some (_, _, _, _, some err) =>
      some ⟨out, some ("Failed to get API credentials: " ++ err), [], [], w.fs⟩
    | some (apiKey, apiToken, _, _, none) =>
      let cfg := { cfg with APIKey := apiKey, APIToken := apiToken }
      let testClient := NewClient cfg.APIKey cfg.APIToken
      match testClient.GetMemberID L w.transport [] with
      | ((_, some err), sent) =>
        some ⟨out, some ("Invalid API credentials: " ++ err), sent, [], w.fs⟩
      | ((_, none), sent) =>
        some (selectBoard L w.transport term flags cfg (NewClient cfg.APIKey cfg.APIToken) out
          sent w.fs)
  else
    some (selectBoard L w.transport term flags cfg (NewClient cfg.APIKey cfg.APIToken) out [] w.fs)

/-- The function `main` on the parsed flags. -/
def main (L : Lib) (T : Textinput) (w : World) (term : Terminal) (flags : Flags) : Option Run :=
  let out :=
    if flags.assignedOnly ∧ flags.allCards then
      "Warning: Both --assigned and --all flags specified. Using --all.\n"
    else ""
  if flags.showCard ≠ "" then
    let idStr := match flags.showCard.data with
      | '#' :: rest => String.mk rest
      | _ => flags.showCard
    if idStr = "" then
      some ⟨out, some "Invalid card ID format. Use format: #123 or 123", [], [], w.fs⟩
    else
      match Atoi idStr with
      | none => some ⟨out, some ("Invalid card ID: " ++ idStr ++ " (must be numeric)"), [], [], w.fs⟩
      | some cardID =>
        let shown := showCardDetails L w cardID flags.fieldFilter
        some ⟨out ++ shown.stdout, shown.fatal, shown.sent, [], w.fs⟩
  else
    match LoadConfig L w.fs with
    | Except.error err => some ⟨out, some ("Failed to load config: " ++ err), [], [], w.fs⟩
    | Except.ok cfg => withConfig L T w term flags cfg out

/-- The flags of a run without arguments. -/
def defaultFlags : Flags := ⟨true, false, "", "", ""⟩

/-- A config file with workspace and board and without credentials. -/
def boardOnlyConfig : Config := ⟨"", "", "w", "b"⟩

/-- A file system that holds `boardOnlyConfig`. -/
def boardOnlyFS : FS where
  homeDir := "/home/u"
  node := fun p =>
    if p = "/home/u/.config/trello_cli/config.json" then
      Node.file (MarshalIndent boardOnlyConfig.bytes)
    else Node.missing
  mkdirAllErr := fun _ => none
  writeFileErr := fun _ => none

/-- A file system without a config file. -/
def emptyFS : FS where
  homeDir := "/home/u"
  node := fun _ => Node.missing
  mkdirAllErr := fun _ => none
  writeFileErr := fun _ => none

/-- The library instance `sampleLib` with one workspace "w" and one board "b". -/
def boardLib : Lib :=
  { sampleLib with
    unmarshalOrganizations := fun _ => Except.ok [⟨"w", "Work"⟩]
    unmarshalBoards := fun _ => Except.ok [⟨"b", "Board"⟩] }

/-- A terminal at which "k", Enter, "t", Enter are typed into the form and the
number 1 is read twice. -/
def sampleTerminal : Terminal :=
  ⟨[Except.ok (Msg.key "k"), Except.ok (Msg.key "enter"), Except.ok (Msg.key "t"),
      Except.ok (Msg.key "enter")],
    [Except.ok 1, Except.ok 1]⟩

/-! # Theorems -/

/-! ## API client: a response that is not 200 -/

theorem fetch_non200 {T : Type} (c : Client) (tr : Transport) (endpoint : String)
    (params : List (String × String)) (zero : T) (unmarshal : String → Except String T)
    (sent : List Request) (resp : Response)
    (h : tr sent (c.makeRequest "GET" endpoint params) = Except.ok resp)
    (hs : resp.StatusCode ≠ 200) :
    (c.fetch tr endpoint params zero unmarshal sent).1
      = (zero, some ("API request failed with status: " ++ resp.Status)) := by
  simp [Client.fetch, h, hs]

theorem status_infix (status : String) :
    status.data <:+: ("API request failed with status: " ++ status).data := by
  refine ⟨"API request failed with status: ".data, [], ?_⟩
  simp [String.data_append]

/-- C8: when the transport answers with a response whose status code is not
200, whatever its status text and body, each of the seven fetch methods returns
its empty result (nil slice, nil pointer, empty string) together with the error
"API request failed with status: " followed by the status text of the response;
in particular the message contains the status text and nothing is decoded. -/
theorem non200_response_yields_status_error (L : Lib) (c : Client) (tr : Transport)
    (sent : List Request) (resp : Response) (boardID organizationID cardID : String)
    (h : ∀ req, tr sent req = Except.ok resp) (hs : resp.StatusCode ≠ 200) :
    (c.GetCards L tr boardID sent).1
        = ([], some ("API request failed with status: " ++ resp.Status))
      ∧ (c.GetLists L tr boardID sent).1
        = ([], some ("API request failed with status: " ++ resp.Status))
      ∧ (c.GetBoards L tr organizationID sent).1
        = ([], some ("API request failed with status: " ++ resp.Status))
      ∧ (c.GetOrganizations L tr sent).1
        = ([], some ("API request failed with status: " ++ resp.Status))
      ∧ (c.GetMemberID L tr sent).1
        = ("", some ("API request failed with status: " ++ resp.Status))
      ∧ (c.GetCardDetails L tr cardID sent).1
        = (none, some ("API request failed with status: " ++ resp.Status))
      ∧ (c.GetCardComments L tr cardID sent).1
        = ([], some ("API request failed with status: " ++ resp.Status))
      ∧ resp.Status.data <:+: ("API request failed with status: " ++ resp.Status).data := by
  refine ⟨?_, ?_, ?_, ?_, ?_, ?_, ?_, status_infix _⟩ <;>
    exact fetch_non200 _ _ _ _ _ _ _ _ (h _) hs

/-! ## Card detail flow -/

theorem fetch_sent {T : Type} (c : Client) (tr : Transport) (endpoint : String)
    (params : List (String × String)) (zero : T) (unmarshal : String → Except String T)
    (sent : List Request) :
    (c.fetch tr endpoint params zero unmarshal sent).2
      = sent ++ [c.makeRequest "GET" endpoint params] := by
  unfold Client.fetch
  simp only
  split
  · rfl
  · split
    · rfl
    · split
      · rfl
      · split <;> rfl

theorem assigneeLines_extends (L : Lib) (client : Client) (tr : Transport) (ids : List String) :
    ∀ sent, sent <+: (assigneeLines L client tr ids sent).2 := by
  induction ids with
  | nil => intro sent; exact List.prefix_refl _
  | cons memberID rest ih =>
    intro sent
    simp only [assigneeLines]
    refine List.IsPrefix.trans ?_ (ih _)
    rw [Client.GetMember, fetch_sent]
    exact List.prefix_append _ _

theorem assigneeNames_extends (L : Lib) (client : Client) (tr : Transport) (ids : List String) :
    ∀ sent, sent <+: (assigneeNames L client tr ids sent).2 := by
  induction ids with
  | nil => intro sent; exact List.prefix_refl _
  | cons memberID rest ih =>
    intro sent
    simp only [assigneeNames]
    refine List.IsPrefix.trans ?_ (ih _)
    rw [Client.GetMember, fetch_sent]
    exact List.prefix_append _ _

theorem buildMarkdown_extends (L : Lib) (client : Client) (tr : Transport)
    (detailedCard : DetailedCard) (comments : List Comment) (listMap : GoMap String)
    (sent : List Request) :
    sent <+: (buildMarkdown L client tr detailedCard comments listMap sent).2 := by
  unfold buildMarkdown
  simp only
  split
  · exact assigneeLines_extends _ _ _ _ _
  · exact List.prefix_refl _

theorem printField_extends (L : Lib) (client : Client) (tr : Transport)
    (detailedCard : DetailedCard) (listMap : GoMap String) (fieldFilter : String)
    (sent : List Request) :
    sent <+: (printField L client tr detailedCard listMap fieldFilter sent).sent := by
  unfold printField
  simp only
  split_ifs
  all_goals first
    | exact List.prefix_refl _
    | exact assigneeNames_extends _ _ _ _ _
    | (split <;> exact List.prefix_refl _)

/-- Once the config is loaded with credentials, the card is found and the
three fetches for it succeed, the flow is at its output stage. -/
theorem showCardDetails_of_fetched (L : Lib) (w : World) (cardID : Int) (fieldFilter : String)
    (cfg : Config) (cards : List Card) (target : Card) (detailedCard : DetailedCard)
    (comments : List Comment) (lists : List BoardList) (s1 s2 s3 s4 : List Request)
    (hcfg : LoadConfig L w.fs = Except.ok cfg)
    (hcred : cfg.APIKey ≠ "" ∧ cfg.APIToken ≠ "")
    (h1 : (NewClient cfg.APIKey cfg.APIToken).GetCards L w.transport cfg.BoardID []
      = ((cards, none), s1))
    (hfind : findCard cardID cards = some target)
    (h2 : (NewClient cfg.APIKey cfg.APIToken).GetCardDetails L w.transport target.ID s1
      = ((some detailedCard, none), s2))
    (h3 : (NewClient cfg.APIKey cfg.APIToken).GetCardComments L w.transport target.ID s2
      = ((comments, none), s3))
    (h4 : (NewClient cfg.APIKey cfg.APIToken).GetLists L w.transport cfg.BoardID s3
      = ((lists, none), s4)) :
    showCardDetails L w cardID fieldFilter
      = if fieldFilter ≠ "" then
          printField L (NewClient cfg.APIKey cfg.APIToken) w.transport detailedCard
            (buildListMap lists) fieldFilter
            (buildMarkdown L (NewClient cfg.APIKey cfg.APIToken) w.transport detailedCard comments
              (buildListMap lists) s4).2
        else
          match L.glamourRender (decide (w.clicolorForce = "1"))
              (buildMarkdown L (NewClient cfg.APIKey cfg.APIToken) w.transport detailedCard
                comments (buildListMap lists) s4).1 with
          | Except.error err =>
            ⟨"", some ("Failed to render markdown: " ++ err),
              (buildMarkdown L (NewClient cfg.APIKey cfg.APIToken) w.transport detailedCard
                comments (buildListMap lists) s4).2⟩
          | Except.ok out =>
            ⟨out, none,
              (buildMarkdown L (NewClient cfg.APIKey cfg.APIToken) w.transport detailedCard
                comments (buildListMap lists) s4).2⟩ := by
  unfold showCardDetails
  simp only [hcfg, hcred.1, hcred.2, or_self, if_false, h1, hfind, h2, h3, h4]

theorem findCard_none (cardID : Int) (cards : List Card)
    (h : ∀ card ∈ cards, card.IDShort ≠ cardID) : findCard cardID cards = none := by
  induction cards with
  | nil => rfl
  | cons card rest ih =>
    have h1 : card.IDShort ≠ cardID := h card (List.mem_cons_self _ _)
    simp only [findCard, h1, if_false]
    exact ih (fun c hc => h c (List.mem_cons_of_mem _ hc))

theorem findCard_first (cardID : Int) (pre : List Card) (target : Card) (post : List Card)
    (hpre : ∀ card ∈ pre, card.IDShort ≠ cardID) (ht : target.IDShort = cardID) :
    findCard cardID (pre ++ target :: post) = some target := by
  induction pre with
  | nil => simp [findCard, ht]
  | cons card rest ih =>
    have h1 : card.IDShort ≠ cardID := hpre card (List.mem_cons_self _ _)
    simp only [List.cons_append, findCard, h1, if_false]
    exact ih (fun c hc => hpre c (List.mem_cons_of_mem _ hc))

/-- The requests of a run that has found its card begin with the card-list
request and the detail request for that card. -/
theorem showCardDetails_sent_of_found (L : Lib) (w : World) (cardID : Int) (fieldFilter : String)
    (cfg : Config) (cards : List Card) (target : Card) (s1 : List Request)
    (hcfg : LoadConfig L w.fs = Except.ok cfg)
    (hcred : cfg.APIKey ≠ "" ∧ cfg.APIToken ≠ "")
    (h1 : (NewClient cfg.APIKey cfg.APIToken).GetCards L w.transport cfg.BoardID []
      = ((cards, none), s1))
    (hfind : findCard cardID cards = some target) :
    (s1 ++ [(NewClient cfg.APIKey cfg.APIToken).makeRequest "GET" ("/cards/" ++ target.ID)
        [("members", "true"), ("labels", "true")]])
      <+: (showCardDetails L w cardID fieldFilter).sent := by
  have e2 : ∀ s, ((NewClient cfg.APIKey cfg.APIToken).GetCardDetails L w.transport target.ID s).2
      = s ++ [(NewClient cfg.APIKey cfg.APIToken).makeRequest "GET" ("/cards/" ++ target.ID)
        [("members", "true"), ("labels", "true")]] := fun s => fetch_sent _ _ _ _ _ _ _
  have e3 : ∀ s, s <+: ((NewClient cfg.APIKey cfg.APIToken).GetCardComments L w.transport
      target.ID s).2 := fun s => by
    rw [Client.GetCardComments, fetch_sent]; exact List.prefix_append _ _
  have e4 : ∀ s, s <+: ((NewClient cfg.APIKey cfg.APIToken).GetLists L w.transport
      cfg.BoardID s).2 := fun s => by
    rw [Client.GetLists, fetch_sent]; exact List.prefix_append _ _
  unfold showCardDetails
  simp only [hcfg, hcred.1, hcred.2, or_self, if_false, h1, hfind]
  split
  · next err s2 h2 =>
    have := e2 s1; rw [h2] at this; simp only at this; rw [this]
  · next s2 h2 =>
    have := e2 s1; rw [h2] at this; simp only at this; rw [this]
  · next detailedCard s2 h2 =>
    have hs2 := e2 s1; rw [h2] at hs2; simp only at hs2
    rw [← hs2]
    split
    · next err s3 h3 =>
      have := e3 s2; rw [h3] at this; exact this
    · next comments s3 h3 =>
      have hs3 := e3 s2; rw [h3] at hs3; simp only at hs3
      split
      · next err s4 h4 =>
        have := e4 s3; rw [h4] at this; exact hs3.trans this
      · next lists s4 h4 =>
        have hs4 := e4 s3; rw [h4] at hs4; simp only at hs4
        have hmd := buildMarkdown_extends L (NewClient cfg.APIKey cfg.APIToken) w.transport
          detailedCard comments (buildListMap lists) s4
        have h24 := (hs3.trans hs4).trans hmd
        split
        · exact h24.trans (printField_extends _ _ _ _ _ _ _)
        · split <;> exact h24

/-- C6: with the config loaded, credentials present and the card list fetched,
a requested id that is the short id of no fetched card ends the run with the
card-not-found message, nothing written, and the card-list request as the only
request made; and when a card matches, the card used is the first one in fetch
order with that short id: the next request is the detail request for its id. -/
theorem card_lookup_not_found_or_first_match (L : Lib) (w : World) (cardID : Int)
    (fieldFilter : String) (cfg : Config) (cards : List Card) (s1 : List Request)
    (hcfg : LoadConfig L w.fs = Except.ok cfg)
    (hcred : cfg.APIKey ≠ "" ∧ cfg.APIToken ≠ "")
    (h1 : (NewClient cfg.APIKey cfg.APIToken).GetCards L w.transport cfg.BoardID []
      = ((cards, none), s1)) :
    ((∀ card ∈ cards, card.IDShort ≠ cardID) →
      showCardDetails L w cardID fieldFilter
        = ⟨"", some ("Card with ID #" ++ fmtInt cardID ++ " not found on this board"),
            [(NewClient cfg.APIKey cfg.APIToken).makeRequest "GET"
              ("/boards/" ++ cfg.BoardID ++ "/cards") [("members", "true")]]⟩)
    ∧ (∀ pre target post, cards = pre ++ target :: post →
        (∀ card ∈ pre, card.IDShort ≠ cardID) → target.IDShort = cardID →
        [(NewClient cfg.APIKey cfg.APIToken).makeRequest "GET"
            ("/boards/" ++ cfg.BoardID ++ "/cards") [("members", "true")],
          (NewClient cfg.APIKey cfg.APIToken).makeRequest "GET" ("/cards/" ++ target.ID)
            [("members", "true"), ("labels", "true")]]
          <+: (showCardDetails L w cardID fieldFilter).sent) := by
  have hs1 : s1 = [(NewClient cfg.APIKey cfg.APIToken).makeRequest "GET"
      ("/boards/" ++ cfg.BoardID ++ "/cards") [("members", "true")]] := by
    have := fetch_sent (NewClient cfg.APIKey cfg.APIToken) w.transport
      ("/boards/" ++ cfg.BoardID ++ "/cards") [("members", "true")] [] L.unmarshalCards []
    rw [← Client.GetCards, h1] at this
    simpa using this
  constructor
  · intro hne
    unfold showCardDetails
    simp only [hcfg, hcred.1, hcred.2, or_self, if_false, h1, findCard_none cardID cards hne, hs1]
  · intro pre target post hcards hpre ht
    have hfind : findCard cardID cards = some target := by
      rw [hcards]; exact findCard_first cardID pre target post hpre ht
    have := showCardDetails_sent_of_found L w cardID fieldFilter cfg cards target s1 hcfg hcred
      h1 hfind
    rw [hs1] at this
    simpa using this

theorem sample_LoadConfig : LoadConfig sampleLib sampleWorld.fs = Except.ok sampleConfig := by rfl

/-- C8 at a concrete input: a service answering 404. -/
theorem non200_response_witness :
    ((⟨"k", "t"⟩ : Client).GetCards sampleLib notFoundTransport "b" []).1
        = ([], some ("API request failed with status: " ++ "404 Not Found"))
      ∧ ((⟨"k", "t"⟩ : Client).GetLists sampleLib notFoundTransport "b" []).1
        = ([], some ("API request failed with status: " ++ "404 Not Found"))
      ∧ ((⟨"k", "t"⟩ : Client).GetBoards sampleLib notFoundTransport "o" []).1
        = ([], some ("API request failed with status: " ++ "404 Not Found"))
      ∧ ((⟨"k", "t"⟩ : Client).GetOrganizations sampleLib notFoundTransport []).1
        = ([], some ("API request failed with status: " ++ "404 Not Found"))
      ∧ ((⟨"k", "t"⟩ : Client).GetMemberID sampleLib notFoundTransport []).1
        = ("", some ("API request failed with status: " ++ "404 Not Found"))
      ∧ ((⟨"k", "t"⟩ : Client).GetCardDetails sampleLib notFoundTransport "c" []).1
        = (none, some ("API request failed with status: " ++ "404 Not Found"))
      ∧ ((⟨"k", "t"⟩ : Client).GetCardComments sampleLib notFoundTransport "c" []).1
        = ([], some ("API request failed with status: " ++ "404 Not Found"))
      ∧ "404 Not Found".data <:+: ("API request failed with status: " ++ "404 Not Found").data :=
  non200_response_yields_status_error sampleLib ⟨"k", "t"⟩ notFoundTransport []
    ⟨404, "404 Not Found", Except.ok "{}"⟩ "b" "o" "c" (fun _ => rfl) (by decide)

/-- C6 at a concrete input: card 8 is not on the sample board, card 7 is. -/
theorem card_lookup_witness :
    ((∀ card ∈ [(⟨"c1", "First", ["m1"], "sl1", 7, "l1"⟩ : Card)], card.IDShort ≠ 8) →
      showCardDetails sampleLib sampleWorld 8 ""
        = ⟨"", some ("Card with ID #" ++ fmtInt 8 ++ " not found on this board"),
            [(NewClient sampleConfig.APIKey sampleConfig.APIToken).makeRequest "GET"
              ("/boards/" ++ sampleConfig.BoardID ++ "/cards") [("members", "true")]]⟩)
    ∧ (∀ pre target post,
        [(⟨"c1", "First", ["m1"], "sl1", 7, "l1"⟩ : Card)] = pre ++ target :: post →
        (∀ card ∈ pre, card.IDShort ≠ 8) → target.IDShort = 8 →
        [(NewClient sampleConfig.APIKey sampleConfig.APIToken).makeRequest "GET"
            ("/boards/" ++ sampleConfig.BoardID ++ "/cards") [("members", "true")],
          (NewClient sampleConfig.APIKey sampleConfig.APIToken).makeRequest "GET"
            ("/cards/" ++ target.ID) [("members", "true"), ("labels", "true")]]
          <+: (showCardDetails sampleLib sampleWorld 8 "").sent) :=
  card_lookup_not_found_or_first_match sampleLib sampleWorld 8 "" sampleConfig
    [⟨"c1", "First", ["m1"], "sl1", 7, "l1"⟩] _ sample_LoadConfig (by decide) rfl

/-- C7, the claim as stated, fails: with the field name "nonsense" the run on
the sample world ends with the usage error only after five requests. -/
theorem unknown_field_counterexample :
    ToLower sampleLib "nonsense" ∉ validFields
      ∧ (showCardDetails sampleLib sampleWorld 7 "nonsense").fatal
        = some "Unknown field: nonsense. Available fields: title, description, status, assignees, labels, list"
      ∧ (showCardDetails sampleLib sampleWorld 7 "nonsense").sent.length = 5
      ∧ (showCardDetails sampleLib sampleWorld 7 "nonsense").sent ≠ [] := by
  decide

/-- C7 as amended: for a field name that is not empty and not one of the six
names in any letter case, a run that has loaded its credentials, found the card
and fetched its details, comments and lists writes nothing and ends with the
usage error that lists the six names; the card-list, detail, comment and list
requests (and the member lookups of the document) have been made by then. -/
theorem unknown_field_fails_after_fetches (L : Lib) (w : World) (cardID : Int)
    (fieldFilter : String) (cfg : Config) (cards : List Card) (target : Card)
    (detailedCard : DetailedCard) (comments : List Comment) (lists : List BoardList)
    (s1 s2 s3 s4 : List Request)
    (hne : fieldFilter ≠ "") (hfield : ToLower L fieldFilter ∉ validFields)
    (hcfg : LoadConfig L w.fs = Except.ok cfg)
    (hcred : cfg.APIKey ≠ "" ∧ cfg.APIToken ≠ "")
    (h1 : (NewClient cfg.APIKey cfg.APIToken).GetCards L w.transport cfg.BoardID []
      = ((cards, none), s1))
    (hfind : findCard cardID cards = some target)
    (h2 : (NewClient cfg.APIKey cfg.APIToken).GetCardDetails L w.transport target.ID s1
      = ((some detailedCard, none), s2))
    (h3 : (NewClient cfg.APIKey cfg.APIToken).GetCardComments L w.transport target.ID s2
      = ((comments, none), s3))
    (h4 : (NewClient cfg.APIKey cfg.APIToken).GetLists L w.transport cfg.BoardID s3
      = ((lists, none), s4)) :
    (showCardDetails L w cardID fieldFilter).stdout = ""
      ∧ (showCardDetails L w cardID fieldFilter).fatal
        = some ("Unknown field: " ++ fieldFilter
          ++ ". Available fields: title, description, status, assignees, labels, list")
      ∧ [(NewClient cfg.APIKey cfg.APIToken).makeRequest "GET"
            ("/boards/" ++ cfg.BoardID ++ "/cards") [("members", "true")],
          (NewClient cfg.APIKey cfg.APIToken).makeRequest "GET" ("/cards/" ++ target.ID)
            [("members", "true"), ("labels", "true")],
          (NewClient cfg.APIKey cfg.APIToken).makeRequest "GET"
            ("/cards/" ++ target.ID ++ "/actions") [("filter", "commentCard")],
          (NewClient cfg.APIKey cfg.APIToken).makeRequest "GET"
            ("/boards/" ++ cfg.BoardID ++ "/lists") []]
          <+: (showCardDetails L w cardID fieldFilter).sent := by
  have hs1 := fetch_sent (NewClient cfg.APIKey cfg.APIToken) w.transport
    ("/boards/" ++ cfg.BoardID ++ "/cards") [("members", "true")] [] L.unmarshalCards []
  rw [← Client.GetCards, h1] at hs1
  have hs2 := fetch_sent (NewClient cfg.APIKey cfg.APIToken) w.transport
    ("/cards/" ++ target.ID) [("members", "true"), ("labels", "true")] none
    (fun body => (L.unmarshalDetailedCard body).map some) s1
  rw [← Client.GetCardDetails, h2] at hs2
  have hs3 := fetch_sent (NewClient cfg.APIKey cfg.APIToken) w.transport
    ("/cards/" ++ target.ID ++ "/actions") [("filter", "commentCard")] [] L.unmarshalComments s2
  rw [← Client.GetCardComments, h3] at hs3
  have hs4 := fetch_sent (NewClient cfg.APIKey cfg.APIToken) w.transport
    ("/boards/" ++ cfg.BoardID ++ "/lists") [] [] L.unmarshalLists s3
  rw [← Client.GetLists, h4] at hs4
  simp only at hs1 hs2 hs3 hs4
  rw [showCardDetails_of_fetched L w cardID fieldFilter cfg cards target detailedCard comments
    lists s1 s2 s3 s4 hcfg hcred h1 hfind h2 h3 h4, if_pos hne]
  simp only [validFields, List.mem_cons, List.mem_singleton, List.not_mem_nil, or_false,
    not_or] at hfield
  obtain ⟨f1, f2, f3, f4, f5, f6⟩ := hfield
  have hmd := buildMarkdown_extends L (NewClient cfg.APIKey cfg.APIToken) w.transport
    detailedCard comments (buildListMap lists) s4
  unfold printField
  simp only [f1, f2, f3, f4, f5, f6, if_false]
  refine ⟨trivial, trivial, ?_⟩
  refine List.IsPrefix.trans ?_ hmd
  rw [hs4, hs3, hs2, hs1]
  simp

/-- C7 as amended, at a concrete input: "nonsense" on the sample world. -/
theorem unknown_field_witness :
    (showCardDetails sampleLib sampleWorld 7 "nonsense").stdout = ""
      ∧ (showCardDetails sampleLib sampleWorld 7 "nonsense").fatal
        = some ("Unknown field: " ++ "nonsense"
          ++ ". Available fields: title, description, status, assignees, labels, list")
      ∧ [(NewClient sampleConfig.APIKey sampleConfig.APIToken).makeRequest "GET"
            ("/boards/" ++ sampleConfig.BoardID ++ "/cards") [("members", "true")],
          (NewClient sampleConfig.APIKey sampleConfig.APIToken).makeRequest "GET"
            ("/cards/" ++ "c1") [("members", "true"), ("labels", "true")],
          (NewClient sampleConfig.APIKey sampleConfig.APIToken).makeRequest "GET"
            ("/cards/" ++ "c1" ++ "/actions") [("filter", "commentCard")],
          (NewClient sampleConfig.APIKey sampleConfig.APIToken).makeRequest "GET"
            ("/boards/" ++ sampleConfig.BoardID ++ "/lists") []]
          <+: (showCardDetails sampleLib sampleWorld 7 "nonsense").sent :=
  unknown_field_fails_after_fetches sampleLib sampleWorld 7 "nonsense" sampleConfig
    [⟨"c1", "First", ["m1"], "sl1", 7, "l1"⟩] ⟨"c1", "First", ["m1"], "sl1", 7, "l1"⟩
    ⟨"c1", "First", "text", ["m1"], "sl1", 7, "l1", true, "", [⟨"red"⟩]⟩ [] [⟨"l1", "Doing"⟩]
    _ _ _ _ (by decide) (by decide) sample_LoadConfig (by decide) rfl rfl rfl rfl rfl

/-- C10: when the field name lower-cases to "status", a run that has loaded its
credentials, found the card and fetched its details, comments and lists writes
exactly "Closed" for a closed card and exactly "Open" for an open one, with no
other character, and ends without an error. -/
theorem status_field_prints_exactly (L : Lib) (w : World) (cardID : Int)
    (fieldFilter : String) (cfg : Config) (cards : List Card) (target : Card)
    (detailedCard : DetailedCard) (comments : List Comment) (lists : List BoardList)
    (s1 s2 s3 s4 : List Request)
    (hfield : ToLower L fieldFilter = "status")
    (hcfg : LoadConfig L w.fs = Except.ok cfg)
    (hcred : cfg.APIKey ≠ "" ∧ cfg.APIToken ≠ "")
    (h1 : (NewClient cfg.APIKey cfg.APIToken).GetCards L w.transport cfg.BoardID []
      = ((cards, none), s1))
    (hfind : findCard cardID cards = some target)
    (h2 : (NewClient cfg.APIKey cfg.APIToken).GetCardDetails L w.transport target.ID s1
      = ((some detailedCard, none), s2))
    (h3 : (NewClient cfg.APIKey cfg.APIToken).GetCardComments L w.transport target.ID s2
      = ((comments, none), s3))
    (h4 : (NewClient cfg.APIKey cfg.APIToken).GetLists L w.transport cfg.BoardID s3
      = ((lists, none), s4)) :
    (showCardDetails L w cardID fieldFilter).stdout
        = (if detailedCard.Closed = true then "Closed" else "Open")
      ∧ (showCardDetails L w cardID fieldFilter).fatal = none := by
  have hne : fieldFilter ≠ "" := by
    intro h
    rw [h] at hfield
    have h0 : ToLower L "" = "" := rfl
    rw [h0] at hfield
    exact absurd hfield (by decide)
  rw [showCardDetails_of_fetched L w cardID fieldFilter cfg cards target detailedCard comments
    lists s1 s2 s3 s4 hcfg hcred h1 hfind h2 h3 h4, if_pos hne]
  unfold printField
  simp only [hfield]
  constructor <;> rfl

/-- C10 at a concrete input: the closed sample card and the field "StatUS". -/
theorem status_field_witness :
    (showCardDetails sampleLib sampleWorld 7 "StatUS").stdout
        = (if (⟨"c1", "First", "text", ["m1"], "sl1", 7, "l1", true, "", [⟨"red"⟩]⟩ :
            DetailedCard).Closed = true then "Closed" else "Open")
      ∧ (showCardDetails sampleLib sampleWorld 7 "StatUS").fatal = none :=
  status_field_prints_exactly sampleLib sampleWorld 7 "StatUS" sampleConfig
    [⟨"c1", "First", ["m1"], "sl1", 7, "l1"⟩] ⟨"c1", "First", ["m1"], "sl1", 7, "l1"⟩
    ⟨"c1", "First", "text", ["m1"], "sl1", 7, "l1", true, "", [⟨"red"⟩]⟩ [] [⟨"l1", "Doing"⟩]
    _ _ _ _ (by decide) sample_LoadConfig (by decide) rfl rfl rfl rfl rfl

/-! ## Card listing flow: collection and list filter -/

/-- The row that the listing makes of a card. -/
theorem appendCard_eq (L : Lib) (allowedLists : Option (GoMap Bool)) (listMap : GoMap String)
    (acc : List Row) (card : Card) :
    appendCard L allowedLists listMap acc card
      = acc ++ (if shouldIncludeList L allowedLists (resolveListName listMap card) then
          [(⟨card.IDShort, card.Name, resolveListName listMap card⟩ : Row)] else []) := by
  unfold appendCard
  simp only
  split <;> simp

theorem memberLoop_eq (L : Lib) (allowedLists : Option (GoMap Bool)) (listMap : GoMap String)
    (userID : String) (card : Card) (acc : List Row) (members : List String) :
    memberLoop L allowedLists listMap userID card acc members
      = acc ++ (if userID ∈ members
            ∧ shouldIncludeList L allowedLists (resolveListName listMap card) = true then
          [(⟨card.IDShort, card.Name, resolveListName listMap card⟩ : Row)] else []) := by
  induction members with
  | nil => simp [memberLoop]
  | cons memberID rest ih =>
    simp only [memberLoop]
    by_cases h : memberID = userID
    · simp [h, appendCard_eq]
    · have h' : ¬ userID = memberID := fun e => h e.symm
      simp [h, h', ih]

theorem foldl_append_singleton_or_nil {α β : Type} (p : α → Bool) (f : α → β) (xs : List α) :
    ∀ acc : List β,
      xs.foldl (fun acc x => acc ++ (if p x then [f x] else [])) acc
        = acc ++ (xs.filter p).map f := by
  induction xs with
  | nil => intro acc; simp
  | cons x rest ih =>
    intro acc
    simp only [List.foldl_cons, ih, List.filter_cons]
    by_cases h : p x <;> simp [h]

/-- The collection loops keep, in fetch order and once each, the cards that
pass the assignment test and the list test. -/
theorem collectCards_eq (L : Lib) (allCards : Bool) (allowedLists : Option (GoMap Bool))
    (listMap : GoMap String) (userID : String) (cards : List Card) :
    collectCards L allCards allowedLists listMap userID cards
      = (cards.filter (fun card =>
            (allCards || decide (userID ∈ card.IDMembers))
              && shouldIncludeList L allowedLists (resolveListName listMap card))).map
          (fun card => (⟨card.IDShort, card.Name, resolveListName listMap card⟩ : Row)) := by
  unfold collectCards
  cases allCards with
  | true =>
    simp only [if_true, Bool.true_or, Bool.true_and, appendCard_eq]
    have := foldl_append_singleton_or_nil
      (fun card => shouldIncludeList L allowedLists (resolveListName listMap card))
      (fun card => (⟨card.IDShort, card.Name, resolveListName listMap card⟩ : Row)) cards []
    simpa using this
  | false =>
    simp only [Bool.false_eq_true, if_false, Bool.false_or, memberLoop_eq]
    have := foldl_append_singleton_or_nil
      (fun card => decide (userID ∈ card.IDMembers)
        && shouldIncludeList L allowedLists (resolveListName listMap card))
      (fun card => (⟨card.IDShort, card.Name, resolveListName listMap card⟩ : Row)) cards []
    simpa using this

theorem GoMap_get_set_true (m : GoMap Bool) (k k' : String) :
    GoMap.get false (m.set k' true) k = true ↔ k = k' ∨ GoMap.get false m k = true := by
  unfold GoMap.get GoMap.find GoMap.set
  simp only [List.lookup]
  by_cases h : k = k'
  · subst h; simp
  · have : (k == k') = false := by simpa using h
    simp [this, h]

theorem allowed_foldl (L : Lib) (names : List String) :
    ∀ (m : GoMap Bool) (k : String),
      GoMap.get false
          (names.foldl
            (fun allowedLists name =>
              if TrimSpace name ≠ "" then allowedLists.set (ToLower L (TrimSpace name)) true
              else allowedLists) m) k = true
        ↔ (∃ entry ∈ names, TrimSpace entry ≠ "" ∧ k = ToLower L (TrimSpace entry))
          ∨ GoMap.get false m k = true := by
  induction names with
  | nil => intro m k; simp
  | cons name rest ih =>
    intro m k
    simp only [List.foldl_cons, ih, List.mem_cons, exists_eq_or_imp]
    by_cases h : TrimSpace name = ""
    · simp [h]
    · simp only [h, ne_eq, not_false_eq_true, if_true, GoMap_get_set_true, true_and]
      constructor
      · rintro (h1 | h1 | h1)
        · exact Or.inl (Or.inr h1)
        · exact Or.inl (Or.inl h1)
        · exact Or.inr h1
      · rintro ((h1 | h1) | h1)
        · exact Or.inr (Or.inl h1)
        · exact Or.inl h1
        · exact Or.inr (Or.inr h1)

theorem resolveListName_ne_empty (listMap : GoMap String) (card : Card) :
    resolveListName listMap card ≠ "" := by
  unfold resolveListName
  simp only
  split
  · decide
  · assumption

theorem ToLower_eq_empty (L : Lib) (s : String) : ToLower L s = "" ↔ s = "" := by
  unfold ToLower
  constructor
  · intro h
    have h1 := congrArg String.data h
    simp only [List.map_eq_nil_iff] at h1
    exact String.ext h1
  · intro h
    subst h
    rfl

/-- C3: with a non-empty filter string a list name passes exactly when its
lower-cased form equals the lower-cased, trimmed form of one of the
comma-separated entries that are not blank; for the resolved list name of a
card it is the same to ask for an entry that is not empty; an empty filter
string passes every list name; the listing with `--all` keeps exactly the cards
whose resolved list name passes; and the filter " Doing , Done" passes "doing"
and "DONE". -/
theorem list_filter_case_insensitive_trimmed (L : Lib) (listFilter : String)
    (listMap : GoMap String) (userID : String) (cards : List Card) :
    (listFilter ≠ "" → ∀ listName,
        (shouldIncludeList L (parseListFilter L listFilter) listName = true
          ↔ ∃ entry ∈ Split listFilter ',',
              TrimSpace entry ≠ "" ∧ ToLower L listName = ToLower L (TrimSpace entry)))
    ∧ (listFilter ≠ "" → ∀ card : Card,
        (shouldIncludeList L (parseListFilter L listFilter) (resolveListName listMap card) = true
          ↔ ∃ entry ∈ Split listFilter ',',
              entry ≠ "" ∧ ToLower L (resolveListName listMap card)
                = ToLower L (TrimSpace entry)))
    ∧ (∀ listName, shouldIncludeList L (parseListFilter L "") listName = true)
    ∧ collectCards L true (parseListFilter L listFilter) listMap userID cards
        = (cards.filter (fun card =>
            shouldIncludeList L (parseListFilter L listFilter) (resolveListName listMap card))).map
          (fun card => (⟨card.IDShort, card.Name, resolveListName listMap card⟩ : Row))
    ∧ shouldIncludeList L (parseListFilter L " Doing , Done") "doing" = true
    ∧ shouldIncludeList L (parseListFilter L " Doing , Done") "DONE" = true := by
  have key : listFilter ≠ "" → ∀ listName,
      (shouldIncludeList L (parseListFilter L listFilter) listName = true
        ↔ ∃ entry ∈ Split listFilter ',',
            TrimSpace entry ≠ "" ∧ ToLower L listName = ToLower L (TrimSpace entry)) := by
    intro hne listName
    unfold parseListFilter shouldIncludeList
    simp only [hne, ne_eq, not_false_eq_true, if_true]
    rw [allowed_foldl]
    simp [GoMap.get, GoMap.find]
  refine ⟨key, ?_, ?_, ?_, ?_, ?_⟩
  · intro hne card
    rw [key hne]
    have hr : ToLower L (resolveListName listMap card) ≠ "" := fun h =>
      resolveListName_ne_empty listMap card ((ToLower_eq_empty L _).1 h)
    constructor
    · rintro ⟨entry, hmem, htrim, heq⟩
      refine ⟨entry, hmem, ?_, heq⟩
      intro h0
      subst h0
      exact htrim rfl
    · rintro ⟨entry, hmem, _, heq⟩
      refine ⟨entry, hmem, ?_, heq⟩
      intro h0
      rw [h0] at heq
      exact hr heq
  · intro listName
    rfl
  · rw [collectCards_eq]
    simp
  · rfl
  · rfl

/-! ## Card listing flow: column width -/

theorem maxIDWidth_foldl_ge (rows : List Row) :
    ∀ w0 : Nat,
      w0 ≤ rows.foldl (fun w card =>
          if (idStr card.id).length > w then (idStr card.id).length else w) w0
      ∧ ∀ r ∈ rows, (idStr r.id).length ≤ rows.foldl (fun w card =>
          if (idStr card.id).length > w then (idStr card.id).length else w) w0 := by
  induction rows with
  | nil => intro w0; simp
  | cons row rest ih =>
    intro w0
    simp only [List.foldl_cons, List.mem_cons, forall_eq_or_imp]
    obtain ⟨h1, h2⟩ := ih (if (idStr row.id).length > w0 then (idStr row.id).length else w0)
    refine ⟨?_, ?_, h2⟩
    · refine le_trans ?_ h1
      split <;> omega
    · refine le_trans ?_ h1
      split <;> omega

theorem maxIDWidth_foldl_attained (rows : List Row) :
    ∀ w0 : Nat,
      rows.foldl (fun w card =>
          if (idStr card.id).length > w then (idStr card.id).length else w) w0 = w0
      ∨ ∃ r ∈ rows, (idStr r.id).length = rows.foldl (fun w card =>
          if (idStr card.id).length > w then (idStr card.id).length else w) w0 := by
  induction rows with
  | nil => intro w0; simp
  | cons row rest ih =>
    intro w0
    simp only [List.foldl_cons, List.mem_cons, exists_eq_or_imp]
    rcases ih (if (idStr row.id).length > w0 then (idStr row.id).length else w0) with h | h
    · rw [h]
      by_cases hw : (idStr row.id).length > w0
      · simp [hw]
      · simp [hw]
    · exact Or.inr (Or.inr h)

theorem idStr_length_pos (id : Int) : 0 < (idStr id).length := by
  unfold idStr
  rw [String.length_append]
  have : ("#" : String).length = 1 := rfl
  omega

theorem padRight_length (width : Nat) (s : String) (h : s.length ≤ width) :
    (padRight width s).length = width := by
  unfold padRight
  rw [String.length_append]
  simp only [String.length, List.length_replicate]
  simp only [String.length] at h
  omega

/-- The sample rows with the ids 3 and 120. -/
theorem printCards_sample :
    printCards sampleLib [⟨3, "a", "Doing"⟩, ⟨120, "b", "Doing"⟩] = ["#3    a\n", "#120  b\n"] := by
  decide

/-- C5, the claim as stated, fails: for the ids 3 and 120 without colour the
widest id text "#120" has 4 characters, and the printed lines are not the id
text padded to 4 characters, one blank and the title; the id column is 5 wide. -/
theorem column_width_counterexample :
    maxIDWidth [⟨3, "a", "Doing"⟩, ⟨120, "b", "Doing"⟩] = 4
      ∧ printCards sampleLib [⟨3, "a", "Doing"⟩, ⟨120, "b", "Doing"⟩]
          ≠ [padRight 4 (idStr 3) ++ " " ++ "a" ++ "\n", padRight 4 (idStr 120) ++ " " ++ "b" ++ "\n"]
      ∧ printCards sampleLib [⟨3, "a", "Doing"⟩, ⟨120, "b", "Doing"⟩]
          = [padRight 5 (idStr 3) ++ " " ++ "a" ++ "\n", padRight 5 (idStr 120) ++ " " ++ "b" ++ "\n"] := by
  decide

/-- C5 as amended: let W be the largest length of "#" followed by the decimal
short id over the rows (it bounds every row and a non-empty list attains it);
when the style leaves the id text as it is (no colour), every printed line is
the id text padded with blanks to exactly W + 1 characters, then one blank, the
title and a newline.  For the ids 3 and 120 the id column is 5 characters wide
in both rows. -/
theorem column_width_is_max_plus_one (L : Lib) (rows : List Row)
    (hplain : ∀ r ∈ rows, L.styleRender (idStr r.id) = idStr r.id) :
    (∀ r ∈ rows, (idStr r.id).length ≤ maxIDWidth rows)
      ∧ (rows ≠ [] → ∃ r ∈ rows, (idStr r.id).length = maxIDWidth rows)
      ∧ printCards L rows
          = rows.map (fun r => padRight (maxIDWidth rows + 1) (idStr r.id) ++ " " ++ r.name ++ "\n")
      ∧ (∀ r ∈ rows, (padRight (maxIDWidth rows + 1) (idStr r.id)).length = maxIDWidth rows + 1)
      ∧ (padRight (maxIDWidth [⟨3, "a", "Doing"⟩, ⟨120, "b", "Doing"⟩] + 1) (idStr 3)).length = 5
      ∧ (padRight (maxIDWidth [⟨3, "a", "Doing"⟩, ⟨120, "b", "Doing"⟩] + 1) (idStr 120)).length = 5 := by
  have hle : ∀ r ∈ rows, (idStr r.id).length ≤ maxIDWidth rows := (maxIDWidth_foldl_ge rows 0).2
  refine ⟨hle, ?_, ?_, ?_, by decide, by decide⟩
  · intro hne
    have hatt : maxIDWidth rows = 0 ∨ ∃ r ∈ rows, (idStr r.id).length = maxIDWidth rows :=
      maxIDWidth_foldl_attained rows 0
    rcases hatt with h | h
    · cases rows with
      | nil => exact absurd rfl hne
      | cons row rest =>
        have h1 := hle row (List.mem_cons_self _ _)
        have h2 := idStr_length_pos row.id
        omega
    · exact h
  · unfold printCards
    apply List.map_congr_left
    intro r hr
    unfold printRow
    rw [hplain r hr]
  · intro r hr
    apply padRight_length
    have := hle r hr
    omega

/-- C5 as amended, at a concrete input: the ids 3 and 120 without colour. -/
theorem column_width_witness :
    (∀ r ∈ [(⟨3, "a", "Doing"⟩ : Row), ⟨120, "b", "Doing"⟩],
        (idStr r.id).length ≤ maxIDWidth [⟨3, "a", "Doing"⟩, ⟨120, "b", "Doing"⟩])
      ∧ ([(⟨3, "a", "Doing"⟩ : Row), ⟨120, "b", "Doing"⟩] ≠ [] →
          ∃ r ∈ [(⟨3, "a", "Doing"⟩ : Row), ⟨120, "b", "Doing"⟩],
            (idStr r.id).length = maxIDWidth [⟨3, "a", "Doing"⟩, ⟨120, "b", "Doing"⟩])
      ∧ printCards sampleLib [⟨3, "a", "Doing"⟩, ⟨120, "b", "Doing"⟩]
          = [(⟨3, "a", "Doing"⟩ : Row), ⟨120, "b", "Doing"⟩].map (fun r =>
              padRight (maxIDWidth [⟨3, "a", "Doing"⟩, ⟨120, "b", "Doing"⟩] + 1) (idStr r.id)
                ++ " " ++ r.name ++ "\n")
      ∧ (∀ r ∈ [(⟨3, "a", "Doing"⟩ : Row), ⟨120, "b", "Doing"⟩],
          (padRight (maxIDWidth [⟨3, "a", "Doing"⟩, ⟨120, "b", "Doing"⟩] + 1) (idStr r.id)).length
            = maxIDWidth [⟨3, "a", "Doing"⟩, ⟨120, "b", "Doing"⟩] + 1)
      ∧ (padRight (maxIDWidth [⟨3, "a", "Doing"⟩, ⟨120, "b", "Doing"⟩] + 1) (idStr 3)).length = 5
      ∧ (padRight (maxIDWidth [⟨3, "a", "Doing"⟩, ⟨120, "b", "Doing"⟩] + 1) (idStr 120)).length = 5 :=
  column_width_is_max_plus_one sampleLib [⟨3, "a", "Doing"⟩, ⟨120, "b", "Doing"⟩]
    (fun _ _ => rfl)

/-! ## `sort.Slice` sorts and rearranges -/

section SwapLemmas

variable {α : Type}

theorem length_swapAt (data : List α) (i j : Nat) : (swapAt data i j).length = data.length := by
  unfold swapAt
  split <;> simp

theorem getElem?_swapAt (data : List α) (i j k : Nat) (hi : i < data.length)
    (hj : j < data.length) :
    (swapAt data i j)[k]? = if k = j then data[i]? else if k = i then data[j]? else data[k]? := by
  unfold swapAt
  rw [List.getElem?_eq_getElem hi, List.getElem?_eq_getElem hj]
  simp only
  rw [List.getElem?_set, List.getElem?_set]
  by_cases h1 : j = k
  · subst h1
    simp [hj]
  · have h1' : ¬ k = j := fun e => h1 e.symm
    simp only [h1, h1', if_false]
    by_cases h2 : i = k
    · subst h2
      simp [hi]
    · have h2' : ¬ k = i := fun e => h2 e.symm
      simp [h2, h2']

theorem keyAt_swapAt (key : α → Int) (data : List α) (i j k : Nat) (hi : i < data.length)
    (hj : j < data.length) :
    keyAt key (swapAt data i j) k
      = if k = j then keyAt key data i else if k = i then keyAt key data j
        else keyAt key data k := by
  unfold keyAt
  rw [getElem?_swapAt data i j k hi hj]
  split_ifs <;> rfl

theorem swapAt_perm (data : List α) (i j : Nat) : (swapAt data i j).Perm data := by
  classical
  unfold swapAt
  split
  · next x y hx hy =>
    obtain ⟨hi, hxi⟩ := List.getElem?_eq_some.1 hx
    obtain ⟨hj, hyj⟩ := List.getElem?_eq_some.1 hy
    rw [List.perm_iff_count]
    intro b
    have hj' : j < (data.set i y).length := by simpa using hj
    rw [List.count_set _ _ _ _ hj', List.count_set _ _ _ _ hi]
    have e1 : (data.set i y)[j] = y := by
      rw [List.getElem_set]
      split
      · rfl
      · exact hyj
    rw [e1, hxi]
    have hpos : (if (x == b) = true then 1 else 0) ≤ List.count b data := by
      split
      · next hb =>
        have : x = b := by simpa using hb
        subst this
        exact List.count_pos_iff.2 (hxi ▸ List.getElem_mem _)
      · exact Nat.zero_le _
    omega
  · exact List.Perm.refl _

theorem lessAt_iff (key : α → Int) (lt : α → α → Bool)
    (hlt : ∀ x y, lt x y = true ↔ key x < key y) (data : List α) (i j : Nat)
    (hi : i < data.length) (hj : j < data.length) :
    lessAt lt data i j = true ↔ keyAt key data i < keyAt key data j := by
  unfold lessAt keyAt
  rw [List.getElem?_eq_getElem hi, List.getElem?_eq_getElem hj]
  exact hlt _ _

end SwapLemmas

section InsertionInner

variable {α : Type}

variable (key : α → Int)

theorem Rearranged.refl (data : List α) (a b : Nat) : Rearranged key data data a b :=
  ⟨rfl, List.Perm.refl _, fun _ _ => rfl, fun _ h => h⟩

theorem Rearranged.trans {key : α → Int} {d1 d2 d3 : List α} {a b : Nat}
    (h1 : Rearranged key d1 d2 a b) (h2 : Rearranged key d2 d3 a b) : Rearranged key d1 d3 a b :=
  ⟨h2.length_eq.trans h1.length_eq, h2.perm.trans h1.perm,
    fun k hk => (h2.frame k hk).trans (h1.frame k hk),
    fun P hP => h2.keys P (h1.keys P hP)⟩

theorem Rearranged.keyAt_frame {key : α → Int} {d1 d2 : List α} {a b : Nat}
    (h : Rearranged key d1 d2 a b) (k : Nat) (hk : k < a ∨ b ≤ k) :
    keyAt key d2 k = keyAt key d1 k := by
  unfold keyAt
  rw [h.frame k hk]

theorem Rearranged.widen {key : α → Int} {d1 d2 : List α} {a b a' b' : Nat}
    (h : Rearranged key d1 d2 a b) (ha : a' ≤ a) (hb : b ≤ b') : Rearranged key d1 d2 a' b' := by
  refine ⟨h.length_eq, h.perm, fun k hk => h.frame k (by omega), ?_⟩
  intro P hP k hk1 hk2
  by_cases hin : a ≤ k ∧ k < b
  · exact h.keys P (fun k' h1 h2 => hP k' (by omega) (by omega)) k hin.1 hin.2
  · rw [h.keyAt_frame k (by omega)]
    exact hP k hk1 hk2

theorem Rearranged.swap (data : List α) (a b i j : Nat) (hb : b ≤ data.length)
    (hi : a ≤ i ∧ i < b) (hj : a ≤ j ∧ j < b) : Rearranged key data (swapAt data i j) a b := by
  have hil : i < data.length := by omega
  have hjl : j < data.length := by omega
  refine ⟨length_swapAt _ _ _, swapAt_perm _ _ _, ?_, ?_⟩
  · intro k hk
    rw [getElem?_swapAt data i j k hil hjl]
    have h1 : ¬ k = j := by omega
    have h2 : ¬ k = i := by omega
    simp [h1, h2]
  · intro P hP k hk1 hk2
    rw [keyAt_swapAt key data i j k hil hjl]
    split_ifs
    · exact hP i hi.1 hi.2
    · exact hP j hj.1 hj.2
    · exact hP k hk1 hk2

variable (lt : α → α → Bool) (hlt : ∀ x y, lt x y = true ↔ key x < key y)
include hlt

theorem insertionSort_inner_spec (a i b : Nat) (hib : i < b) :
    ∀ (j : Nat) (data : List α), b ≤ data.length → a ≤ j → j ≤ i →
      (∀ p q, a ≤ p → p < q → q ≤ i → q ≠ j → keyAt key data p ≤ keyAt key data q) →
      Rearranged key data (insertionSort_inner lt a j data) a b
        ∧ SortedOn key (insertionSort_inner lt a j data) a (i + 1) := by
  intro j
  induction j with
  | zero =>
    intro data _ _ _ hInv
    refine ⟨Rearranged.refl key _ _ _, ?_⟩
    intro p q hp hpq hq
    by_cases h : p = q
    · subst h; exact le_refl _
    · exact hInv p q hp (by omega) (by omega) (by omega)
  | succ j ih =>
    intro data hb haj hji hInv
    unfold insertionSort_inner
    by_cases hc : (decide (j + 1 > a) && lessAt lt data (j + 1) j) = true
    · rw [if_pos hc]
      simp only [Bool.and_eq_true, decide_eq_true_eq] at hc
      obtain ⟨haj', hless⟩ := hc
      have hkl : keyAt key data (j + 1) < keyAt key data j :=
        (lessAt_iff key lt hlt data (j + 1) j (by omega) (by omega)).1 hless
      have hsw := Rearranged.swap key data a b (j + 1) j hb ⟨by omega, by omega⟩
        ⟨by omega, by omega⟩
      have hInv' : ∀ p q, a ≤ p → p < q → q ≤ i → q ≠ j →
          keyAt key (swapAt data (j + 1) j) p ≤ keyAt key (swapAt data (j + 1) j) q := by
        intro p q hp hpq hq hqj
        rw [keyAt_swapAt key data (j + 1) j p (by omega) (by omega),
          keyAt_swapAt key data (j + 1) j q (by omega) (by omega)]
        have i1 : p < j → keyAt key data p ≤ keyAt key data j := fun h =>
          hInv p j hp h (by omega) (by omega)
        have i2 : j + 1 < q → keyAt key data j ≤ keyAt key data q := fun h =>
          hInv j q (by omega) (by omega) hq (by omega)
        have i3 : j + 1 < q → keyAt key data (j + 1) ≤ keyAt key data q := fun h =>
          hInv (j + 1) q (by omega) (by omega) hq (by omega)
        have i4 : q ≠ j + 1 → keyAt key data p ≤ keyAt key data q := fun h =>
          hInv p q hp hpq hq h
        simp only [hqj, if_false]
        by_cases hq1 : q = j + 1
        · subst hq1
          simp only [if_true]
          by_cases hp1 : p = j
          · subst hp1; simp only [if_true]; omega
          · have : ¬ p = j + 1 := by omega
            simp only [hp1, this, if_false]
            omega
        · simp only [hq1, if_false]
          by_cases hp1 : p = j
          · subst hp1; simp only [if_true]; omega
          · by_cases hp2 : p = j + 1
            · subst hp2; simp only [hp1, if_false, if_true]; omega
            · simp only [hp1, hp2, if_false]; omega
      obtain ⟨r1, r2⟩ := ih (swapAt data (j + 1) j) (by rw [length_swapAt]; exact hb)
        (by omega) (by omega) hInv'
      exact ⟨hsw.trans r1, r2⟩
    · rw [if_neg hc]
      refine ⟨Rearranged.refl key _ _ _, ?_⟩
      simp only [Bool.and_eq_true, decide_eq_true_eq, not_and] at hc
      intro p q hp hpq hq
      by_cases h : p = q
      · subst h; exact le_refl _
      by_cases hq1 : q = j + 1
      · subst hq1
        have haj' : j + 1 > a := by omega
        have hnl := hc haj'
        have hkl : ¬ keyAt key data (j + 1) < keyAt key data j := fun hh =>
          hnl ((lessAt_iff key lt hlt data (j + 1) j (by omega) (by omega)).2 hh)
        by_cases hp1 : p = j
        · subst hp1; omega
        · have := hInv p j hp (by omega) (by omega) (by omega)
          omega
      · exact hInv p q hp (by omega) (by omega) hq1

end InsertionInner

section InsertionSort

variable {α : Type} (key : α → Int)

theorem SortedOn.narrow {key : α → Int} {data : List α} {a b a' b' : Nat}
    (h : SortedOn key data a b) (ha : a ≤ a') (hb : b' ≤ b) : SortedOn key data a' b' :=
  fun i j hi hij hj => h i j (by omega) hij (by omega)

theorem SortedOn.of_le {key : α → Int} (data : List α) {a b : Nat} (h : b ≤ a + 1) :
    SortedOn key data a b := by
  intro i j hi hij hj
  have : i = j := by omega
  subst this
  exact le_refl _

variable (lt : α → α → Bool) (hlt : ∀ x y, lt x y = true ↔ key x < key y)
include hlt

theorem insertionSort_outer_spec (a b : Nat) :
    ∀ (n i : Nat) (data : List α), b ≤ data.length → a + 1 ≤ i → b ≤ n + i →
      SortedOn key data a i →
      Rearranged key data (insertionSort_outer lt a b n i data) a b
        ∧ SortedOn key (insertionSort_outer lt a b n i data) a b := by
  intro n
  induction n with
  | zero =>
    intro i data _ _ hn hs
    exact ⟨Rearranged.refl key _ _ _, hs.narrow (le_refl _) (by omega)⟩
  | succ n ih =>
    intro i data hb hai hn hs
    unfold insertionSort_outer
    by_cases hib : i < b
    · rw [if_pos hib]
      obtain ⟨r1, r2⟩ := insertionSort_inner_spec key lt hlt a i b hib i data hb (by omega)
        (le_refl _) (fun p q hp hpq hq hqi => hs p q hp (by omega) (by omega))
      obtain ⟨r3, r4⟩ := ih (i + 1) (insertionSort_inner lt a i data)
        (by rw [r1.length_eq]; exact hb) (by omega) (by omega) r2
      exact ⟨r1.trans r3, r4⟩
    · rw [if_neg hib]
      exact ⟨Rearranged.refl key _ _ _, hs.narrow (le_refl _) (by omega)⟩

/-- The routine `insertionSort_func` sorts the range and touches nothing else. -/
theorem insertionSort_func_spec (data : List α) (a b : Nat) (hb : b ≤ data.length) :
    Rearranged key data (insertionSort_func lt data a b) a b
      ∧ SortedOn key (insertionSort_func lt data a b) a b := by
  unfold insertionSort_func
  exact insertionSort_outer_spec key lt hlt a b (b - (a + 1)) (a + 1) data hb (le_refl _)
    (by omega) (SortedOn.of_le data (le_refl _))

end InsertionSort

section PartitionLoop

variable {α : Type} (key : α → Int)

theorem scanUp_spec (p : Nat → Bool) (j : Nat) :
    ∀ (fuel i : Nat), j + 1 ≤ fuel + i →
      i ≤ scanUp p j fuel i
        ∧ (i ≤ j + 1 → scanUp p j fuel i ≤ j + 1)
        ∧ (∀ k, i ≤ k → k < scanUp p j fuel i → p k = true)
        ∧ (scanUp p j fuel i ≤ j → p (scanUp p j fuel i) = false) := by
  intro fuel
  induction fuel with
  | zero =>
    intro i h
    unfold scanUp
    exact ⟨le_refl _, fun h => h, fun k h1 h2 => absurd h2 (by omega), fun h' => absurd h' (by omega)⟩
  | succ fuel ih =>
    intro i h
    unfold scanUp
    by_cases hc : (decide (i ≤ j) && p i) = true
    · rw [if_pos hc]
      simp only [Bool.and_eq_true, decide_eq_true_eq] at hc
      obtain ⟨h1, h2, h3, h4⟩ := ih (i + 1) (by omega)
      refine ⟨by omega, fun _ => h2 (by omega), ?_, h4⟩
      intro k hk1 hk2
      by_cases hki : k = i
      · subst hki; exact hc.2
      · exact h3 k (by omega) hk2
    · rw [if_neg hc]
      simp only [Bool.and_eq_true, decide_eq_true_eq, not_and, Bool.not_eq_true] at hc
      exact ⟨le_refl _, fun h => h, fun k h1 h2 => absurd h2 (by omega), hc⟩

theorem scanDown_spec (p : Nat → Bool) (i : Nat) (hi : 1 ≤ i) :
    ∀ (j : Nat),
      scanDown p i j ≤ j
        ∧ (i ≤ j + 1 → i ≤ scanDown p i j + 1)
        ∧ (∀ k, scanDown p i j < k → k ≤ j → p k = true)
        ∧ (i ≤ scanDown p i j → p (scanDown p i j) = false) := by
  intro j
  induction j with
  | zero =>
    unfold scanDown
    exact ⟨le_refl _, fun h => h, fun k h1 h2 => absurd h2 (by omega), fun h' => absurd h' (by omega)⟩
  | succ j ih =>
    unfold scanDown
    by_cases hc : (decide (i ≤ j + 1) && p (j + 1)) = true
    · rw [if_pos hc]
      simp only [Bool.and_eq_true, decide_eq_true_eq] at hc
      obtain ⟨h1, h2, h3, h4⟩ := ih
      refine ⟨by omega, fun _ => h2 (by omega), ?_, h4⟩
      intro k hk1 hk2
      by_cases hkj : k = j + 1
      · subst hkj; exact hc.2
      · exact h3 k hk1 (by omega)
    · rw [if_neg hc]
      simp only [Bool.and_eq_true, decide_eq_true_eq, not_and, Bool.not_eq_true] at hc
      exact ⟨le_refl _, fun h => h, fun k h1 h2 => absurd h2 (by omega), hc⟩

variable (lt : α → α → Bool) (hlt : ∀ x y, lt x y = true ↔ key x < key y)
include hlt

theorem lessAt_false_iff (data : List α) (i j : Nat) (hi : i < data.length)
    (hj : j < data.length) :
    lessAt lt data i j = false ↔ keyAt key data j ≤ keyAt key data i := by
  rw [← Bool.not_eq_true, lessAt_iff key lt hlt data i j hi hj]
  omega

theorem partition_loop_spec (a b : Nat) (hab : a < b) :
    ∀ (fuel : Nat) (data : List α) (i j : Nat), b ≤ data.length → j + 1 ≤ fuel + i →
      a + 1 ≤ i → i ≤ j + 1 → j < b →
      (∀ k, a < k → k < i → keyAt key data k < keyAt key data a) →
      (∀ k, j < k → k < b → keyAt key data a ≤ keyAt key data k) →
      Rearranged key data (partition_loop lt a fuel data i j).1 a b
        ∧ a ≤ (partition_loop lt a fuel data i j).2
        ∧ (partition_loop lt a fuel data i j).2 < b
        ∧ keyAt key (partition_loop lt a fuel data i j).1 a = keyAt key data a
        ∧ (∀ k, a < k → k ≤ (partition_loop lt a fuel data i j).2 →
            keyAt key (partition_loop lt a fuel data i j).1 k < keyAt key data a)
        ∧ (∀ k, (partition_loop lt a fuel data i j).2 < k → k < b →
            keyAt key data a ≤ keyAt key (partition_loop lt a fuel data i j).1 k) := by
  intro fuel
  induction fuel with
  | zero =>
    intro data i j _ hf hai hij hjb hlo hhi
    unfold partition_loop
    exact ⟨Rearranged.refl key _ _ _, by omega, hjb, rfl, fun k h1 h2 => hlo k h1 (by omega), hhi⟩
  | succ fuel ih =>
    intro data i j hb hf hai hij hjb hlo hhi
    unfold partition_loop
    simp only
    obtain ⟨u1, u2, u3, u4⟩ := scanUp_spec (fun i => lessAt lt data i a) j (j + 1 - i) i (by omega)
    generalize scanUp (fun i => lessAt lt data i a) j (j + 1 - i) i = i' at u1 u2 u3 u4 ⊢
    obtain ⟨d1, d2, d3, d4⟩ := scanDown_spec (fun j => !lessAt lt data j a) i' (by omega) j
    generalize scanDown (fun j => !lessAt lt data j a) i' j = j' at d1 d2 d3 d4 ⊢
    have hi'j := u2 hij
    have hi'j' := d2 hi'j
    have hlo' : ∀ k, a < k → k < i' → keyAt key data k < keyAt key data a := by
      intro k h1 h2
      by_cases hk : k < i
      · exact hlo k h1 hk
      · exact (lessAt_iff key lt hlt data k a (by omega) (by omega)).1 (u3 k (by omega) h2)
    have hhi' : ∀ k, j' < k → k < b → keyAt key data a ≤ keyAt key data k := by
      intro k h1 h2
      by_cases hk : j < k
      · exact hhi k hk h2
      · have := d3 k h1 (by omega)
        simp only [Bool.not_eq_true'] at this
        exact (lessAt_false_iff key lt hlt data k a (by omega) (by omega)).1 this
    by_cases hc : i' > j'
    · rw [if_pos hc]
      exact ⟨Rearranged.refl key _ _ _, by omega, by omega, rfl,
        fun k h1 h2 => hlo' k h1 (by omega), hhi'⟩
    · rw [if_neg hc]
      have e1 : keyAt key data a ≤ keyAt key data i' :=
        (lessAt_false_iff key lt hlt data i' a (by omega) (by omega)).1 (u4 (by omega))
      have e2 : keyAt key data j' < keyAt key data a := by
        have := d4 (by omega)
        simp only [Bool.not_eq_false'] at this
        exact (lessAt_iff key lt hlt data j' a (by omega) (by omega)).1 this
      have hne : i' ≠ j' := by
        intro h; subst h; omega
      have hsw := Rearranged.swap key data a b i' j' hb ⟨by omega, by omega⟩ ⟨by omega, by omega⟩
      have ka : keyAt key (swapAt data i' j') a = keyAt key data a := by
        rw [keyAt_swapAt key data i' j' a (by omega) (by omega)]
        have h1 : ¬ a = j' := by omega
        have h2 : ¬ a = i' := by omega
        simp only [h1, h2, if_false]
      obtain ⟨r1, r2, r3, r4, r5, r6⟩ := ih (swapAt data i' j') (i' + 1) (j' - 1)
        (by rw [length_swapAt]; exact hb) (by omega) (by omega) (by omega) (by omega)
        (by
          intro k h1 h2
          rw [ka, keyAt_swapAt key data i' j' k (by omega) (by omega)]
          by_cases hk1 : k = j'
          · subst hk1; omega
          · by_cases hk2 : k = i'
            · subst hk2; simp only [hk1, if_false, if_true]; exact e2
            · simp only [hk1, hk2, if_false]; exact hlo' k h1 (by omega))
        (by
          intro k h1 h2
          rw [ka, keyAt_swapAt key data i' j' k (by omega) (by omega)]
          by_cases hk1 : k = j'
          · subst hk1; simp only [if_true]; exact e1
          · have hk2 : ¬ k = i' := by omega
            simp only [hk1, hk2, if_false]; exact hhi' k (by omega) h2)
      rw [ka] at r4 r5 r6
      exact ⟨hsw.trans r1, r2, r3, r4, r5, r6⟩

end PartitionLoop

section Partition

variable {α : Type} (key : α → Int)

theorem partition_finish (data : List α) (a b j : Nat) (hb : b ≤ data.length) (haj : a ≤ j)
    (hjb : j < b)
    (hlo : ∀ k, a < k → k ≤ j → keyAt key data k < keyAt key data a)
    (hhi : ∀ k, j < k → k < b → keyAt key data a ≤ keyAt key data k) :
    Rearranged key data (swapAt data j a) a b
      ∧ keyAt key (swapAt data j a) j = keyAt key data a
      ∧ (∀ k, a ≤ k → k < j → keyAt key (swapAt data j a) k < keyAt key (swapAt data j a) j)
      ∧ (∀ k, j < k → k < b → keyAt key (swapAt data j a) j ≤ keyAt key (swapAt data j a) k) := by
  have hsw := Rearranged.swap key data a b j a hb ⟨haj, hjb⟩ ⟨le_refl _, by omega⟩
  have kj : keyAt key (swapAt data j a) j = keyAt key data a := by
    rw [keyAt_swapAt key data j a j (by omega) (by omega)]
    by_cases h : j = a
    · subst h; simp
    · simp [h]
  refine ⟨hsw, kj, ?_, ?_⟩
  · intro k h1 h2
    rw [kj, keyAt_swapAt key data j a k (by omega) (by omega)]
    by_cases hk : k = a
    · subst hk; simp only [if_true]; exact hlo j (by omega) (le_refl _)
    · have hk2 : ¬ k = j := by omega
      simp only [hk, hk2, if_false]
      exact hlo k (by omega) (by omega)
  · intro k h1 h2
    rw [kj, keyAt_swapAt key data j a k (by omega) (by omega)]
    have hk : ¬ k = a := by omega
    have hk2 : ¬ k = j := by omega
    simp only [hk, hk2, if_false]
    exact hhi k h1 h2

variable (lt : α → α → Bool) (hlt : ∀ x y, lt x y = true ↔ key x < key y)
include hlt

/-- The routine `partition_func` splits the range around the pivot it returns. -/
theorem partition_func_spec (data : List α) (a b pivot : Nat) (hb : b ≤ data.length)
    (hab : a < b) (hp : a ≤ pivot ∧ pivot < b) :
    Rearranged key data (partition_func lt data a b pivot).1 a b
      ∧ a ≤ (partition_func lt data a b pivot).2.1
      ∧ (partition_func lt data a b pivot).2.1 < b
      ∧ (∀ k, a ≤ k → k < (partition_func lt data a b pivot).2.1 →
          keyAt key (partition_func lt data a b pivot).1 k
            < keyAt key (partition_func lt data a b pivot).1 (partition_func lt data a b pivot).2.1)
      ∧ (∀ k, (partition_func lt data a b pivot).2.1 < k → k < b →
          keyAt key (partition_func lt data a b pivot).1 (partition_func lt data a b pivot).2.1
            ≤ keyAt key (partition_func lt data a b pivot).1 k) := by
  unfold partition_func
  simp only
  have hsw0 := Rearranged.swap key data a b a pivot hb ⟨le_refl _, hab⟩ hp
  have hb1 : b ≤ (swapAt data a pivot).length := by rw [length_swapAt]; exact hb
  generalize swapAt data a pivot = data1 at hsw0 hb1 ⊢
  obtain ⟨u1, u2, u3, u4⟩ := scanUp_spec (fun i => lessAt lt data1 i a) (b - 1)
    (b - 1 + 1 - (a + 1)) (a + 1) (by omega)
  generalize scanUp (fun i => lessAt lt data1 i a) (b - 1) (b - 1 + 1 - (a + 1)) (a + 1) = i'
    at u1 u2 u3 u4 ⊢
  obtain ⟨d1, d2, d3, d4⟩ := scanDown_spec (fun j => !lessAt lt data1 j a) i' (by omega) (b - 1)
  generalize scanDown (fun j => !lessAt lt data1 j a) i' (b - 1) = j' at d1 d2 d3 d4 ⊢
  have hi'j := u2 (by omega)
  have hi'j' := d2 hi'j
  have hlo' : ∀ k, a < k → k < i' → keyAt key data1 k < keyAt key data1 a := by
    intro k h1 h2
    exact (lessAt_iff key lt hlt data1 k a (by omega) (by omega)).1 (u3 k (by omega) h2)
  have hhi' : ∀ k, j' < k → k < b → keyAt key data1 a ≤ keyAt key data1 k := by
    intro k h1 h2
    have := d3 k h1 (by omega)
    simp only [Bool.not_eq_true'] at this
    exact (lessAt_false_iff key lt hlt data1 k a (by omega) (by omega)).1 this
  by_cases hc : i' > j'
  · rw [if_pos hc]
    simp only
    obtain ⟨f1, f2, f3, f4⟩ := partition_finish key data1 a b j' hb1 (by omega) (by omega)
      (fun k h1 h2 => hlo' k h1 (by omega)) hhi'
    exact ⟨hsw0.trans f1, by omega, by omega, f3, f4⟩
  · rw [if_neg hc]
    simp only
    have e1 : keyAt key data1 a ≤ keyAt key data1 i' :=
      (lessAt_false_iff key lt hlt data1 i' a (by omega) (by omega)).1 (u4 (by omega))
    have e2 : keyAt key data1 j' < keyAt key data1 a := by
      have := d4 (by omega)
      simp only [Bool.not_eq_false'] at this
      exact (lessAt_iff key lt hlt data1 j' a (by omega) (by omega)).1 this
    have hne : i' ≠ j' := by
      intro h; subst h; omega
    have hsw := Rearranged.swap key data1 a b i' j' hb1 ⟨by omega, by omega⟩ ⟨by omega, by omega⟩
    have ka : keyAt key (swapAt data1 i' j') a = keyAt key data1 a := by
      rw [keyAt_swapAt key data1 i' j' a (by omega) (by omega)]
      have h1 : ¬ a = j' := by omega
      have h2 : ¬ a = i' := by omega
      simp only [h1, h2, if_false]
    obtain ⟨r1, r2, r3, r4, r5, r6⟩ := partition_loop_spec key lt hlt a b hab (j' + 1 - i')
      (swapAt data1 i' j') (i' + 1) (j' - 1)
      (by rw [length_swapAt]; exact hb1) (by omega) (by omega) (by omega) (by omega)
      (by
        intro k h1 h2
        rw [ka, keyAt_swapAt key data1 i' j' k (by omega) (by omega)]
        by_cases hk1 : k = j'
        · subst hk1; omega
        · by_cases hk2 : k = i'
          · subst hk2; simp only [hk1, if_false, if_true]; exact e2
          · simp only [hk1, hk2, if_false]; exact hlo' k h1 (by omega))
      (by
        intro k h1 h2
        rw [ka, keyAt_swapAt key data1 i' j' k (by omega) (by omega)]
        by_cases hk1 : k = j'
        · subst hk1; simp only [if_true]; exact e1
        · have hk2 : ¬ k = i' := by omega
          simp only [hk1, hk2, if_false]; exact hhi' k (by omega) h2)
    generalize partition_loop lt a (j' + 1 - i') (swapAt data1 i' j') (i' + 1) (j' - 1) = r
      at r1 r2 r3 r4 r5 r6 ⊢
    rw [ka] at r4 r5 r6
    obtain ⟨f1, f2, f3, f4⟩ := partition_finish key r.1 a b r.2
      (by rw [r1.length_eq, length_swapAt]; exact hb1) r2 r3
      (fun k h1 h2 => by rw [r4]; exact r5 k h1 h2)
      (fun k h1 h2 => by rw [r4]; exact r6 k h1 h2)
    exact ⟨(hsw0.trans (hsw.trans r1)).trans f1, r2, r3, f3, f4⟩

end Partition

section PartitionEqual

variable {α : Type} (key : α → Int)
variable (lt : α → α → Bool) (hlt : ∀ x y, lt x y = true ↔ key x < key y)
include hlt

theorem partitionEqual_loop_spec (a b : Nat) (hab : a < b) :
    ∀ (fuel : Nat) (data : List α) (i j : Nat), b ≤ data.length → j + 1 ≤ fuel + i →
      a + 1 ≤ i → i ≤ j + 1 → j < b →
      (∀ k, a < k → k < i → keyAt key data k ≤ keyAt key data a) →
      (∀ k, j < k → k < b → keyAt key data a < keyAt key data k) →
      Rearranged key data (partitionEqual_loop lt a fuel data i j).1 a b
        ∧ a + 1 ≤ (partitionEqual_loop lt a fuel data i j).2
        ∧ (partitionEqual_loop lt a fuel data i j).2 ≤ b
        ∧ keyAt key (partitionEqual_loop lt a fuel data i j).1 a = keyAt key data a
        ∧ (∀ k, a < k → k < (partitionEqual_loop lt a fuel data i j).2 →
            keyAt key (partitionEqual_loop lt a fuel data i j).1 k ≤ keyAt key data a)
        ∧ (∀ k, (partitionEqual_loop lt a fuel data i j).2 ≤ k → k < b →
            keyAt key data a < keyAt key (partitionEqual_loop lt a fuel data i j).1 k) := by
  intro fuel
  induction fuel with
  | zero =>
    intro data i j _ hf hai hij hjb hlo hhi
    unfold partitionEqual_loop
    exact ⟨Rearranged.refl key _ _ _, hai, by omega, rfl, hlo, fun k h1 h2 => hhi k (by omega) h2⟩
  | succ fuel ih =>
    intro data i j hb hf hai hij hjb hlo hhi
    unfold partitionEqual_loop
    simp only
    obtain ⟨u1, u2, u3, u4⟩ := scanUp_spec (fun i => !lessAt lt data a i) j (j + 1 - i) i
      (by omega)
    generalize scanUp (fun i => !lessAt lt data a i) j (j + 1 - i) i = i' at u1 u2 u3 u4 ⊢
    obtain ⟨d1, d2, d3, d4⟩ := scanDown_spec (fun j => lessAt lt data a j) i' (by omega) j
    generalize scanDown (fun j => lessAt lt data a j) i' j = j' at d1 d2 d3 d4 ⊢
    have hi'j := u2 hij
    have hi'j' := d2 hi'j
    have hlo' : ∀ k, a < k → k < i' → keyAt key data k ≤ keyAt key data a := by
      intro k h1 h2
      by_cases hk : k < i
      · exact hlo k h1 hk
      · have := u3 k (by omega) h2
        simp only [Bool.not_eq_true'] at this
        exact (lessAt_false_iff key lt hlt data a k (by omega) (by omega)).1 this
    have hhi' : ∀ k, j' < k → k < b → keyAt key data a < keyAt key data k := by
      intro k h1 h2
      by_cases hk : j < k
      · exact hhi k hk h2
      · exact (lessAt_iff key lt hlt data a k (by omega) (by omega)).1 (d3 k h1 (by omega))
    by_cases hc : i' > j'
    · rw [if_pos hc]
      exact ⟨Rearranged.refl key _ _ _, by omega, by omega, rfl, hlo',
        fun k h1 h2 => hhi' k (by omega) h2⟩
    · rw [if_neg hc]
      have e1 : keyAt key data a < keyAt key data i' := by
        have := u4 (by omega)
        simp only [Bool.not_eq_false'] at this
        exact (lessAt_iff key lt hlt data a i' (by omega) (by omega)).1 this
      have e2 : keyAt key data j' ≤ keyAt key data a :=
        (lessAt_false_iff key lt hlt data a j' (by omega) (by omega)).1 (d4 (by omega))
      have hne : i' ≠ j' := by
        intro h; subst h; omega
      have hsw := Rearranged.swap key data a b i' j' hb ⟨by omega, by omega⟩ ⟨by omega, by omega⟩
      have ka : keyAt key (swapAt data i' j') a = keyAt key data a := by
        rw [keyAt_swapAt key data i' j' a (by omega) (by omega)]
        have h1 : ¬ a = j' := by omega
        have h2 : ¬ a = i' := by omega
        simp only [h1, h2, if_false]
      obtain ⟨r1, r2, r3, r4, r5, r6⟩ := ih (swapAt data i' j') (i' + 1) (j' - 1)
        (by rw [length_swapAt]; exact hb) (by omega) (by omega) (by omega) (by omega)
        (by
          intro k h1 h2
          rw [ka, keyAt_swapAt key data i' j' k (by omega) (by omega)]
          by_cases hk1 : k = j'
          · subst hk1; omega
          · by_cases hk2 : k = i'
            · subst hk2; simp only [hk1, if_false, if_true]; exact e2
            · simp only [hk1, hk2, if_false]; exact hlo' k h1 (by omega))
        (by
          intro k h1 h2
          rw [ka, keyAt_swapAt key data i' j' k (by omega) (by omega)]
          by_cases hk1 : k = j'
          · subst hk1; simp only [if_true]; exact e1
          · have hk2 : ¬ k = i' := by omega
            simp only [hk1, hk2, if_false]; exact hhi' k (by omega) h2)
      rw [ka] at r4 r5 r6
      exact ⟨hsw.trans r1, r2, r3, r4, r5, r6⟩

/-- The routine `partitionEqual_func` puts the elements not above the pivot
first and returns where the greater ones begin. -/
theorem partitionEqual_func_spec (data : List α) (a b pivot : Nat) (hb : b ≤ data.length)
    (hab : a < b) (hp : a ≤ pivot ∧ pivot < b) :
    Rearranged key data (partitionEqual_func lt data a b pivot).1 a b
      ∧ a + 1 ≤ (partitionEqual_func lt data a b pivot).2
      ∧ (partitionEqual_func lt data a b pivot).2 ≤ b
      ∧ (∀ k, a ≤ k → k < (partitionEqual_func lt data a b pivot).2 →
          keyAt key (partitionEqual_func lt data a b pivot).1 k ≤ keyAt key data pivot)
      ∧ (∀ k, (partitionEqual_func lt data a b pivot).2 ≤ k → k < b →
          keyAt key data pivot < keyAt key (partitionEqual_func lt data a b pivot).1 k) := by
  unfold partitionEqual_func
  simp only
  have hsw0 := Rearranged.swap key data a b a pivot hb ⟨le_refl _, hab⟩ hp
  have hb1 : b ≤ (swapAt data a pivot).length := by rw [length_swapAt]; exact hb
  have ka : keyAt key (swapAt data a pivot) a = keyAt key data pivot := by
    rw [keyAt_swapAt key data a pivot a (by omega) (by omega)]
    by_cases h : a = pivot
    · subst h; simp
    · simp [h]
  generalize swapAt data a pivot = data1 at hsw0 hb1 ka ⊢
  obtain ⟨r1, r2, r3, r4, r5, r6⟩ := partitionEqual_loop_spec key lt hlt a b hab (b - a) data1
    (a + 1) (b - 1) hb1 (by omega) (le_refl _) (by omega) (by omega)
    (fun k h1 h2 => absurd h2 (by omega)) (fun k h1 h2 => absurd h2 (by omega))
  rw [ka] at r4 r5 r6
  refine ⟨hsw0.trans r1, r2, r3, ?_, r6⟩
  intro k h1 h2
  by_cases hk : k = a
  · subst hk; rw [r4]
  · exact r5 k (by omega) h2

end PartitionEqual

section SmallRoutines

variable {α : Type} (key : α → Int)

theorem reverseRange_loop_spec (a b : Nat) :
    ∀ (n i j : Nat) (data : List α), b ≤ data.length → a ≤ i → j < b →
      Rearranged key data (reverseRange_loop n i j data) a b := by
  intro n
  induction n with
  | zero => intro i j data _ _ _; exact Rearranged.refl key _ _ _
  | succ n ih =>
    intro i j data hb hi hj
    unfold reverseRange_loop
    by_cases hc : i < j
    · rw [if_pos hc]
      have hsw := Rearranged.swap key data a b i j hb ⟨hi, by omega⟩ ⟨by omega, hj⟩
      exact hsw.trans (ih (i + 1) (j - 1) (swapAt data i j) (by rw [length_swapAt]; exact hb)
        (by omega) (by omega))
    · rw [if_neg hc]
      exact Rearranged.refl key _ _ _

theorem reverseRange_func_spec (data : List α) (a b : Nat) (hb : b ≤ data.length) (hab : a < b) :
    Rearranged key data (reverseRange_func data a b) a b := by
  unfold reverseRange_func
  exact reverseRange_loop_spec key a b (b - a) a (b - 1) data hb (le_refl _) (by omega)

theorem bitsLen_aux_bounds :
    ∀ (fuel n : Nat), n ≤ fuel → n ≠ 0 →
      2 ^ bitsLen_aux fuel n ≤ 2 * n ∧ n < 2 ^ bitsLen_aux fuel n := by
  intro fuel
  induction fuel with
  | zero => intro n h h0; omega
  | succ fuel ih =>
    intro n h h0
    unfold bitsLen_aux
    rw [if_neg h0]
    by_cases h2 : n / 2 = 0
    · have hn : n = 1 := by omega
      subst hn
      have : bitsLen_aux fuel (1 / 2) = 0 := by
        cases fuel with
        | zero => rfl
        | succ f => unfold bitsLen_aux; simp
      rw [this]
      constructor <;> norm_num
    · obtain ⟨i1, i2⟩ := ih (n / 2) (by omega) h2
      rw [pow_succ]
      constructor <;> omega

theorem nextPowerOfTwo_bounds (n : Nat) (h : n ≠ 0) :
    nextPowerOfTwo n ≤ 2 * n ∧ n < nextPowerOfTwo n := by
  unfold nextPowerOfTwo bitsLen
  exact bitsLen_aux_bounds n n (le_refl _) h

theorem breakPatterns_loop_spec (rng : Nat → Nat) (a b idx modulus : Nat) (hab : a < b)
    (hidx : a + 1 ≤ idx ∧ idx + 1 < b) (hmod : 0 < modulus ∧ modulus ≤ 2 * (b - a)) :
    ∀ (n i random : Nat) (data : List α), b ≤ data.length → i + n ≤ 3 →
      Rearranged key data (breakPatterns_loop rng a (b - a) idx modulus n i random data) a b := by
  intro n
  induction n with
  | zero => intro i random data _ _; exact Rearranged.refl key _ _ _
  | succ n ih =>
    intro i random data hb hi
    unfold breakPatterns_loop
    simp only
    have hm : rng random % modulus < modulus := Nat.mod_lt _ hmod.1
    have hother : (if rng random % modulus ≥ b - a then rng random % modulus - (b - a)
        else rng random % modulus) < b - a := by
      split <;> omega
    generalize (if rng random % modulus ≥ b - a then rng random % modulus - (b - a)
        else rng random % modulus) = other at hother ⊢
    have hsw := Rearranged.swap key data a b (idx - 1 + i) (a + other) hb
      ⟨by omega, by omega⟩ ⟨by omega, by omega⟩
    exact hsw.trans (ih (i + 1) (rng random) _ (by rw [length_swapAt]; exact hb) (by omega))

theorem breakPatterns_func_spec (rng : Nat → Nat) (data : List α) (a b : Nat)
    (hb : b ≤ data.length) :
    Rearranged key data (breakPatterns_func rng data a b) a b := by
  unfold breakPatterns_func
  simp only
  by_cases hc : b - a ≥ 8
  · rw [if_pos hc]
    obtain ⟨m1, m2⟩ := nextPowerOfTwo_bounds (b - a) (by omega)
    have hq : (b - a) / 4 * 2 ≤ (b - a) / 2 := by omega
    have hq2 : 2 ≤ (b - a) / 4 := by omega
    exact breakPatterns_loop_spec key rng a b (a + (b - a) / 4 * 2 - 1) (nextPowerOfTwo (b - a))
      (by omega) ⟨by omega, by omega⟩ ⟨by omega, m1⟩ 3 0 (b - a) data hb (by omega)
  · rw [if_neg hc]
    exact Rearranged.refl key _ _ _

variable (lt : α → α → Bool)

theorem order2_func_cases (data : List α) (a b swaps : Nat) :
    ((order2_func lt data a b swaps).1 = a ∧ (order2_func lt data a b swaps).2.1 = b)
      ∨ ((order2_func lt data a b swaps).1 = b ∧ (order2_func lt data a b swaps).2.1 = a) := by
  unfold order2_func
  split
  · exact Or.inr ⟨rfl, rfl⟩
  · exact Or.inl ⟨rfl, rfl⟩

theorem median_func_cases (data : List α) (a b c swaps : Nat) :
    (median_func lt data a b c swaps).1 = a ∨ (median_func lt data a b c swaps).1 = b
      ∨ (median_func lt data a b c swaps).1 = c := by
  unfold median_func
  simp only
  rcases order2_func_cases lt data a b swaps with ⟨h1, h2⟩ | ⟨h1, h2⟩ <;>
  rcases order2_func_cases lt data (order2_func lt data a b swaps).2.1 c
      (order2_func lt data a b swaps).2.2 with ⟨h3, h4⟩ | ⟨h3, h4⟩ <;>
  rcases order2_func_cases lt data (order2_func lt data a b swaps).1
      (order2_func lt data (order2_func lt data a b swaps).2.1 c
        (order2_func lt data a b swaps).2.2).1
      (order2_func lt data (order2_func lt data a b swaps).2.1 c
        (order2_func lt data a b swaps).2.2).2.2 with ⟨h5, h6⟩ | ⟨h5, h6⟩ <;>
  rw [h6] <;> first
    | (rw [h1]; exact Or.inl rfl)
    | (rw [h1]; exact Or.inr (Or.inl rfl))
    | (rw [h3, h2]; exact Or.inl rfl)
    | (rw [h3, h2]; exact Or.inr (Or.inl rfl))
    | (rw [h3]; exact Or.inr (Or.inr rfl))

theorem medianAdjacent_func_range (data : List α) (m swaps lo hi : Nat) (h1 : lo + 1 ≤ m)
    (h2 : m + 1 < hi) :
    lo ≤ (medianAdjacent_func lt data m swaps).1 ∧ (medianAdjacent_func lt data m swaps).1 < hi := by
  unfold medianAdjacent_func
  rcases median_func_cases lt data (m - 1) m (m + 1) swaps with h | h | h <;> rw [h] <;> omega

/-- The pivot chosen by `choosePivot_func` lies in the range. -/
theorem choosePivot_func_range (data : List α) (a b : Nat) (hab : a < b) :
    a ≤ (choosePivot_func lt data a b).1 ∧ (choosePivot_func lt data a b).1 < b := by
  have key1 : ∀ (js : Nat × Nat), a ≤ js.1 ∧ js.1 < b →
      a ≤ (if js.2 = 0 then (js.1, sortedHint.increasingHint)
        else if js.2 = 12 then (js.1, sortedHint.decreasingHint)
        else (js.1, sortedHint.unknownHint)).1
      ∧ (if js.2 = 0 then (js.1, sortedHint.increasingHint)
        else if js.2 = 12 then (js.1, sortedHint.decreasingHint)
        else (js.1, sortedHint.unknownHint)).1 < b := by
    intro js hj
    split_ifs <;> exact hj
  unfold choosePivot_func
  simp only
  apply key1
  by_cases h8 : b - a ≥ 8
  · rw [if_pos h8]
    have q1 : (b - a) / 4 * 3 < b - a := by omega
    by_cases h50 : b - a ≥ 50
    · rw [if_pos h50]
      have q2 : (b - a) / 4 * 3 + 1 < b - a := by omega
      have q3 : 1 ≤ (b - a) / 4 := by omega
      have m1 := medianAdjacent_func_range lt data (a + (b - a) / 4 * 1) 0 a b (by omega)
        (by omega)
      have m2 := medianAdjacent_func_range lt data (a + (b - a) / 4 * 2)
        (medianAdjacent_func lt data (a + (b - a) / 4 * 1) 0).2 a b (by omega) (by omega)
      have m3 := medianAdjacent_func_range lt data (a + (b - a) / 4 * 3)
        (medianAdjacent_func lt data (a + (b - a) / 4 * 2)
          (medianAdjacent_func lt data (a + (b - a) / 4 * 1) 0).2).2 a b (by omega) (by omega)
      rcases median_func_cases lt data _ _ _
          (medianAdjacent_func lt data (a + (b - a) / 4 * 3)
            (medianAdjacent_func lt data (a + (b - a) / 4 * 2)
              (medianAdjacent_func lt data (a + (b - a) / 4 * 1) 0).2).2).2 with h | h | h
      · rw [h]; exact m1
      · rw [h]; exact m2
      · rw [h]; exact m3
    · rw [if_neg h50]
      rcases median_func_cases lt data (a + (b - a) / 4 * 1) (a + (b - a) / 4 * 2)
          (a + (b - a) / 4 * 3) 0 with h | h | h <;> rw [h] <;> omega
  · rw [if_neg h8]
    simp only
    omega

end SmallRoutines

section PartialInsertionSort

variable {α : Type} (key : α → Int)

theorem LowerBounded.rearranged {key : α → Int} {d1 d2 : List α} {a b : Nat}
    (h : LowerBounded key d1 a b) (hr : Rearranged key d1 d2 a b) : LowerBounded key d2 a b := by
  intro ha k hk1 hk2
  rw [hr.keyAt_frame (a - 1) (by omega)]
  exact hr.keys (fun x => keyAt key d1 (a - 1) ≤ x) (h ha) k hk1 hk2

theorem SortedOn.extend {key : α → Int} {data : List α} {a i : Nat}
    (hs : SortedOn key data a i) (hai : a + 1 ≤ i) :
    ∀ (n : Nat), (∀ k, i ≤ k → k < i + n → keyAt key data (k - 1) ≤ keyAt key data k) →
      SortedOn key data a (i + n) := by
  intro n
  induction n with
  | zero => intro _; exact hs
  | succ n ih =>
    intro h
    have h1 := ih (fun k hk1 hk2 => h k hk1 (by omega))
    intro p q hp hpq hq
    by_cases hq1 : q < i + n
    · exact h1 p q hp hpq hq1
    · have hq2 : q = i + n := by omega
      subst hq2
      by_cases hpq1 : p = i + n
      · subst hpq1; exact le_refl _
      · have e1 := h1 p (i + n - 1) hp (by omega) (by omega)
        have e2 := h (i + n) (by omega) (by omega)
        omega

variable (lt : α → α → Bool) (hlt : ∀ x y, lt x y = true ↔ key x < key y)
include hlt

theorem sortedRun_spec (data : List α) (b : Nat) (hb : b ≤ data.length) :
    ∀ (n i : Nat), b ≤ n + i → 1 ≤ i →
      i ≤ sortedRun lt data b n i
        ∧ (i ≤ b → sortedRun lt data b n i ≤ b)
        ∧ (∀ k, i ≤ k → k < sortedRun lt data b n i →
            keyAt key data (k - 1) ≤ keyAt key data k)
        ∧ (sortedRun lt data b n i < b →
            keyAt key data (sortedRun lt data b n i)
              < keyAt key data (sortedRun lt data b n i - 1)) := by
  intro n
  induction n with
  | zero =>
    intro i h h1
    unfold sortedRun
    exact ⟨le_refl _, fun h => h, fun k h1 h2 => absurd h2 (by omega), fun h' => absurd h' (by omega)⟩
  | succ n ih =>
    intro i h h1
    unfold sortedRun
    by_cases hc : (decide (i < b) && !lessAt lt data i (i - 1)) = true
    · rw [if_pos hc]
      simp only [Bool.and_eq_true, decide_eq_true_eq, Bool.not_eq_true'] at hc
      obtain ⟨r1, r2, r3, r4⟩ := ih (i + 1) (by omega) (by omega)
      refine ⟨by omega, fun _ => r2 (by omega), ?_, r4⟩
      intro k hk1 hk2
      by_cases hki : k = i
      · subst hki
        exact (lessAt_false_iff key lt hlt data k (k - 1) (by omega) (by omega)).1 hc.2
      · exact r3 k (by omega) hk2
    · rw [if_neg hc]
      simp only [Bool.and_eq_true, decide_eq_true_eq, Bool.not_eq_true', not_and,
        Bool.not_eq_false] at hc
      refine ⟨le_refl _, fun h => h, fun k h1 h2 => absurd h2 (by omega), ?_⟩
      intro hib
      exact (lessAt_iff key lt hlt data i (i - 1) (by omega) (by omega)).1 (hc hib)

theorem shiftLeft_loop_eq (a b : Nat) :
    ∀ (j : Nat) (data : List α), b ≤ data.length → a ≤ j → j < b → LowerBounded key data a b →
      shiftLeft_loop lt j data = insertionSort_inner lt a j data := by
  intro j
  induction j with
  | zero => intro data _ _ _ _; rfl
  | succ j ih =>
    intro data hb haj hjb hlb
    unfold shiftLeft_loop insertionSort_inner
    by_cases hl : lessAt lt data (j + 1) j = true
    · have hkl := (lessAt_iff key lt hlt data (j + 1) j (by omega) (by omega)).1 hl
      have haj' : a ≤ j := by
        by_contra hcon
        have ha : a = j + 1 := by omega
        have := hlb (by omega) (j + 1) (by omega) hjb
        rw [ha] at this
        simp only [Nat.add_sub_cancel] at this
        omega
      have hsw := Rearranged.swap key data a b (j + 1) j hb ⟨by omega, by omega⟩
        ⟨haj', by omega⟩
      have hgt : decide (j + 1 > a) = true := by simp; omega
      simp only [hl, hgt, Bool.not_true, Bool.and_self, if_true, Bool.false_eq_true, if_false]
      exact ih (swapAt data (j + 1) j) (by rw [length_swapAt]; exact hb) haj' (by omega)
        (hlb.rearranged hsw)
    · simp only [Bool.not_eq_true] at hl
      simp [hl]

omit hlt in
theorem shiftRight_loop_spec (i b : Nat) :
    ∀ (n j : Nat) (data : List α), b ≤ data.length → i + 1 ≤ j →
      Rearranged key data (shiftRight_loop lt b n j data) i b := by
  intro n
  induction n with
  | zero => intro j data _ _; exact Rearranged.refl key _ _ _
  | succ n ih =>
    intro j data hb hj
    unfold shiftRight_loop
    by_cases hjb : j < b
    · rw [if_pos hjb]
      by_cases hl : (!lessAt lt data j (j - 1)) = true
      · rw [if_pos hl]; exact Rearranged.refl key _ _ _
      · rw [if_neg hl]
        have hsw := Rearranged.swap key data i b j (j - 1) hb ⟨by omega, hjb⟩
          ⟨by omega, by omega⟩
        exact hsw.trans (ih (j + 1) _ (by rw [length_swapAt]; exact hb) (by omega))
    · rw [if_neg hjb]; exact Rearranged.refl key _ _ _

theorem partialInsertionSort_loop_spec (a b : Nat) :
    ∀ (steps i : Nat) (data : List α), b ≤ data.length → a + 1 ≤ i → i ≤ b →
      LowerBounded key data a b → SortedOn key data a i →
      Rearranged key data (partialInsertionSort_loop lt a b steps i data).1 a b
        ∧ ((partialInsertionSort_loop lt a b steps i data).2 = true →
            SortedOn key (partialInsertionSort_loop lt a b steps i data).1 a b) := by
  intro steps
  induction steps with
  | zero =>
    intro i data _ _ _ _ _
    unfold partialInsertionSort_loop
    exact ⟨Rearranged.refl key _ _ _, fun h => absurd h (by simp)⟩
  | succ steps ih =>
    intro i data hb hai hib hlb hs
    unfold partialInsertionSort_loop
    simp only
    obtain ⟨r1, r2, r3, r4⟩ := sortedRun_spec key lt hlt data b hb (b - i) i (by omega) (by omega)
    have r2' := r2 hib
    have hs' : SortedOn key data a (sortedRun lt data b (b - i) i) := by
      have := hs.extend hai (sortedRun lt data b (b - i) i - i)
        (fun k hk1 hk2 => r3 k hk1 (by omega))
      rwa [Nat.add_sub_cancel' r1] at this
    generalize sortedRun lt data b (b - i) i = i' at r1 r2' r3 r4 hs' ⊢
    by_cases he : i' = b
    · rw [if_pos he]
      subst he
      exact ⟨Rearranged.refl key _ _ _, fun _ => hs'⟩
    · rw [if_neg he]
      by_cases h50 : b - a < 50
      · rw [if_pos h50]
        exact ⟨Rearranged.refl key _ _ _, fun h => absurd h (by simp)⟩
      · rw [if_neg h50]
        have hi'b : i' < b := by omega
        have hsw := Rearranged.swap key data a b i' (i' - 1) hb ⟨by omega, hi'b⟩
          ⟨by omega, by omega⟩
        have hb1 : b ≤ (swapAt data i' (i' - 1)).length := by rw [length_swapAt]; exact hb
        have hlb1 := hlb.rearranged hsw
        -- the slots below `i' - 1` keep their keys
        have hInv : ∀ p q, a ≤ p → p < q → q ≤ i' - 1 → q ≠ i' - 1 →
            keyAt key (swapAt data i' (i' - 1)) p ≤ keyAt key (swapAt data i' (i' - 1)) q := by
          intro p q hp hpq hq hne
          rw [keyAt_swapAt key data i' (i' - 1) p (by omega) (by omega),
            keyAt_swapAt key data i' (i' - 1) q (by omega) (by omega)]
          have c1 : ¬ p = i' - 1 := by omega
          have c2 : ¬ p = i' := by omega
          have c3 : ¬ q = i' - 1 := by omega
          have c4 : ¬ q = i' := by omega
          simp only [c1, c2, c3, c4, if_false]
          exact hs' p q hp (by omega) (by omega)
        generalize swapAt data i' (i' - 1) = data1 at hsw hb1 hlb1 hInv ⊢
        -- shift the smaller one to the left
        have hleft : Rearranged key data1
              (if i' - a ≥ 2 then shiftLeft_loop lt (i' - 1) data1 else data1) a b
            ∧ SortedOn key (if i' - a ≥ 2 then shiftLeft_loop lt (i' - 1) data1 else data1)
                a i' := by
          by_cases h2 : i' - a ≥ 2
          · rw [if_pos h2]
            rw [shiftLeft_loop_eq key lt hlt a b (i' - 1) data1 hb1 (by omega) (by omega) hlb1]
            have := insertionSort_inner_spec key lt hlt a (i' - 1) b (by omega) (i' - 1) data1
              hb1 (by omega) (le_refl _) hInv
            have e : i' - 1 + 1 = i' := by omega
            rw [e] at this
            exact this
          · rw [if_neg h2]
            exact ⟨Rearranged.refl key _ _ _, SortedOn.of_le data1 (by omega)⟩
        obtain ⟨l1, l2⟩ := hleft
        have hb2 : b ≤ (if i' - a ≥ 2 then shiftLeft_loop lt (i' - 1) data1 else data1).length := by
          rw [l1.length_eq]; exact hb1
        have hlb2 := hlb1.rearranged l1
        generalize (if i' - a ≥ 2 then shiftLeft_loop lt (i' - 1) data1 else data1) = data2
          at l1 l2 hb2 hlb2 ⊢
        -- shift the greater one to the right
        have hright : Rearranged key data2
            (if b - i' ≥ 2 then shiftRight_loop lt b (b - (i' + 1)) (i' + 1) data2 else data2)
            i' b := by
          by_cases h2 : b - i' ≥ 2
          · rw [if_pos h2]
            exact shiftRight_loop_spec key lt i' b (b - (i' + 1)) (i' + 1) data2 hb2
              (le_refl _)
          · rw [if_neg h2]
            exact Rearranged.refl key _ _ _
        have hb3 : b ≤ (if b - i' ≥ 2 then shiftRight_loop lt b (b - (i' + 1)) (i' + 1) data2
            else data2).length := by
          rw [hright.length_eq]; exact hb2
        have hright' := hright.widen (show a ≤ i' by omega) (le_refl b)
        have hlb3 := hlb2.rearranged hright'
        have hs3 : SortedOn key (if b - i' ≥ 2 then shiftRight_loop lt b (b - (i' + 1)) (i' + 1)
            data2 else data2) a i' := by
          intro p q hp hpq hq
          rw [hright.keyAt_frame p (by omega), hright.keyAt_frame q (by omega)]
          exact l2 p q hp hpq hq
        generalize (if b - i' ≥ 2 then shiftRight_loop lt b (b - (i' + 1)) (i' + 1) data2
            else data2) = data3 at hright hright' hb3 hlb3 hs3 ⊢
        obtain ⟨f1, f2⟩ := ih i' data3 hb3 (by omega) (by omega) hlb3 hs3
        exact ⟨((hsw.trans l1).trans hright').trans f1, f2⟩

/-- The routine `partialInsertionSort_func` rearranges the range and reports
`true` only when it has left the range sorted. -/
theorem partialInsertionSort_func_spec (data : List α) (a b : Nat) (hb : b ≤ data.length)
    (hab : a < b) (hlb : LowerBounded key data a b) :
    Rearranged key data (partialInsertionSort_func lt data a b).1 a b
      ∧ ((partialInsertionSort_func lt data a b).2 = true →
          SortedOn key (partialInsertionSort_func lt data a b).1 a b) := by
  unfold partialInsertionSort_func
  exact partialInsertionSort_loop_spec key lt hlt a b 5 (a + 1) data hb (le_refl _) (by omega)
    hlb (SortedOn.of_le data (le_refl _))

end PartialInsertionSort

section SiftDown

variable {α : Type} (key : α → Int)

variable (lt : α → α → Bool) (hlt : ∀ x y, lt x y = true ↔ key x < key y)
include hlt

theorem siftDown_func_spec (first hi lo : Nat) :
    ∀ (fuel root : Nat) (data : List α), first + hi ≤ data.length → hi ≤ fuel + root →
      lo ≤ root →
      (∀ p, lo ≤ p → p ≠ root → HeapAt key data first hi p) →
      (∀ p, lo ≤ p → (root = 2 * p + 1 ∨ root = 2 * p + 2) →
        (2 * root + 1 < hi →
            keyAt key data (first + (2 * root + 1)) ≤ keyAt key data (first + p))
          ∧ (2 * root + 2 < hi →
            keyAt key data (first + (2 * root + 2)) ≤ keyAt key data (first + p))) →
      Rearranged key data (siftDown_func lt hi first fuel root data) first (first + hi)
        ∧ ∀ p, lo ≤ p → HeapAt key (siftDown_func lt hi first fuel root data) first hi p := by
  intro fuel
  induction fuel with
  | zero =>
    intro root data _ hf _ h1 _
    unfold siftDown_func
    refine ⟨Rearranged.refl key _ _ _, fun p hp => ?_⟩
    by_cases hpr : p = root
    · subst hpr
      exact ⟨fun h => absurd h (by omega), fun h => absurd h (by omega)⟩
    · exact h1 p hp hpr
  | succ fuel ih =>
    intro root data hb hf hlo h1 h2
    unfold siftDown_func
    simp only
    by_cases hc1 : 2 * root + 1 ≥ hi
    · rw [if_pos hc1]
      refine ⟨Rearranged.refl key _ _ _, fun p hp => ?_⟩
      by_cases hpr : p = root
      · subst hpr
        exact ⟨fun h => absurd h (by omega), fun h => absurd h (by omega)⟩
      · exact h1 p hp hpr
    · rw [if_neg hc1]
      have e12 : first + (2 * root + 1) + 1 = first + (2 * root + 2) := by omega
      -- the larger child
      have hchild : ∃ c, (if (decide (2 * root + 1 + 1 < hi)
              && lessAt lt data (first + (2 * root + 1)) (first + (2 * root + 1) + 1)) = true
            then 2 * root + 1 + 1 else 2 * root + 1) = c
          ∧ (c = 2 * root + 1 ∨ c = 2 * root + 2) ∧ c < hi
          ∧ keyAt key data (first + (2 * root + 1)) ≤ keyAt key data (first + c)
          ∧ (2 * root + 2 < hi →
              keyAt key data (first + (2 * root + 2)) ≤ keyAt key data (first + c)) := by
        by_cases hcc : (decide (2 * root + 1 + 1 < hi)
            && lessAt lt data (first + (2 * root + 1)) (first + (2 * root + 1) + 1)) = true
        · rw [if_pos hcc]
          simp only [Bool.and_eq_true, decide_eq_true_eq] at hcc
          have := (lessAt_iff key lt hlt data _ _ (by omega) (by omega)).1 hcc.2
          rw [e12] at this
          exact ⟨_, rfl, Or.inr rfl, by omega, by
            rw [show first + (2 * root + 1 + 1) = first + (2 * root + 2) from by omega]
            omega, fun _ => by
            rw [show first + (2 * root + 1 + 1) = first + (2 * root + 2) from by omega]⟩
        · rw [if_neg hcc]
          simp only [Bool.and_eq_true, decide_eq_true_eq, not_and, Bool.not_eq_true] at hcc
          refine ⟨_, rfl, Or.inl rfl, by omega, le_refl _, fun h => ?_⟩
          have := (lessAt_false_iff key lt hlt data _ _ (by omega) (by omega)).1
            (hcc (by omega))
          rw [e12] at this
          exact this
      obtain ⟨c, hce, hc, hchi, hk1, hk2⟩ := hchild
      rw [hce]
      by_cases hc2 : (!lessAt lt data (first + root) (first + c)) = true
      · rw [if_pos hc2]
        simp only [Bool.not_eq_true'] at hc2
        have hrc := (lessAt_false_iff key lt hlt data _ _ (by omega) (by omega)).1 hc2
        refine ⟨Rearranged.refl key _ _ _, fun p hp => ?_⟩
        by_cases hpr : p = root
        · subst hpr
          exact ⟨fun _ => by omega, fun h => by have := hk2 h; omega⟩
        · exact h1 p hp hpr
      · rw [if_neg hc2]
        simp only [Bool.not_eq_true', Bool.not_eq_false] at hc2
        have hrc := (lessAt_iff key lt hlt data _ _ (by omega) (by omega)).1 hc2
        have hsw := Rearranged.swap key data first (first + hi) (first + root) (first + c) hb
          ⟨by omega, by omega⟩ ⟨by omega, by omega⟩
        have hks : ∀ k, keyAt key (swapAt data (first + root) (first + c)) (first + k)
            = if k = c then keyAt key data (first + root)
              else if k = root then keyAt key data (first + c)
              else keyAt key data (first + k) := by
          intro k
          rw [keyAt_swapAt key data (first + root) (first + c) (first + k) (by omega) (by omega)]
          by_cases e1 : k = c
          · subst e1; simp
          · have : ¬ first + k = first + c := by omega
            simp only [e1, this, if_false]
            by_cases e2 : k = root
            · subst e2; simp
            · have : ¬ first + k = first + root := by omega
              simp only [e2, this, if_false]
        have hcheap := h1 c (by omega) (by omega)
        obtain ⟨r1, r2⟩ := ih c (swapAt data (first + root) (first + c))
          (by rw [length_swapAt]; exact hb) (by omega) (by omega)
          (by
            intro p hp hpc
            by_cases hpr : p = root
            · subst hpr
              unfold HeapAt
              rw [hks (2 * p + 1), hks (2 * p + 2), hks p]
              have n1 : ¬ p = c := by omega
              have n2 : ¬ 2 * p + 1 = p := by omega
              have n3 : ¬ 2 * p + 2 = p := by omega
              simp only [n1, n2, n3, if_false, if_true]
              constructor
              · intro _
                split_ifs
                · omega
                · exact hk1
              · intro h
                split_ifs
                · omega
                · exact hk2 h
            · have hp1 := h1 p hp hpr
              have hp2 := h2 p hp
              unfold HeapAt at hp1 ⊢
              rw [hks (2 * p + 1), hks (2 * p + 2), hks p]
              have n1 : ¬ 2 * p + 1 = c := by omega
              have n2 : ¬ 2 * p + 2 = c := by omega
              simp only [hpc, hpr, n1, n2, if_false]
              constructor
              · intro h
                split_ifs with e
                · have := (hp2 (Or.inl e.symm))
                  rcases hc with rfl | rfl
                  · exact this.1 (by omega)
                  · exact this.2 (by omega)
                · exact hp1.1 h
              · intro h
                split_ifs with e
                · have := (hp2 (Or.inr e.symm))
                  rcases hc with rfl | rfl
                  · exact this.1 (by omega)
                  · exact this.2 (by omega)
                · exact hp1.2 h)
          (by
            intro p hp hpc
            have hpr : p = root := by omega
            subst hpr
            rw [hks (2 * c + 1), hks (2 * c + 2), hks p]
            have n1 : ¬ p = c := by omega
            have n2 : ¬ 2 * c + 1 = c := by omega
            have n3 : ¬ 2 * c + 2 = c := by omega
            have n4 : ¬ 2 * c + 1 = p := by omega
            have n5 : ¬ 2 * c + 2 = p := by omega
            simp only [n1, n2, n3, n4, n5, if_false, if_true]
            exact hcheap)
        exact ⟨hsw.trans r1, r2⟩

end SiftDown

section HeapSort

variable {α : Type} (key : α → Int)

theorem heap_root_max (data : List α) (first n : Nat)
    (h : ∀ p, HeapAt key data first n p) :
    ∀ r, r < n → keyAt key data (first + r) ≤ keyAt key data (first + 0) := by
  intro r
  induction r using Nat.strong_induction_on with
  | _ r ih =>
    intro hr
    by_cases h0 : r = 0
    · subst h0; exact le_refl _
    · have hp : r = 2 * ((r - 1) / 2) + 1 ∨ r = 2 * ((r - 1) / 2) + 2 := by omega
      have ihp := ih ((r - 1) / 2) (by omega) (by omega)
      have hh := h ((r - 1) / 2)
      unfold HeapAt at hh
      generalize (r - 1) / 2 = p at hp ihp hh
      rcases hp with rfl | rfl
      · have := hh.1 hr; omega
      · have := hh.2 hr; omega

variable (lt : α → α → Bool) (hlt : ∀ x y, lt x y = true ↔ key x < key y)
include hlt

theorem heapSort_build_spec (first hi : Nat) :
    ∀ (i : Nat) (data : List α), first + hi ≤ data.length →
      (∀ p, i + 1 ≤ p → HeapAt key data first hi p) →
      Rearranged key data (heapSort_build lt hi first i data) first (first + hi)
        ∧ ∀ p, HeapAt key (heapSort_build lt hi first i data) first hi p := by
  intro i
  induction i with
  | zero =>
    intro data hb h
    unfold heapSort_build
    obtain ⟨r1, r2⟩ := siftDown_func_spec key lt hlt first hi 0 hi 0 data hb (by omega)
      (le_refl _) (fun p _ hp => h p (by omega)) (fun p _ hp => absurd hp (by omega))
    exact ⟨r1, fun p => r2 p (Nat.zero_le _)⟩
  | succ i ih =>
    intro data hb h
    unfold heapSort_build
    obtain ⟨r1, r2⟩ := siftDown_func_spec key lt hlt first hi (i + 1) hi (i + 1) data hb
      (by omega) (le_refl _) (fun p hp1 hp2 => h p (by omega))
      (fun p hp1 hp2 => absurd hp2 (by omega))
    obtain ⟨r3, r4⟩ := ih (siftDown_func lt hi first hi (i + 1) data)
      (by rw [r1.length_eq]; exact hb) r2
    exact ⟨r1.trans r3, r4⟩

theorem heapSort_pop_spec (first hi : Nat) :
    ∀ (n : Nat) (data : List α), first + hi ≤ data.length → n ≤ hi →
      (∀ p, HeapAt key data first n p) →
      SortedOn key data (first + n) (first + hi) →
      (∀ r s, r < n → n ≤ s → s < hi →
        keyAt key data (first + r) ≤ keyAt key data (first + s)) →
      Rearranged key data (heapSort_pop lt first n data) first (first + hi)
        ∧ SortedOn key (heapSort_pop lt first n data) first (first + hi) := by
  intro n
  induction n with
  | zero =>
    intro data _ _ _ hs _
    unfold heapSort_pop
    exact ⟨Rearranged.refl key _ _ _, hs⟩
  | succ i ih =>
    intro data hb hn hheap hs hsep
    unfold heapSort_pop
    have hmax := heap_root_max key data first (i + 1) hheap
    have hsw := Rearranged.swap key data first (first + hi) first (first + i) hb
      ⟨le_refl _, by omega⟩ ⟨by omega, by omega⟩
    have hks : ∀ k, keyAt key (swapAt data first (first + i)) (first + k)
        = if k = i then keyAt key data (first + 0)
          else if k = 0 then keyAt key data (first + i)
          else keyAt key data (first + k) := by
      intro k
      rw [keyAt_swapAt key data first (first + i) (first + k) (by omega) (by omega)]
      by_cases e1 : k = i
      · subst e1; simp
      · have : ¬ first + k = first + i := by omega
        simp only [e1, this, if_false]
        by_cases e2 : k = 0
        · subst e2; simp
        · have : ¬ first + k = first := by omega
          simp only [e2, this, if_false]
    have hb1 : first + hi ≤ (swapAt data first (first + i)).length := by
      rw [length_swapAt]; exact hb
    generalize swapAt data first (first + i) = data1 at hsw hks hb1 ⊢
    obtain ⟨r1, r2⟩ := siftDown_func_spec key lt hlt first i 0 i 0 data1 (by omega) (by omega)
      (le_refl _)
      (by
        intro p _ hp0
        have hh := hheap p
        unfold HeapAt at hh ⊢
        rw [hks (2 * p + 1), hks (2 * p + 2), hks p]
        constructor
        · intro h
          have n1 : ¬ 2 * p + 1 = i := by omega
          have n2 : ¬ 2 * p + 1 = 0 := by omega
          have n3 : ¬ p = i := by omega
          simp only [n1, n2, n3, hp0, if_false]
          exact hh.1 (by omega)
        · intro h
          have n1 : ¬ 2 * p + 2 = i := by omega
          have n2 : ¬ 2 * p + 2 = 0 := by omega
          have n3 : ¬ p = i := by omega
          simp only [n1, n2, n3, hp0, if_false]
          exact hh.2 (by omega))
      (fun p _ hp => absurd hp (by omega))
    have hfr : ∀ s, i ≤ s → keyAt key (siftDown_func lt i first i 0 data1) (first + s)
        = keyAt key data1 (first + s) := fun s hs' => r1.keyAt_frame (first + s) (by omega)
    have hb2 : first + hi ≤ (siftDown_func lt i first i 0 data1).length := by
      rw [r1.length_eq]; exact hb1
    have hkeys := r1.keys
    generalize siftDown_func lt i first i 0 data1 = data2 at r1 r2 hfr hb2 hkeys ⊢
    have key1 : ∀ s, i ≤ s → s < hi → keyAt key data2 (first + s)
        = if s = i then keyAt key data (first + 0) else keyAt key data (first + s) := by
      intro s hs1 hs2
      rw [hfr s hs1, hks s]
      by_cases e : s = i
      · simp [e]
      · have : ¬ s = 0 := by omega
        simp [e, this]
    obtain ⟨r3, r4⟩ := ih data2 hb2 (by omega) (fun p => r2 p (Nat.zero_le _))
      (by
        intro p q hp hpq hq
        have e1 : p = first + (p - first) := by omega
        have e2 : q = first + (q - first) := by omega
        rw [e1, e2, key1 (p - first) (by omega) (by omega),
          key1 (q - first) (by omega) (by omega)]
        by_cases c1 : p - first = i
        · rw [if_pos c1]
          by_cases c2 : q - first = i
          · rw [if_pos c2]
          · rw [if_neg c2]
            exact hsep 0 (q - first) (by omega) (by omega) (by omega)
        · rw [if_neg c1]
          have c2 : ¬ q - first = i := by omega
          rw [if_neg c2]
          have := hs (first + (p - first)) (first + (q - first)) (by omega) (by omega)
            (by omega)
          exact this)
      (by
        intro r s hr hs1 hs2
        have hP := hkeys (fun x => x ≤ keyAt key data2 (first + s))
          (by
            intro k hk1 hk2
            have e1 : k = first + (k - first) := by omega
            rw [e1, hks (k - first), key1 s hs1 hs2]
            have n1 : ¬ k - first = i := by omega
            simp only [n1, if_false]
            by_cases c0 : k - first = 0
            · rw [if_pos c0]
              by_cases cs : s = i
              · rw [if_pos cs]
                exact hmax i (by omega)
              · rw [if_neg cs]
                exact hsep i s (by omega) (by omega) hs2
            · rw [if_neg c0]
              by_cases cs : s = i
              · rw [if_pos cs]
                exact hmax (k - first) (by omega)
              · rw [if_neg cs]
                exact hsep (k - first) s (by omega) (by omega) hs2)
          (first + r) (by omega) (by omega)
        exact hP)
    exact ⟨(hsw.trans (r1.widen (le_refl _) (by omega))).trans r3, r4⟩

/-- The routine `heapSort_func` sorts the range and touches nothing else. -/
theorem heapSort_func_spec (data : List α) (a b : Nat) (hb : b ≤ data.length) (hab : a ≤ b) :
    Rearranged key data (heapSort_func lt data a b) a b
      ∧ SortedOn key (heapSort_func lt data a b) a b := by
  unfold heapSort_func
  simp only
  have e : a + (b - a) = b := by omega
  obtain ⟨r1, r2⟩ := heapSort_build_spec key lt hlt a (b - a) ((b - a - 1) / 2) data
    (by omega)
    (fun p hp => ⟨fun h => absurd h (by omega), fun h => absurd h (by omega)⟩)
  obtain ⟨r3, r4⟩ := heapSort_pop_spec key lt hlt a (b - a) (b - a)
    (heapSort_build lt (b - a) a ((b - a - 1) / 2) data)
    (by rw [r1.length_eq]; omega) (le_refl _) r2
    (fun p q hp hpq hq => by
      have : p = q := by omega
      subst this
      exact le_refl _)
    (fun r s hr hs1 hs2 => absurd hs2 (by omega))
  rw [e] at r1 r3 r4
  exact ⟨r1.trans r3, r4⟩

end HeapSort

section Pdqsort

variable {α : Type} (key : α → Int)

theorem SortedOn.combine {key : α → Int} {data : List α} {a b : Nat} (mid : Nat)
    (h1 : SortedOn key data a mid) (h2 : SortedOn key data (mid + 1) b)
    (hlo : ∀ k, a ≤ k → k < mid → keyAt key data k ≤ keyAt key data mid)
    (hhi : ∀ k, mid < k → k < b → keyAt key data mid ≤ keyAt key data k) :
    SortedOn key data a b := by
  intro p q hp hpq hq
  by_cases c1 : q < mid
  · exact h1 p q hp hpq c1
  · by_cases c2 : mid < p
    · exact h2 p q (by omega) hpq hq
    · by_cases c3 : p = mid
      · subst c3
        by_cases c4 : q = p
        · subst c4; exact le_refl _
        · exact hhi q (by omega) hq
      · have e1 := hlo p hp (by omega)
        by_cases c4 : q = mid
        · subst c4; exact e1
        · have e2 := hhi q (by omega) hq
          omega

theorem LowerBounded.shorten {key : α → Int} {data : List α} {a b b' : Nat}
    (h : LowerBounded key data a b) (hb : b' ≤ b) : LowerBounded key data a b' :=
  fun ha k hk1 hk2 => h ha k hk1 (by omega)

variable (lt : α → α → Bool) (hlt : ∀ x y, lt x y = true ↔ key x < key y)
include hlt

/-- The routine `pdqsort_func` sorts the range and touches nothing else, given
fuel above the length of the range. -/
theorem pdqsort_func_spec (rng : Nat → Nat) :
    ∀ (fuel : Nat) (data : List α) (a b limit : Nat) (wasBalanced wasPartitioned : Bool),
      b ≤ data.length → a ≤ b → b - a < fuel → LowerBounded key data a b →
      Rearranged key data
          (pdqsort_func lt rng fuel data a b limit wasBalanced wasPartitioned) a b
        ∧ SortedOn key
          (pdqsort_func lt rng fuel data a b limit wasBalanced wasPartitioned) a b := by
  intro fuel
  induction fuel with
  | zero => intro data a b limit wb wp _ _ hf _; omega
  | succ fuel ih =>
    intro data a b limit wb wp hb hab hf hlb
    unfold pdqsort_func
    simp only
    by_cases h12 : b - a ≤ 12
    · rw [if_pos h12]
      exact insertionSort_func_spec key lt hlt data a b hb
    rw [if_neg h12]
    by_cases hl0 : limit = 0
    · rw [if_pos hl0]
      exact heapSort_func_spec key lt hlt data a b hb hab
    rw [if_neg hl0]
    have hab' : a < b := by omega
    -- breakPatterns
    have hd1 : Rearranged key data
        (if (!wb) = true then breakPatterns_func rng data a b else data) a b := by
      split
      · exact breakPatterns_func_spec key rng data a b hb
      · exact Rearranged.refl key _ _ _
    generalize (if (!wb) = true then breakPatterns_func rng data a b else data) = data1
      at hd1 ⊢
    generalize (if (!wb) = true then limit - 1 else limit) = limit1
    have hb1 : b ≤ data1.length := by rw [hd1.length_eq]; exact hb
    -- choosePivot
    have hph := choosePivot_func_range lt data1 a b hab'
    generalize choosePivot_func lt data1 a b = ph at hph ⊢
    have hd2 : Rearranged key data1
        (if ph.2 = sortedHint.decreasingHint then reverseRange_func data1 a b else data1) a b := by
      split
      · exact reverseRange_func_spec key data1 a b hb1 hab'
      · exact Rearranged.refl key _ _ _
    generalize (if ph.2 = sortedHint.decreasingHint then reverseRange_func data1 a b
      else data1) = data2 at hd2 ⊢
    have hpv : a ≤ (if ph.2 = sortedHint.decreasingHint then b - 1 - (ph.1 - a) else ph.1)
        ∧ (if ph.2 = sortedHint.decreasingHint then b - 1 - (ph.1 - a) else ph.1) < b := by
      split <;> omega
    generalize (if ph.2 = sortedHint.decreasingHint then b - 1 - (ph.1 - a) else ph.1) = pivot
      at hpv ⊢
    generalize (if ph.2 = sortedHint.decreasingHint then sortedHint.increasingHint
      else ph.2) = hint
    have hb2 : b ≤ data2.length := by rw [hd2.length_eq]; exact hb1
    have hlb2 : LowerBounded key data2 a b := (hlb.rearranged hd1).rearranged hd2
    -- partialInsertionSort
    have hd3 : Rearranged key data2
          (if (wb && wp && decide (hint = sortedHint.increasingHint)) = true then
            partialInsertionSort_func lt data2 a b else (data2, false)).1 a b
        ∧ ((if (wb && wp && decide (hint = sortedHint.increasingHint)) = true then
            partialInsertionSort_func lt data2 a b else (data2, false)).2 = true →
          SortedOn key (if (wb && wp && decide (hint = sortedHint.increasingHint)) = true then
            partialInsertionSort_func lt data2 a b else (data2, false)).1 a b) := by
      split
      · exact partialInsertionSort_func_spec key lt hlt data2 a b hb2 hab' hlb2
      · exact ⟨Rearranged.refl key _ _ _, fun h => absurd h (by simp)⟩
    generalize (if (wb && wp && decide (hint = sortedHint.increasingHint)) = true then
      partialInsertionSort_func lt data2 a b else (data2, false)) = pis at hd3 ⊢
    obtain ⟨hd3, hs3⟩ := hd3
    have h03 : Rearranged key data pis.1 a b := (hd1.trans hd2).trans hd3
    by_cases hdone : pis.2 = true
    · rw [if_pos hdone]
      exact ⟨h03, hs3 hdone⟩
    rw [if_neg hdone]
    have hb3 : b ≤ pis.1.length := by rw [hd3.length_eq]; exact hb2
    have hlb3 : LowerBounded key pis.1 a b := hlb2.rearranged hd3
    generalize pis.1 = data3 at h03 hb3 hlb3 ⊢
    by_cases heq : (decide (a > 0) && !lessAt lt data3 (a - 1) pivot) = true
    · -- many equal elements: partitionEqual
      rw [if_pos heq]
      simp only [Bool.and_eq_true, decide_eq_true_eq, Bool.not_eq_true'] at heq
      obtain ⟨ha0, hnl⟩ := heq
      have hpk := (lessAt_false_iff key lt hlt data3 (a - 1) pivot (by omega) (by omega)).1 hnl
      obtain ⟨e1, e2, e3, e4, e5⟩ := partitionEqual_func_spec key lt hlt data3 a b pivot hb3
        hab' hpv
      have hlb4 := hlb3.rearranged e1
      have hfa : keyAt key (partitionEqual_func lt data3 a b pivot).1 (a - 1)
          = keyAt key data3 (a - 1) := e1.keyAt_frame (a - 1) (by omega)
      have hb4 : b ≤ (partitionEqual_func lt data3 a b pivot).1.length := by
        rw [e1.length_eq]; exact hb3
      generalize partitionEqual_func lt data3 a b pivot = r at e1 e2 e3 e4 e5 hlb4 hfa hb4 ⊢
      have hall : ∀ k, a ≤ k → k < r.2 → keyAt key r.1 k = keyAt key data3 pivot := by
        intro k hk1 hk2
        have u1 := e4 k hk1 hk2
        have u2 := hlb4 ha0 k hk1 (by omega)
        omega
      obtain ⟨f1, f2⟩ := ih r.1 r.2 b limit1 wb wp hb4 e3 (by omega)
        (by
          intro _ k hk1 hk2
          have u1 := hall (r.2 - 1) (by omega) (by omega)
          have u2 := e5 k hk1 hk2
          omega)
      refine ⟨(h03.trans e1).trans (f1.widen (by omega) (le_refl _)), ?_⟩
      have hgt := f1.keys (fun x => keyAt key data3 pivot < x) e5
      intro p q hp hpq hq
      by_cases c1 : r.2 ≤ p
      · exact f2 p q c1 hpq hq
      · have kp : keyAt key (pdqsort_func lt rng fuel r.1 r.2 b limit1 wb wp) p
            = keyAt key data3 pivot := by
          rw [f1.keyAt_frame p (by omega)]
          exact hall p hp (by omega)
        by_cases c2 : r.2 ≤ q
        · have := hgt q c2 hq
          omega
        · have kq : keyAt key (pdqsort_func lt rng fuel r.1 r.2 b limit1 wb wp) q
              = keyAt key data3 pivot := by
            rw [f1.keyAt_frame q (by omega)]
            exact hall q (by omega) (by omega)
          omega
    · -- the ordinary partition
      rw [if_neg heq]
      obtain ⟨e1, e2, e3, e4, e5⟩ := partition_func_spec key lt hlt data3 a b pivot hb3 hab' hpv
      have hlb4 := hlb3.rearranged e1
      have hb4 : b ≤ (partition_func lt data3 a b pivot).1.length := by
        rw [e1.length_eq]; exact hb3
      generalize partition_func lt data3 a b pivot = r at e1 e2 e3 e4 e5 hlb4 hb4 ⊢
      obtain ⟨data4, mid, ap⟩ := r
      simp only at e1 e2 e3 e4 e5 hlb4 hb4 ⊢
      have h04 := h03.trans e1
      by_cases hside : mid - a < b - mid
      · rw [if_pos hside]
        -- left part first, then the right part
        obtain ⟨l1, l2⟩ := ih data4 a mid limit1 true true (by omega) e2 (by omega)
          (hlb4.shorten (by omega))
        have klmid : ∀ k, mid ≤ k → keyAt key (pdqsort_func lt rng fuel data4 a mid limit1
            true true) k = keyAt key data4 k := fun k hk => l1.keyAt_frame k (by omega)
        have hlt4 := l1.keys (fun x => x < keyAt key data4 mid) e4
        have hbl : b ≤ (pdqsort_func lt rng fuel data4 a mid limit1 true true).length := by
          rw [l1.length_eq]; exact hb4
        generalize pdqsort_func lt rng fuel data4 a mid limit1 true true = dataL
          at l1 l2 klmid hlt4 hbl ⊢
        obtain ⟨r1, r2⟩ := ih dataL (mid + 1) b limit1 (decide (mid - a ≥ (b - a) / 8)) ap hbl
          (by omega) (by omega)
          (by
            intro _ k hk1 hk2
            rw [Nat.add_sub_cancel, klmid mid (le_refl _), klmid k (by omega)]
            exact e5 k (by omega) hk2)
        have hge := r1.keys (fun x => keyAt key data4 mid ≤ x)
          (fun k hk1 hk2 => by rw [klmid k (by omega)]; exact e5 k (by omega) hk2)
        have krlow : ∀ k, k ≤ mid → keyAt key (pdqsort_func lt rng fuel dataL (mid + 1) b
            limit1 (decide (mid - a ≥ (b - a) / 8)) ap) k = keyAt key dataL k :=
          fun k hk => r1.keyAt_frame k (by omega)
        generalize pdqsort_func lt rng fuel dataL (mid + 1) b limit1
          (decide (mid - a ≥ (b - a) / 8)) ap = dataR at r1 r2 hge krlow ⊢
        refine ⟨(h04.trans (l1.widen (le_refl _) (by omega))).trans
          (r1.widen (by omega) (le_refl _)), ?_⟩
        have kmid : keyAt key dataR mid = keyAt key data4 mid := by
          rw [krlow mid (le_refl _), klmid mid (le_refl _)]
        apply SortedOn.combine mid
        · intro p q hp hpq hq
          rw [krlow p (by omega), krlow q (by omega)]
          exact l2 p q hp hpq hq
        · exact r2
        · intro k hk1 hk2
          rw [kmid, krlow k (by omega)]
          exact le_of_lt (hlt4 k hk1 hk2)
        · intro k hk1 hk2
          rw [kmid]
          exact hge k (by omega) hk2
      · rw [if_neg hside]
        -- right part first, then the left part
        obtain ⟨r1, r2⟩ := ih data4 (mid + 1) b limit1 true true hb4 (by omega) (by omega)
          (by
            intro _ k hk1 hk2
            rw [Nat.add_sub_cancel]
            exact e5 k (by omega) hk2)
        have krlow : ∀ k, k ≤ mid → keyAt key (pdqsort_func lt rng fuel data4 (mid + 1) b
            limit1 true true) k = keyAt key data4 k := fun k hk => r1.keyAt_frame k (by omega)
        have hge := r1.keys (fun x => keyAt key data4 mid ≤ x)
          (fun k hk1 hk2 => e5 k (by omega) hk2)
        have hbr : b ≤ (pdqsort_func lt rng fuel data4 (mid + 1) b limit1 true true).length := by
          rw [r1.length_eq]; exact hb4
        have hlbr : LowerBounded key (pdqsort_func lt rng fuel data4 (mid + 1) b limit1
            true true) a mid := by
          intro ha k hk1 hk2
          rw [krlow (a - 1) (by omega), krlow k (by omega)]
          exact hlb4 ha k hk1 (by omega)
        generalize pdqsort_func lt rng fuel data4 (mid + 1) b limit1 true true = dataR
          at r1 r2 krlow hge hbr hlbr ⊢
        obtain ⟨l1, l2⟩ := ih dataR a mid limit1 (decide (b - mid ≥ (b - a) / 8)) ap
          (by omega) e2 (by omega) hlbr
        have hlt4 := l1.keys (fun x => x < keyAt key data4 mid)
          (fun k hk1 hk2 => by rw [krlow k (by omega)]; exact e4 k hk1 hk2)
        have klmid : ∀ k, mid ≤ k → keyAt key (pdqsort_func lt rng fuel dataR a mid limit1
            (decide (b - mid ≥ (b - a) / 8)) ap) k = keyAt key dataR k :=
          fun k hk => l1.keyAt_frame k (by omega)
        generalize pdqsort_func lt rng fuel dataR a mid limit1
          (decide (b - mid ≥ (b - a) / 8)) ap = dataL at l1 l2 hlt4 klmid ⊢
        refine ⟨(h04.trans (r1.widen (by omega) (le_refl _))).trans
          (l1.widen (le_refl _) (by omega)), ?_⟩
        have kmid : keyAt key dataL mid = keyAt key data4 mid := by
          rw [klmid mid (le_refl _), krlow mid (le_refl _)]
        apply SortedOn.combine mid
        · exact l2
        · intro p q hp hpq hq
          rw [klmid p (by omega), klmid q (by omega)]
          exact r2 p q hp hpq hq
        · intro k hk1 hk2
          rw [kmid]
          exact le_of_lt (hlt4 k hk1 hk2)
        · intro k hk1 hk2
          rw [kmid, klmid k (by omega)]
          exact hge k (by omega) hk2

end Pdqsort

section SliceTheorems

variable {α : Type} (key : α → Int)

theorem keyAt_eq_getElem (data : List α) (i : Nat) (h : i < data.length) :
    keyAt key data i = key data[i] := by
  unfold keyAt
  rw [List.getElem?_eq_getElem h]

theorem SortedOn.pairwise {key : α → Int} {data : List α}
    (h : SortedOn key data 0 data.length) : data.Pairwise (fun x y => key x ≤ key y) := by
  rw [List.pairwise_iff_getElem]
  intro i j hi hj hij
  have := h i j (Nat.zero_le _) (by omega) hj
  rwa [keyAt_eq_getElem key data i hi, keyAt_eq_getElem key data j hj] at this

theorem swapAt_cons_succ (h : α) (t : List α) (i j : Nat) :
    swapAt (h :: t) (i + 1) (j + 1) = h :: swapAt t i j := by
  unfold swapAt
  simp only [List.getElem?_cons_succ]
  split <;> simp_all

theorem swapAt_one_zero (x y : α) (l : List α) : swapAt (x :: y :: l) 1 0 = y :: x :: l := by
  simp [swapAt]

/-- Exchanging two neighbours with different keys leaves, for every key, the
sequence of elements with that key as it was. -/
theorem filter_swapAt_adjacent (k : Int) :
    ∀ (j : Nat) (data : List α), j + 1 < data.length →
      keyAt key data (j + 1) ≠ keyAt key data j →
      (swapAt data (j + 1) j).filter (fun x => decide (key x = k))
        = data.filter (fun x => decide (key x = k)) := by
  intro j
  induction j with
  | zero =>
    intro data hl hne
    match data, hl with
    | x :: y :: l, _ =>
      rw [swapAt_one_zero]
      simp only [keyAt, List.getElem?_cons_succ, List.getElem?_cons_zero] at hne
      simp only [List.filter_cons]
      by_cases hx : key x = k <;> by_cases hy : key y = k <;> simp [hx, hy]
      omega
  | succ j ih =>
    intro data hl hne
    match data, hl with
    | h :: t, hl =>
      rw [swapAt_cons_succ]
      simp only [List.filter_cons]
      have hne' : keyAt key t (j + 1) ≠ keyAt key t j := by
        simpa [keyAt, List.getElem?_cons_succ] using hne
      rw [ih t (by simpa using hl) hne']

variable (lt : α → α → Bool) (hlt : ∀ x y, lt x y = true ↔ key x < key y)
include hlt

theorem insertionSort_inner_filter (a : Nat) (k : Int) :
    ∀ (j : Nat) (data : List α), j < data.length →
      (insertionSort_inner lt a j data).filter (fun x => decide (key x = k))
        = data.filter (fun x => decide (key x = k)) := by
  intro j
  induction j with
  | zero => intro data _; rfl
  | succ j ih =>
    intro data hj
    unfold insertionSort_inner
    by_cases hc : (decide (j + 1 > a) && lessAt lt data (j + 1) j) = true
    · rw [if_pos hc]
      simp only [Bool.and_eq_true, decide_eq_true_eq] at hc
      have hkl := (lessAt_iff key lt hlt data (j + 1) j hj (by omega)).1 hc.2
      rw [ih (swapAt data (j + 1) j) (by rw [length_swapAt]; omega)]
      exact filter_swapAt_adjacent key k j data hj (by omega)
    · rw [if_neg hc]

omit hlt in
theorem length_insertionSort_inner (a : Nat) :
    ∀ (j : Nat) (data : List α), (insertionSort_inner lt a j data).length = data.length := by
  intro j
  induction j with
  | zero => intro data; rfl
  | succ j ih =>
    intro data
    unfold insertionSort_inner
    split
    · rw [ih, length_swapAt]
    · rfl

theorem insertionSort_outer_filter (a b : Nat) (k : Int) :
    ∀ (n i : Nat) (data : List α), b ≤ data.length →
      (insertionSort_outer lt a b n i data).filter (fun x => decide (key x = k))
        = data.filter (fun x => decide (key x = k)) := by
  intro n
  induction n with
  | zero => intro i data _; rfl
  | succ n ih =>
    intro i data hb
    unfold insertionSort_outer
    by_cases hib : i < b
    · rw [if_pos hib, ih (i + 1) _ (by rw [length_insertionSort_inner lt]; exact hb)]
      exact insertionSort_inner_filter key lt hlt a k i data (by omega)
    · rw [if_neg hib]

/-- The function `sort.Slice` returns a rearrangement of its argument in
non-decreasing order of the keys. -/
theorem Slice_sorted_perm (rng : Nat → Nat) (x : List α) :
    (Slice lt rng x).Perm x ∧ (Slice lt rng x).Pairwise (fun p q => key p ≤ key q) := by
  unfold Slice
  obtain ⟨r1, r2⟩ := pdqsort_func_spec key lt hlt rng (x.length + 1) x 0 x.length
    (bitsLen x.length) true true (le_refl _) (Nat.zero_le _) (by omega)
    (fun h => absurd h (by omega))
  refine ⟨r1.perm, ?_⟩
  apply SortedOn.pairwise
  rw [r1.length_eq]
  exact r2

/-- On at most 12 elements `sort.Slice` is the insertion sort, which keeps the
order of elements with equal keys. -/
theorem Slice_stable_of_short (rng : Nat → Nat) (x : List α) (h : x.length ≤ 12) (k : Int) :
    (Slice lt rng x).filter (fun e => decide (key e = k))
      = x.filter (fun e => decide (key e = k)) := by
  unfold Slice pdqsort_func
  simp only [Nat.sub_zero]
  rw [if_pos h]
  unfold insertionSort_func
  exact insertionSort_outer_filter key lt hlt 0 x.length k _ _ x (le_refl _)

end SliceTheorems

/-! ## Card listing flow: the displayed rows -/

theorem rowLess_iff (x y : Row) : rowLess x y = true ↔ x.id < y.id := by
  simp [rowLess]

theorem sortRows_sorted_perm (L : Lib) (rows : List Row) :
    (sortRows L rows).Perm rows ∧ (sortRows L rows).Pairwise (fun x y => x.id ≤ y.id) :=
  Slice_sorted_perm (fun r : Row => r.id) rowLess rowLess_iff L.xorshiftNext rows

theorem parseListFilter_empty (L : Lib) : parseListFilter L "" = none := rfl

/-- C1: with `--all` and no list filter the displayed rows are a rearrangement
of the fetched cards, each card once with its own short id, name and resolved
list name and nothing else, they are in non-decreasing order of short id, and
one line is written per displayed row, in that order. -/
theorem listing_all_is_sorted_permutation (L : Lib) (userID : String) (cards : List Card)
    (lists : List BoardList) :
    (cardsToDisplay L true "" userID cards lists).Perm
        (cards.map (rowOf (buildListMap lists)))
      ∧ (cardsToDisplay L true "" userID cards lists).Pairwise (fun x y => x.id ≤ y.id)
      ∧ listCards L true "" userID cards lists
          = (cardsToDisplay L true "" userID cards lists).map
              (printRow L (maxIDWidth (cardsToDisplay L true "" userID cards lists))) := by
  have hc : collectCards L true (parseListFilter L "") (buildListMap lists) userID cards
      = cards.map (rowOf (buildListMap lists)) := by
    rw [collectCards_eq, parseListFilter_empty]
    simp [shouldIncludeList, rowOf]
  unfold cardsToDisplay
  rw [hc]
  exact ⟨(sortRows_sorted_perm L _).1, (sortRows_sorted_perm L _).2, by
    unfold listCards printCards cardsToDisplay
    rw [hc]⟩

/-- C2: without `--all` and without a list filter the displayed rows are a
rearrangement of the rows of exactly those fetched cards whose member ids
contain the authenticated member id, each such card once however often the id
occurs among its members; so a row is displayed if and only if it is the row of
such a card, and there are as many rows as such cards. -/
theorem listing_assigned_iff_member (L : Lib) (userID : String) (cards : List Card)
    (lists : List BoardList) :
    (cardsToDisplay L false "" userID cards lists).Perm
        ((cards.filter (fun card => decide (userID ∈ card.IDMembers))).map
          (rowOf (buildListMap lists)))
      ∧ (∀ row, row ∈ cardsToDisplay L false "" userID cards lists
          ↔ ∃ card ∈ cards, userID ∈ card.IDMembers ∧ row = rowOf (buildListMap lists) card)
      ∧ (cardsToDisplay L false "" userID cards lists).length
          = (cards.filter (fun card => decide (userID ∈ card.IDMembers))).length
      ∧ listCards L false "" userID cards lists
          = (cardsToDisplay L false "" userID cards lists).map
              (printRow L (maxIDWidth (cardsToDisplay L false "" userID cards lists))) := by
  have hc : collectCards L false (parseListFilter L "") (buildListMap lists) userID cards
      = (cards.filter (fun card => decide (userID ∈ card.IDMembers))).map
          (rowOf (buildListMap lists)) := by
    rw [collectCards_eq, parseListFilter_empty]
    simp [shouldIncludeList, rowOf]
  have hperm : (cardsToDisplay L false "" userID cards lists).Perm
      ((cards.filter (fun card => decide (userID ∈ card.IDMembers))).map
        (rowOf (buildListMap lists))) := by
    unfold cardsToDisplay
    rw [hc]
    exact (sortRows_sorted_perm L _).1
  refine ⟨hperm, ?_, ?_, rfl⟩
  · intro row
    rw [hperm.mem_iff]
    simp only [List.mem_map, List.mem_filter, decide_eq_true_eq]
    constructor
    · rintro ⟨card, ⟨h1, h2⟩, h3⟩
      exact ⟨card, h1, h2, h3.symm⟩
    · rintro ⟨card, h1, h2, h3⟩
      exact ⟨card, ⟨h1, h2⟩, h3.symm⟩
  · rw [hperm.length_eq, List.length_map]

/-- The displayed order of the thirteen sample rows. -/
theorem sortRows_thirteenRows :
    sortRows sampleLib thirteenRows
      = [⟨1, "r11", "Doing"⟩, ⟨2, "r12", "Doing"⟩, ⟨3, "r0", "Doing"⟩, ⟨4, "r3", "Doing"⟩,
         ⟨5, "r6", "Doing"⟩, ⟨6, "r7", "Doing"⟩, ⟨7, "r10", "Doing"⟩, ⟨9, "r2", "Doing"⟩,
         ⟨9, "r1", "Doing"⟩, ⟨10, "r4", "Doing"⟩, ⟨11, "r5", "Doing"⟩, ⟨12, "r8", "Doing"⟩,
         ⟨13, "r9", "Doing"⟩] := by
  decide

/-- C4, the claim as stated, fails: of the thirteen sample rows the two with
short id 9 are fetched in the order "r1", "r2" and displayed in the order
"r2", "r1". -/
theorem sort_stability_counterexample :
    thirteenRows.filter (fun r => decide (r.id = 9))
        = [⟨9, "r1", "Doing"⟩, ⟨9, "r2", "Doing"⟩]
      ∧ (sortRows sampleLib thirteenRows).filter (fun r => decide (r.id = 9))
        = [⟨9, "r2", "Doing"⟩, ⟨9, "r1", "Doing"⟩]
      ∧ (sortRows sampleLib thirteenRows).filter (fun r => decide (r.id = 9))
        ≠ thirteenRows.filter (fun r => decide (r.id = 9)) := by
  rw [sortRows_thirteenRows]
  decide

/-- C4 as amended: for at most 12 collected rows the sort is stable, that is,
for every short id the rows with that id are displayed in their fetch order,
and the displayed rows are in non-decreasing order of short id; given the short
ids 42, 7, 7, 13 the displayed order is 7, 7, 13, 42 with the first fetched 7
before the second. -/
theorem sort_stable_up_to_twelve_rows (L : Lib) (rows : List Row) (h : rows.length ≤ 12) :
    (∀ id : Int, (sortRows L rows).filter (fun r => decide (r.id = id))
        = rows.filter (fun r => decide (r.id = id)))
      ∧ (sortRows L rows).Pairwise (fun x y => x.id ≤ y.id)
      ∧ (sortRows L rows).Perm rows
      ∧ sortRows L fourRows
        = [⟨7, "b", "Doing"⟩, ⟨7, "c", "Doing"⟩, ⟨13, "d", "Doing"⟩, ⟨42, "a", "Doing"⟩] := by
  refine ⟨fun id => ?_, (sortRows_sorted_perm L rows).2, (sortRows_sorted_perm L rows).1, ?_⟩
  · exact Slice_stable_of_short (fun r : Row => r.id) rowLess rowLess_iff L.xorshiftNext rows h id
  · rfl

/-- C4 as amended, at a concrete input: the four rows 42, 7, 7, 13. -/
theorem sort_stable_witness :
    (∀ id : Int, (sortRows sampleLib fourRows).filter (fun r => decide (r.id = id))
        = fourRows.filter (fun r => decide (r.id = id)))
      ∧ (sortRows sampleLib fourRows).Pairwise (fun x y => x.id ≤ y.id)
      ∧ (sortRows sampleLib fourRows).Perm fourRows
      ∧ sortRows sampleLib fourRows
        = [⟨7, "b", "Doing"⟩, ⟨7, "c", "Doing"⟩, ⟨13, "d", "Doing"⟩, ⟨42, "a", "Doing"⟩] :=
  sort_stable_up_to_twelve_rows sampleLib fourRows (by decide)

/-! ## Go strings: encoding and decoding -/

theorem byte_val (n : Nat) (h : n < 256) : (byte n).val = n := by
  unfold byte
  simp [Fin.ofNat, Nat.mod_eq_of_lt h]

theorem toNat_ofNat_of_valid (n : Nat) (h : n < 0xD800 ∨ (0xDFFF < n ∧ n < 0x110000)) :
    (Char.ofNat n).toNat = n := by
  have hv : n.isValidChar := h
  simp [Char.ofNat, hv, Char.toNat, Char.ofNatAux, UInt32.toNat]

theorem Char_valid_toNat (c : Char) :
    c.toNat < 0xD800 ∨ (0xDFFF < c.toNat ∧ c.toNat < 0x110000) := c.valid

theorem leading_two (s0 : Nat) (h : 0xC2 ≤ s0 ∧ s0 ≤ 0xDF) : leading s0 = some (2, 0x80, 0xBF) := by
  unfold leading
  rw [if_pos h]

theorem leading_three (s0 : Nat) (h : 0xE0 ≤ s0 ∧ s0 ≤ 0xEF) :
    leading s0 = some (3, if s0 = 0xE0 then 0xA0 else 0x80, if s0 = 0xED then 0x9F else 0xBF) := by
  unfold leading
  split_ifs <;> first | rfl | omega

theorem leading_four (s0 : Nat) (h : 0xF0 ≤ s0 ∧ s0 ≤ 0xF4) :
    leading s0 = some (4, if s0 = 0xF0 then 0x90 else 0x80, if s0 = 0xF4 then 0x8F else 0xBF) := by
  unfold leading
  split_ifs <;> first | rfl | omega

theorem decode_one (s0 : Byte) (rest : GoString) (h0 : s0.val < 0x80) :
    DecodeRuneInString (s0 :: rest) = (some (Char.ofNat s0.val), 1) := by
  rw [DecodeRuneInString]
  rw [if_pos h0]

theorem decode_two (s0 s1 : Byte) (rest : GoString) (h0 : 0xC2 ≤ s0.val ∧ s0.val ≤ 0xDF)
    (h1 : 0x80 ≤ s1.val ∧ s1.val ≤ 0xBF) :
    DecodeRuneInString (s0 :: s1 :: rest)
      = (some (Char.ofNat (s0.val % 32 * 64 + s1.val % 64)), 2) := by
  rw [DecodeRuneInString]
  rw [if_neg (by omega), leading_two _ h0]
  dsimp only
  rw [if_neg (by simp), if_neg (by omega), if_pos (le_refl 2)]

theorem decode_three (s0 s1 s2 : Byte) (rest : GoString) (h0 : 0xE0 ≤ s0.val ∧ s0.val ≤ 0xEF)
    (h1 : (if s0.val = 0xE0 then 0xA0 else 0x80) ≤ s1.val
      ∧ s1.val ≤ (if s0.val = 0xED then 0x9F else 0xBF))
    (h2 : 0x80 ≤ s2.val ∧ s2.val ≤ 0xBF) :
    DecodeRuneInString (s0 :: s1 :: s2 :: rest)
      = (some (Char.ofNat (s0.val % 16 * 4096 + s1.val % 64 * 64 + s2.val % 64)), 3) := by
  rw [DecodeRuneInString]
  rw [if_neg (by omega), leading_three _ h0]
  dsimp only
  rw [if_neg (by simp), if_neg (by omega), if_neg (by decide), if_neg (by omega),
    if_pos (le_refl 3)]

theorem decode_four (s0 s1 s2 s3 : Byte) (rest : GoString) (h0 : 0xF0 ≤ s0.val ∧ s0.val ≤ 0xF4)
    (h1 : (if s0.val = 0xF0 then 0x90 else 0x80) ≤ s1.val
      ∧ s1.val ≤ (if s0.val = 0xF4 then 0x8F else 0xBF))
    (h2 : 0x80 ≤ s2.val ∧ s2.val ≤ 0xBF) (h3 : 0x80 ≤ s3.val ∧ s3.val ≤ 0xBF) :
    DecodeRuneInString (s0 :: s1 :: s2 :: s3 :: rest)
      = (some (Char.ofNat (s0.val % 8 * 262144 + s1.val % 64 * 4096 + s2.val % 64 * 64
          + s3.val % 64)), 4) := by
  rw [DecodeRuneInString]
  rw [if_neg (by omega), leading_four _ h0]
  dsimp only
  rw [if_neg (by simp), if_neg (by omega), if_neg (by decide), if_neg (by omega),
    if_neg (by decide), if_neg (by omega)]

/-- Decoding reads the encoding of a rune back as that rune. -/
theorem runes_encodeRune (c : Char) (rest : GoString) :
    runes 0 (encodeRune c ++ rest) = some c :: runes 0 rest := by
  have hv := Char_valid_toNat c
  have hc := Char.ofNat_toNat c
  unfold encodeRune
  dsimp only
  split_ifs with h1 h2 h3
  · have e0 := byte_val c.toNat (by omega)
    rw [List.singleton_append, runes, decode_one _ _ (by omega), e0, hc]
    rfl
  · have e0 := byte_val (0xC0 + c.toNat / 64) (by omega)
    have e1 := byte_val (0x80 + c.toNat % 64) (by omega)
    rw [List.cons_append, List.singleton_append, runes,
      decode_two _ _ _ (by omega) (by omega), e0, e1]
    have : (0xC0 + c.toNat / 64) % 32 * 64 + (0x80 + c.toNat % 64) % 64 = c.toNat := by omega
    rw [this, hc]
    rfl
  · have e0 := byte_val (0xE0 + c.toNat / 4096) (by omega)
    have e1 := byte_val (0x80 + c.toNat / 64 % 64) (by omega)
    have e2 := byte_val (0x80 + c.toNat % 64) (by omega)
    rw [List.cons_append, List.cons_append, List.singleton_append, runes,
      decode_three _ _ _ _ (by omega) (by rw [e0, e1]; split_ifs <;> omega) (by omega), e0, e1, e2]
    have : (0xE0 + c.toNat / 4096) % 16 * 4096 + (0x80 + c.toNat / 64 % 64) % 64 * 64
        + (0x80 + c.toNat % 64) % 64 = c.toNat := by omega
    rw [this, hc]
    rfl
  · have e0 := byte_val (0xF0 + c.toNat / 262144) (by omega)
    have e1 := byte_val (0x80 + c.toNat / 4096 % 64) (by omega)
    have e2 := byte_val (0x80 + c.toNat / 64 % 64) (by omega)
    have e3 := byte_val (0x80 + c.toNat % 64) (by omega)
    rw [List.cons_append, List.cons_append, List.cons_append, List.singleton_append, runes,
      decode_four _ _ _ _ _ (by omega) (by rw [e0, e1]; split_ifs <;> omega) (by omega)
        (by omega), e0, e1, e2, e3]
    have : (0xF0 + c.toNat / 262144) % 8 * 262144 + (0x80 + c.toNat / 4096 % 64) % 64 * 4096
        + (0x80 + c.toNat / 64 % 64) % 64 * 64 + (0x80 + c.toNat % 64) % 64 = c.toNat := by omega
    rw [this, hc]
    rfl

/-- The runes of the bytes of a text are its characters. -/
theorem runes_utf8 (s : String) : runes 0 (utf8 s) = s.data.map some := by
  unfold utf8
  induction s.data with
  | nil => rfl
  | cons c cs ih => rw [List.flatMap_cons, runes_encodeRune, ih, List.map_cons]

/-- The bytes of a text are valid UTF-8. -/
theorem ValidString_utf8 (s : String) : ValidString (utf8 s) = true := by
  unfold ValidString
  rw [runes_utf8]
  simp

theorem byte_eq (b : Byte) (n : Nat) (h : b.val = n) : byte n = b := by
  apply Fin.ext
  rw [byte_val n (by omega), h]

theorem leading_some (s0 sz lo hi : Nat) (h : leading s0 = some (sz, lo, hi)) :
    (sz = 2 ∧ 0xC2 ≤ s0 ∧ s0 ≤ 0xDF ∧ lo = 0x80 ∧ hi = 0xBF)
      ∨ (sz = 3 ∧ 0xE0 ≤ s0 ∧ s0 ≤ 0xEF ∧ lo = (if s0 = 0xE0 then 0xA0 else 0x80)
        ∧ hi = (if s0 = 0xED then 0x9F else 0xBF))
      ∨ (sz = 4 ∧ 0xF0 ≤ s0 ∧ s0 ≤ 0xF4 ∧ lo = (if s0 = 0xF0 then 0x90 else 0x80)
        ∧ hi = (if s0 = 0xF4 then 0x8F else 0xBF)) := by
  unfold leading at h
  split_ifs at h <;> simp only [Option.some.injEq, Prod.mk.injEq] at h <;>
    obtain ⟨rfl, rfl, rfl⟩ := h
  · exact Or.inl ⟨rfl, by omega, by omega, rfl, rfl⟩
  · refine Or.inr (Or.inl ⟨rfl, by omega, by omega, ?_, ?_⟩) <;> split_ifs <;> first | rfl | omega
  · refine Or.inr (Or.inl ⟨rfl, by omega, by omega, ?_, ?_⟩) <;> split_ifs <;> first | rfl | omega
  · refine Or.inr (Or.inl ⟨rfl, by omega, by omega, ?_, ?_⟩) <;> split_ifs <;> rfl
  · refine Or.inr (Or.inr ⟨rfl, by omega, by omega, ?_, ?_⟩) <;> split_ifs <;> first | rfl | omega
  · refine Or.inr (Or.inr ⟨rfl, by omega, by omega, ?_, ?_⟩) <;> split_ifs <;> first | rfl | omega
  · refine Or.inr (Or.inr ⟨rfl, by omega, by omega, ?_, ?_⟩) <;> split_ifs <;> rfl

theorem encodeRune_one (s0 : Byte) (h0 : s0.val < 0x80) :
    encodeRune (Char.ofNat s0.val) = [s0] := by
  unfold encodeRune
  dsimp only
  rw [toNat_ofNat_of_valid _ (by omega), if_pos h0, byte_eq s0 _ rfl]

theorem encodeRune_two (s0 s1 : Byte) (h0 : 0xC2 ≤ s0.val ∧ s0.val ≤ 0xDF)
    (h1 : 0x80 ≤ s1.val ∧ s1.val ≤ 0xBF) :
    encodeRune (Char.ofNat (s0.val % 32 * 64 + s1.val % 64)) = [s0, s1] := by
  unfold encodeRune
  dsimp only
  rw [toNat_ofNat_of_valid _ (by omega), if_neg (by omega), if_pos (by omega),
    byte_eq s0 _ (by omega), byte_eq s1 _ (by omega)]

theorem encodeRune_three (s0 s1 s2 : Byte) (h0 : 0xE0 ≤ s0.val ∧ s0.val ≤ 0xEF)
    (h1 : (if s0.val = 0xE0 then 0xA0 else 0x80) ≤ s1.val
      ∧ s1.val ≤ (if s0.val = 0xED then 0x9F else 0xBF))
    (h2 : 0x80 ≤ s2.val ∧ s2.val ≤ 0xBF) :
    encodeRune (Char.ofNat (s0.val % 16 * 4096 + s1.val % 64 * 64 + s2.val % 64))
      = [s0, s1, s2] := by
  have g1 : 0x80 ≤ s1.val ∧ s1.val ≤ 0xBF ∧ (s0.val = 0xE0 → 0xA0 ≤ s1.val)
      ∧ (s0.val = 0xED → s1.val ≤ 0x9F) := by
    split_ifs at h1 <;> omega
  unfold encodeRune
  dsimp only
  rw [toNat_ofNat_of_valid _ (by omega), if_neg (by omega), if_neg (by omega),
    if_pos (by omega), byte_eq s0 _ (by omega), byte_eq s1 _ (by omega),
    byte_eq s2 _ (by omega)]

theorem encodeRune_four (s0 s1 s2 s3 : Byte) (h0 : 0xF0 ≤ s0.val ∧ s0.val ≤ 0xF4)
    (h1 : (if s0.val = 0xF0 then 0x90 else 0x80) ≤ s1.val
      ∧ s1.val ≤ (if s0.val = 0xF4 then 0x8F else 0xBF))
    (h2 : 0x80 ≤ s2.val ∧ s2.val ≤ 0xBF) (h3 : 0x80 ≤ s3.val ∧ s3.val ≤ 0xBF) :
    encodeRune (Char.ofNat (s0.val % 8 * 262144 + s1.val % 64 * 4096 + s2.val % 64 * 64
        + s3.val % 64))
      = [s0, s1, s2, s3] := by
  have g1 : 0x80 ≤ s1.val ∧ s1.val ≤ 0xBF ∧ (s0.val = 0xF0 → 0x90 ≤ s1.val)
      ∧ (s0.val = 0xF4 → s1.val ≤ 0x8F) := by
    split_ifs at h1 <;> omega
  unfold encodeRune
  dsimp only
  rw [toNat_ofNat_of_valid _ (by omega), if_neg (by omega), if_neg (by omega),
    if_neg (by omega), byte_eq s0 _ (by omega), byte_eq s1 _ (by omega),
    byte_eq s2 _ (by omega), byte_eq s3 _ (by omega)]

/-- A rune that `DecodeRuneInString` reads is read from its own encoding. -/
theorem DecodeRuneInString_some (s : GoString) (c : Char) (sz : Nat)
    (h : DecodeRuneInString s = (some c, sz)) :
    s = encodeRune c ++ s.drop sz ∧ 0 < sz := by
  cases s with
  | nil => simp [DecodeRuneInString] at h
  | cons s0 rest =>
    rw [DecodeRuneInString] at h
    by_cases h0 : s0.val < 0x80
    · rw [if_pos h0] at h
      simp only [Prod.mk.injEq, Option.some.injEq] at h
      obtain ⟨rfl, rfl⟩ := h
      rw [encodeRune_one s0 h0]
      exact ⟨rfl, by decide⟩
    · rw [if_neg h0] at h
      cases hl : leading s0.val with
      | none => rw [hl] at h; simp at h
      | some t =>
        obtain ⟨w, lo, hi⟩ := t
        rw [hl] at h
        dsimp only at h
        by_cases hlen : (s0 :: rest).length < w
        · rw [if_pos hlen] at h; simp at h
        rw [if_neg hlen] at h
        cases rest with
        | nil => simp at h
        | cons s1 rest =>
          dsimp only at h
          by_cases hb1 : s1.val < lo ∨ hi < s1.val
          · rw [if_pos hb1] at h; simp at h
          rw [if_neg hb1] at h
          rcases leading_some _ _ _ _ hl with ⟨rfl, l0, u0, rfl, rfl⟩ | ⟨rfl, l0, u0, rfl, rfl⟩
            | ⟨rfl, l0, u0, rfl, rfl⟩
          · rw [if_pos (le_refl 2)] at h
            simp only [Prod.mk.injEq, Option.some.injEq] at h
            obtain ⟨rfl, rfl⟩ := h
            rw [encodeRune_two s0 s1 ⟨l0, u0⟩ (by omega)]
            exact ⟨rfl, by decide⟩
          · rw [if_neg (by decide)] at h
            cases rest with
            | nil => simp at h
            | cons s2 rest =>
              dsimp only at h
              by_cases hb2 : s2.val < 0x80 ∨ 0xBF < s2.val
              · rw [if_pos hb2] at h; simp at h
              rw [if_neg hb2, if_pos (le_refl 3)] at h
              simp only [Prod.mk.injEq, Option.some.injEq] at h
              obtain ⟨rfl, rfl⟩ := h
              rw [encodeRune_three s0 s1 s2 ⟨l0, u0⟩ (by omega) (by omega)]
              exact ⟨rfl, by decide⟩
          · rw [if_neg (by decide)] at h
            cases rest with
            | nil => simp at h
            | cons s2 rest =>
              dsimp only at h
              by_cases hb2 : s2.val < 0x80 ∨ 0xBF < s2.val
              · rw [if_pos hb2] at h; simp at h
              rw [if_neg hb2, if_neg (by decide)] at h
              cases rest with
              | nil => simp at h
              | cons s3 rest =>
                dsimp only at h
                by_cases hb3 : s3.val < 0x80 ∨ 0xBF < s3.val
                · rw [if_pos hb3] at h; simp at h
                rw [if_neg hb3] at h
                simp only [Prod.mk.injEq, Option.some.injEq] at h
                obtain ⟨rfl, rfl⟩ := h
                rw [encodeRune_four s0 s1 s2 s3 ⟨l0, u0⟩ (by omega) (by omega) (by omega)]
                exact ⟨rfl, by decide⟩

/-- Skipped bytes are not read. -/
theorem runes_skip (skip : Nat) (s : GoString) : runes skip s = runes 0 (s.drop skip) := by
  induction skip generalizing s with
  | zero => rfl
  | succ k ih =>
    cases s with
    | nil => rfl
    | cons b rest => rw [runes, ih, List.drop_succ_cons]

/-- A Go string that is valid UTF-8 holds the bytes of a text. -/
theorem utf8_of_ValidString (s : GoString) (h : ValidString s = true) :
    ∃ t : String, utf8 t = s := by
  suffices hs : ∀ n (s : GoString), s.length ≤ n → ValidString s = true →
      ∃ chars : List Char, chars.flatMap encodeRune = s by
    obtain ⟨chars, hc⟩ := hs s.length s (le_refl _) h
    exact ⟨String.mk chars, hc⟩
  intro n
  induction n with
  | zero =>
    intro s hl _
    have : s = [] := List.length_eq_zero.mp (by omega)
    exact ⟨[], by rw [this]; rfl⟩
  | succ n ih =>
    intro s hl hv
    cases s with
    | nil => exact ⟨[], rfl⟩
    | cons s0 rest =>
      unfold ValidString at hv
      rw [runes, List.all_cons, Bool.and_eq_true, runes_skip] at hv
      cases hd : DecodeRuneInString (s0 :: rest) with
      | mk r sz =>
        rw [hd] at hv
        cases r with
        | none => simp at hv
        | some c =>
          obtain ⟨hs, hpos⟩ := DecodeRuneInString_some _ _ _ hd
          have hdrop : (s0 :: rest).drop sz = rest.drop (sz - 1) := by
            obtain ⟨k, rfl⟩ : ∃ k, sz = k + 1 := ⟨sz - 1, by omega⟩
            rfl
          have hlen : (rest.drop (sz - 1)).length ≤ n := by
            rw [List.length_drop]
            simp only [List.length_cons] at hl
            omega
          obtain ⟨chars, hc⟩ := ih (rest.drop (sz - 1)) hlen hv.2
          refine ⟨c :: chars, ?_⟩
          rw [List.flatMap_cons, hc, ← hdrop]
          exact hs.symm

/-! ## Config store: the JSON text reads back -/

theorem hexVal_hexChar : ∀ n, n < 16 → hexVal (hexChar n) = some n := by
  decide

theorem char_eq_of_toNat {c : Char} {n : Nat} (h : c.toNat = n) : c = Char.ofNat n := by
  rw [← h, Char.ofNat_toNat]

theorem unquoteBody_quote (fuel : Nat) (rest : List Char) :
    unquoteBody (fuel + 1) ('"' :: rest) = some ([], rest) := by
  simp [unquoteBody]

theorem unquoteBody_raw (fuel : Nat) (c : Char) (tail : List Char) (h1 : c ≠ '"')
    (h2 : c ≠ '\\') (h3 : ¬ c.toNat < 0x20) :
    unquoteBody (fuel + 1) (c :: tail) = consChar c (unquoteBody fuel tail) := by
  simp [unquoteBody, h1, h2, h3]

theorem unquoteBody_escape (fuel : Nat) (e c : Char) (tail : List Char) (h1 : e ≠ 'u')
    (h2 : unescape e = some c) :
    unquoteBody (fuel + 1) ('\\' :: e :: tail) = consChar c (unquoteBody fuel tail) := by
  simp [unquoteBody, h1, h2]

theorem unquoteBody_u4 (fuel : Nat) (h1 h2 h3 h4 : Char) (rr : Nat) (tail : List Char)
    (hg : getu4 h1 h2 h3 h4 = some rr) (hs : rr < 0xD800) :
    unquoteBody (fuel + 1) ('\\' :: 'u' :: h1 :: h2 :: h3 :: h4 :: tail)
      = consChar (Char.ofNat rr) (unquoteBody fuel tail) := by
  have : ¬ (0xD800 ≤ rr ∧ rr < 0xE000) := by omega
  simp [unquoteBody, hg, this]

/-- Reading back one escaped character. -/
theorem unquoteBody_escapeChar (fuel : Nat) (c : Char) (tail : List Char) :
    unquoteBody (fuel + 1) (escapeChar c ++ tail) = consChar c (unquoteBody fuel tail) := by
  unfold escapeChar
  by_cases h80 : c.toNat < 0x80
  · rw [if_pos h80]
    by_cases hsafe : htmlSafe c = true
    · rw [if_pos hsafe]
      simp only [htmlSafe, Bool.and_eq_true, decide_eq_true_eq, bne_iff_ne, ne_eq] at hsafe
      obtain ⟨⟨⟨⟨⟨⟨s1, _⟩, s3⟩, _⟩, _⟩, _⟩, s7⟩ := hsafe
      exact unquoteBody_raw fuel c tail s3 s7 (by omega)
    · rw [if_neg hsafe]
      by_cases hq : c = '\\' ∨ c = '"'
      · rw [if_pos hq]
        rcases hq with rfl | rfl
        · exact unquoteBody_escape fuel _ _ tail (by decide) (by decide)
        · exact unquoteBody_escape fuel _ _ tail (by decide) (by decide)
      · rw [if_neg hq]
        by_cases h8 : c.toNat = 0x08
        · rw [if_pos h8, char_eq_of_toNat h8]
          exact unquoteBody_escape fuel _ _ tail (by decide) (by decide)
        rw [if_neg h8]
        by_cases hc : c.toNat = 0x0C
        · rw [if_pos hc, char_eq_of_toNat hc]
          exact unquoteBody_escape fuel _ _ tail (by decide) (by decide)
        rw [if_neg hc]
        by_cases hn : c = '\n'
        · rw [if_pos hn, hn]
          exact unquoteBody_escape fuel _ _ tail (by decide) (by decide)
        rw [if_neg hn]
        by_cases hr : c = '\r'
        · rw [if_pos hr, hr]
          exact unquoteBody_escape fuel _ _ tail (by decide) (by decide)
        rw [if_neg hr]
        by_cases ht : c = '\t'
        · rw [if_pos ht, ht]
          exact unquoteBody_escape fuel _ _ tail (by decide) (by decide)
        rw [if_neg ht]
        have hg : getu4 '0' '0' (hexChar (c.toNat / 16)) (hexChar (c.toNat % 16))
            = some c.toNat := by
          unfold getu4
          rw [hexVal_hexChar _ (by omega), hexVal_hexChar _ (by omega)]
          have : hexVal '0' = some 0 := by decide
          rw [this]
          simp only [Option.some.injEq]
          omega
        have := unquoteBody_u4 fuel _ _ _ _ _ tail hg (by omega)
        rw [Char.ofNat_toNat] at this
        exact this
  · rw [if_neg h80]
    by_cases hls : c.toNat = 0x2028 ∨ c.toNat = 0x2029
    · rw [if_pos hls]
      have hg : getu4 '2' '0' '2' (hexChar (c.toNat % 16)) = some c.toNat := by
        unfold getu4
        rw [hexVal_hexChar _ (by omega)]
        have h2 : hexVal '2' = some 2 := by decide
        have h0 : hexVal '0' = some 0 := by decide
        rw [h2, h0]
        simp only [Option.some.injEq]
        omega
      have := unquoteBody_u4 fuel _ _ _ _ _ tail hg (by omega)
      rw [Char.ofNat_toNat] at this
      exact this
    · rw [if_neg hls]
      have h1 : c ≠ '"' := by
        intro h; rw [h] at h80; exact h80 (by decide)
      have h2 : c ≠ '\\' := by
        intro h; rw [h] at h80; exact h80 (by decide)
      exact unquoteBody_raw fuel c tail h1 h2 (by omega)

/-- Reading back an escaped string up to its closing quote. -/
theorem unquoteBody_escaped (s : List Char) (rest : List Char) :
    ∀ fuel, s.length < fuel →
      unquoteBody fuel (s.flatMap escapeChar ++ '"' :: rest) = some (s, rest) := by
  induction s with
  | nil =>
    intro fuel h
    obtain ⟨f, rfl⟩ : ∃ f, fuel = f + 1 := ⟨fuel - 1, by simp at h; omega⟩
    exact unquoteBody_quote f rest
  | cons c s ih =>
    intro fuel h
    obtain ⟨f, rfl⟩ : ∃ f, fuel = f + 1 := ⟨fuel - 1, by simp at h; omega⟩
    rw [List.flatMap_cons, List.append_assoc, unquoteBody_escapeChar, ih f (by simpa using h)]
    rfl

theorem length_le_flatMap_escapeChar (s : List Char) :
    s.length ≤ (s.flatMap escapeChar).length := by
  induction s with
  | nil => simp
  | cons c s ih =>
    rw [List.flatMap_cons, List.length_append, List.length_cons]
    have : 1 ≤ (escapeChar c).length := by
      unfold escapeChar
      split_ifs <;> simp
    omega

theorem parseValue_string (fuel depth : Nat) (s rest : List Char) :
    parseValue (fuel + 1) depth ('"' :: (s.flatMap escapeChar ++ '"' :: rest))
      = some (JValue.str s, rest) := by
  rw [parseValue]
  simp only [if_true]
  rw [unquoteBody_escaped s rest _ (by
    have := length_le_flatMap_escapeChar s
    simp only [List.length_append]
    omega)]
  rfl

theorem skipSpace_cons_of_not_space (c : Char) (t : List Char) (h : isJSONSpace c = false) :
    skipSpace (c :: t) = c :: t := by
  simp [skipSpace, List.dropWhile, h]

theorem skipSpace_cons_of_space (c : Char) (t : List Char) (h : isJSONSpace c = true) :
    skipSpace (c :: t) = skipSpace t := by
  simp [skipSpace, List.dropWhile, h]

theorem parseMembers_memberText_comma (fuel depth : Nat) (key val tail : List Char) :
    parseMembers (fuel + 2) depth (memberText key val (',' :: tail))
      = (parseMembers (fuel + 1) depth (skipSpace tail)).map
          (fun p => ((key, JValue.str val) :: p.1, p.2)) := by
  unfold memberText
  rw [parseMembers]
  simp only [if_true]
  rw [unquoteBody_escaped key _ _ (by
    have := length_le_flatMap_escapeChar key
    simp only [List.length_append]
    omega)]
  simp only
  rw [skipSpace_cons_of_not_space ':' _ (by decide)]
  simp only [if_true]
  rw [skipSpace_cons_of_space ' ' _ (by decide), skipSpace_cons_of_not_space '"' _ (by decide),
    parseValue_string]
  simp only
  rw [skipSpace_cons_of_not_space ',' _ (by decide)]
  simp only [if_true]

theorem parseMembers_memberText_close (fuel depth : Nat) (key val tail : List Char) :
    parseMembers (fuel + 2) depth (memberText key val ('\n' :: '}' :: tail))
      = some ([(key, JValue.str val)], tail) := by
  unfold memberText
  rw [parseMembers]
  simp only [if_true]
  rw [unquoteBody_escaped key _ _ (by
    have := length_le_flatMap_escapeChar key
    simp only [List.length_append]
    omega)]
  simp only
  rw [skipSpace_cons_of_not_space ':' _ (by decide)]
  simp only [if_true]
  rw [skipSpace_cons_of_space ' ' _ (by decide), skipSpace_cons_of_not_space '"' _ (by decide),
    parseValue_string]
  simp only
  rw [skipSpace_cons_of_space '\n' _ (by decide), skipSpace_cons_of_not_space '}' _ (by decide)]
  have h1 : ('}' : Char) ≠ ',' := by decide
  simp only [h1, if_false, if_true]

theorem skipSpace_indent_memberText (key val tail : List Char) :
    skipSpace ('\n' :: ' ' :: ' ' :: memberText key val tail) = memberText key val tail := by
  unfold memberText
  rw [skipSpace_cons_of_space '\n' _ (by decide), skipSpace_cons_of_space ' ' _ (by decide),
    skipSpace_cons_of_space ' ' _ (by decide), skipSpace_cons_of_not_space '"' _ (by decide)]

/-- The runes of the bytes of a text are written as its characters are. -/
theorem flatMap_escapeRune_utf8 (s : String) :
    (runes 0 (utf8 s)).flatMap escapeRune = s.data.flatMap escapeChar := by
  rw [runes_utf8]
  induction s.data with
  | nil => rfl
  | cons c cs ih =>
    rw [List.map_cons, List.flatMap_cons, List.flatMap_cons, ih]
    rfl

theorem MarshalIndent_data (config : Config) :
    (MarshalIndent config.bytes).data
      = '{' :: '\n' :: ' ' :: ' ' :: memberText "api_key".data config.APIKey.data
          (',' :: '\n' :: ' ' :: ' ' :: memberText "api_token".data config.APIToken.data
            (',' :: '\n' :: ' ' :: ' ' :: memberText "workspace".data config.Workspace.data
              (',' :: '\n' :: ' ' :: ' ' :: memberText "board_id".data config.BoardID.data
                ['\n', '}']))) := by
  have k1 : (['a', 'p', 'i', '_', 'k', 'e', 'y'] : List Char).flatMap escapeChar
      = ['a', 'p', 'i', '_', 'k', 'e', 'y'] := by decide
  have k2 : (['a', 'p', 'i', '_', 't', 'o', 'k', 'e', 'n'] : List Char).flatMap escapeChar
      = ['a', 'p', 'i', '_', 't', 'o', 'k', 'e', 'n'] := by decide
  have k3 : (['w', 'o', 'r', 'k', 's', 'p', 'a', 'c', 'e'] : List Char).flatMap escapeChar
      = ['w', 'o', 'r', 'k', 's', 'p', 'a', 'c', 'e'] := by decide
  have k4 : (['b', 'o', 'a', 'r', 'd', '_', 'i', 'd'] : List Char).flatMap escapeChar
      = ['b', 'o', 'a', 'r', 'd', '_', 'i', 'd'] := by decide
  unfold MarshalIndent
  simp only [appendString, Config.bytes, flatMap_escapeRune_utf8, memberText,
    List.append_assoc, List.cons_append, List.nil_append, k1, k2, k3, k4]

/-- The text written by `MarshalIndent` for a config of texts parses to the object
of its four members. -/
theorem parseJSON_MarshalIndent (config : Config) :
    parseJSON (MarshalIndent config.bytes).data
      = some (JValue.obj [("api_key".data, JValue.str config.APIKey.data),
          ("api_token".data, JValue.str config.APIToken.data),
          ("workspace".data, JValue.str config.Workspace.data),
          ("board_id".data, JValue.str config.BoardID.data)]) := by
  have hlen : 8 ≤ (MarshalIndent config.bytes).data.length := by
    rw [MarshalIndent_data]
    simp only [memberText, List.length_cons, List.length_append]
    omega
  obtain ⟨n, hn⟩ : ∃ n, (MarshalIndent config.bytes).data.length = n + 8 :=
    ⟨(MarshalIndent config.bytes).data.length - 8, by omega⟩
  unfold parseJSON
  rw [hn, MarshalIndent_data, skipSpace_cons_of_not_space '{' _ (by decide), parseValue]
  have hne : ('{' : Char) ≠ '"' := by decide
  have hd : ¬ (0 + 1 > maxNestingDepth) := by decide
  simp only [hne, if_false, if_true, hd]
  rw [skipSpace_indent_memberText]
  have hm : memberText "api_key".data config.APIKey.data
      (',' :: '\n' :: ' ' :: ' ' :: memberText "api_token".data config.APIToken.data
        (',' :: '\n' :: ' ' :: ' ' :: memberText "workspace".data config.Workspace.data
          (',' :: '\n' :: ' ' :: ' ' :: memberText "board_id".data config.BoardID.data
            ['\n', '}'])))
      = '"' :: ("api_key".data.flatMap escapeChar ++ '"' :: ':' :: ' ' :: '"'
          :: (config.APIKey.data.flatMap escapeChar ++ '"'
            :: (',' :: '\n' :: ' ' :: ' ' :: memberText "api_token".data config.APIToken.data
              (',' :: '\n' :: ' ' :: ' ' :: memberText "workspace".data config.Workspace.data
                (',' :: '\n' :: ' ' :: ' ' :: memberText "board_id".data config.BoardID.data
                  ['\n', '}']))))) := rfl
  rw [hm]
  simp only
  have hq : ('"' : Char) ≠ '}' := by decide
  simp only [hq, if_false]
  rw [← hm]
  rw [show n + 8 = (n + 6) + 2 from rfl, parseMembers_memberText_comma,
    skipSpace_indent_memberText]
  rw [show n + 6 + 1 = (n + 5) + 2 from rfl, parseMembers_memberText_comma,
    skipSpace_indent_memberText]
  rw [show n + 5 + 1 = (n + 4) + 2 from rfl, parseMembers_memberText_comma,
    skipSpace_indent_memberText]
  rw [show n + 4 + 1 = (n + 3) + 2 from rfl, parseMembers_memberText_close]
  rfl

/-- Decoding the text written by `MarshalIndent` for a config of texts gives the
config back. -/
theorem Unmarshal_MarshalIndent (L : Lib) (config : Config) :
    Unmarshal L (MarshalIndent config.bytes) ⟨"", "", "", ""⟩ = (config, none) := by
  unfold Unmarshal
  rw [parseJSON_MarshalIndent]
  rfl

/-- Saving a config of texts and loading it gives the config back. -/
theorem LoadConfig_SaveConfig_text (L : Lib) (fs : FS) (config : Config)
    (h : (SaveConfig L fs config.bytes).1 = none) :
    LoadConfig L (SaveConfig L fs config.bytes).2 = Except.ok config := by
  unfold SaveConfig at h ⊢
  simp only at h ⊢
  cases hm : fs.mkdirAllErr (L.filepathDir (getConfigPath L fs)) with
  | some err => rw [hm] at h; simp at h
  | none =>
    rw [hm] at h
    simp only at h ⊢
    unfold FS.writeFile at h ⊢
    cases hw : fs.writeFileErr (getConfigPath L fs) with
    | some err => rw [hw] at h; simp at h
    | none =>
      simp only
      unfold LoadConfig
      have hp : getConfigPath L
          { fs with node := fun p =>
              if p = getConfigPath L fs then Node.file (MarshalIndent config.bytes)
              else fs.node p }
          = getConfigPath L fs := rfl
      simp only [hp, if_true, Unmarshal_MarshalIndent]

/-- C9, the claim as stated, fails: the Go string of the single byte 0xFF is not
valid UTF-8.  `SaveConfig` of a config with this string as its api_key succeeds
on a file system without a config file, the file holds the six characters
`\ufffd` in place of the byte, and `LoadConfig` returns the api_key U+FFFD,
whose bytes are 0xEF 0xBF 0xBD. -/
theorem config_round_trip_counterexample :
    ValidString [0xFF] = false
      ∧ (SaveConfig sampleLib emptyFS ⟨[0xFF], [], [], []⟩).1 = none
      ∧ LoadConfig sampleLib (SaveConfig sampleLib emptyFS ⟨[0xFF], [], [], []⟩).2
        = Except.ok ⟨"\uFFFD", "", "", ""⟩
      ∧ (Config.bytes ⟨"\uFFFD", "", "", ""⟩).APIKey = [0xEF, 0xBF, 0xBD]
      ∧ ¬ (∀ (fs : FS) (config : RawConfig), (SaveConfig sampleLib fs config).1 = none →
          ∃ loaded, LoadConfig sampleLib (SaveConfig sampleLib fs config).2 = Except.ok loaded
            ∧ loaded.bytes = config) := by
  have hload : LoadConfig sampleLib (SaveConfig sampleLib emptyFS ⟨[0xFF], [], [], []⟩).2
      = Except.ok ⟨"\uFFFD", "", "", ""⟩ := rfl
  refine ⟨by decide, rfl, hload, by decide, ?_⟩
  intro hall
  obtain ⟨loaded, hl, hb⟩ := hall emptyFS ⟨[0xFF], [], [], []⟩ rfl
  rw [hload] at hl
  cases hl
  exact absurd hb (by decide)

/-- C9, amended: for every config whose four Go strings are valid UTF-8,
whenever `SaveConfig` returns no error, `LoadConfig` on the file system it
leaves behind succeeds and returns a config equal to the saved one in all four
fields. -/
theorem config_round_trip_of_valid_utf8 (L : Lib) (fs : FS) (config : RawConfig)
    (hvalid : ValidString config.APIKey = true ∧ ValidString config.APIToken = true
      ∧ ValidString config.Workspace = true ∧ ValidString config.BoardID = true)
    (h : (SaveConfig L fs config).1 = none) :
    ∃ loaded, LoadConfig L (SaveConfig L fs config).2 = Except.ok loaded
      ∧ loaded.bytes = config := by
  obtain ⟨apiKey, h1⟩ := utf8_of_ValidString _ hvalid.1
  obtain ⟨apiToken, h2⟩ := utf8_of_ValidString _ hvalid.2.1
  obtain ⟨workspace, h3⟩ := utf8_of_ValidString _ hvalid.2.2.1
  obtain ⟨boardID, h4⟩ := utf8_of_ValidString _ hvalid.2.2.2
  have hc : config = Config.bytes ⟨apiKey, apiToken, workspace, boardID⟩ := by
    obtain ⟨a, b, c, d⟩ := config
    simp only at h1 h2 h3 h4
    rw [Config.bytes, h1, h2, h3, h4]
  rw [hc] at h ⊢
  exact ⟨_, LoadConfig_SaveConfig_text L fs _ h, rfl⟩

/-- C9, amended, at a concrete input: there is no config file, and a config with
characters of one to four bytes, a quote, a backslash and a line break is saved
and loaded. -/
theorem config_round_trip_witness :
    LoadConfig sampleLib emptyFS = Except.ok ⟨"", "", "", ""⟩
      ∧ ∃ loaded,
        LoadConfig sampleLib
            (SaveConfig sampleLib emptyFS (Config.bytes ⟨"ké\"", "t€\\", "w😀", "b\n"⟩)).2
          = Except.ok loaded
        ∧ loaded.bytes = Config.bytes ⟨"ké\"", "t€\\", "w😀", "b\n"⟩ :=
  ⟨rfl, config_round_trip_of_valid_utf8 sampleLib emptyFS
    (Config.bytes ⟨"ké\"", "t€\\", "w😀", "b\n"⟩) (by decide) rfl⟩

/-! ## Card listing flow: the resolved list name -/

/-- The map built by lines 353-356 holds the fetched lists in reverse order
before what it held. -/
theorem buildListMap_foldl (lists : List BoardList) (acc : GoMap String) :
    lists.foldl (fun listMap list => GoMap.set listMap list.ID list.Name) acc
      = (lists.reverse.map (fun list => (list.ID, list.Name))) ++ acc := by
  induction lists generalizing acc with
  | nil => rfl
  | cons list rest ih =>
    rw [List.foldl_cons, ih]
    simp [GoMap.set]

/-- The name stored under a list id is the name of the last fetched list with
that id; the id is a key exactly when some fetched list has it. -/
theorem buildListMap_find (lists : List BoardList) (id : String) :
    (buildListMap lists).find id
      = (lists.reverse.find? (fun list => decide (list.ID = id))).map (fun list => list.Name) := by
  unfold buildListMap GoMap.find
  rw [buildListMap_foldl, List.append_nil]
  induction lists.reverse with
  | nil => rfl
  | cons list rest ih =>
    rw [List.map_cons, List.lookup_cons, List.find?_cons]
    by_cases h : list.ID = id
    · have hb : (id == list.ID) = true := by simp [h]
      simp [hb, h]
    · have hb : (id == list.ID) = false := by
        simp only [beq_eq_false_iff_ne, ne_eq]
        exact fun e => h e.symm
      simp [hb, h, ih]

/-- A list id is a key of the map exactly when a fetched list has it. -/
theorem buildListMap_find_isSome (lists : List BoardList) (id : String) :
    ((buildListMap lists).find id).isSome = true ↔ ∃ list ∈ lists, list.ID = id := by
  rw [buildListMap_find]
  simp [List.find?_isSome]

/-- C11, the claim as stated, fails twice. A fetched list with an empty name:
its id is a key of the map, the stored name is empty, and the resolved name is
"Unknown". A fetched list whose name is "Unknown": the resolved name is
"Unknown" although the id is a key of the map. -/
theorem list_name_counterexample :
    ((buildListMap [⟨"l1", ""⟩]).find "l1" = some ""
        ∧ resolveListName (buildListMap [⟨"l1", ""⟩]) ⟨"c1", "First", [], "sl1", 7, "l1"⟩
          = "Unknown")
      ∧ ((buildListMap [⟨"l2", "Unknown"⟩]).find "l2" = some "Unknown"
        ∧ resolveListName (buildListMap [⟨"l2", "Unknown"⟩]) ⟨"c2", "Second", [], "sl2", 8, "l2"⟩
          = "Unknown")
      ∧ ¬ (∀ (lists : List BoardList) (card : Card),
          (∀ name, (buildListMap lists).find card.IDList = some name →
            resolveListName (buildListMap lists) card = name)
          ∧ (resolveListName (buildListMap lists) card = "Unknown"
            ↔ (buildListMap lists).find card.IDList = none)) := by
  refine ⟨⟨by decide, by decide⟩, ⟨by decide, by decide⟩, ?_⟩
  intro h
  have h2 := (h [⟨"l2", "Unknown"⟩] ⟨"c2", "Second", [], "sl2", 8, "l2"⟩).2
  have h3 : (buildListMap [⟨"l2", "Unknown"⟩]).find "l2" = none := h2.mp (by decide)
  exact absurd h3 (by decide)

/-- C11, amended: for every card and the map built from the fetched lists, the
resolved list name is the stored name when the list id of the card is a key of
the map and the stored name is not empty, it is "Unknown" when the list id is
absent, and it is "Unknown" only if the list id is absent or the stored name is
"Unknown" or empty. -/
theorem list_name_is_stored_or_unknown (lists : List BoardList) (card : Card) :
    (∀ name, (buildListMap lists).find card.IDList = some name → name ≠ "" →
        resolveListName (buildListMap lists) card = name)
      ∧ ((buildListMap lists).find card.IDList = none →
        resolveListName (buildListMap lists) card = "Unknown")
      ∧ (resolveListName (buildListMap lists) card = "Unknown" →
        (buildListMap lists).find card.IDList = none
          ∨ (buildListMap lists).find card.IDList = some "Unknown"
          ∨ (buildListMap lists).find card.IDList = some "") := by
  unfold resolveListName GoMap.get
  refine ⟨?_, ?_, ?_⟩
  · intro name hfind hne
    simp [hfind, hne]
  · intro hfind
    simp [hfind]
  · intro hres
    cases hfind : (buildListMap lists).find card.IDList with
    | none => exact Or.inl rfl
    | some name =>
      rw [hfind] at hres
      simp only [Option.getD_some] at hres
      by_cases hne : name = ""
      · exact Or.inr (Or.inr (by rw [hne]))
      · rw [if_neg hne] at hres
        exact Or.inr (Or.inl (by rw [hres]))

/-- C11, amended, at fetched lists with a repeated id, and at a card whose list
id no fetched list has. -/
theorem list_name_witness :
    resolveListName (buildListMap [⟨"l1", "Doing"⟩, ⟨"l1", "Done"⟩])
        ⟨"c1", "First", [], "sl1", 7, "l1"⟩ = "Done"
      ∧ resolveListName (buildListMap [⟨"l1", "Doing"⟩]) ⟨"c1", "First", [], "sl1", 7, "l9"⟩
        = "Unknown" :=
  ⟨(list_name_is_stored_or_unknown [⟨"l1", "Doing"⟩, ⟨"l1", "Done"⟩]
      ⟨"c1", "First", [], "sl1", 7, "l1"⟩).1 "Done" (by decide) (by decide),
   (list_name_is_stored_or_unknown [⟨"l1", "Doing"⟩] ⟨"c1", "First", [], "sl1", 7, "l9"⟩).2.1
      (by decide)⟩

/-! ## The credential form -/

/-- The loop of lines 80-90 keeps the number of inputs. -/
theorem length_refocus (T : Textinput) (focused : Int) (i : Nat) (inputs : List T.Model) :
    (refocus T focused i inputs).length = inputs.length := by
  induction inputs generalizing i with
  | nil => rfl
  | cons input rest ih => simp [refocus, ih]

/-- The method `Update` keeps the number of inputs. -/
theorem length_inputs_Update {T : Textinput} (m : model T) (msg : Msg) :
    (m.Update msg).1.inputs.length = m.inputs.length := by
  unfold model.Update
  cases msg with
  | key s =>
    dsimp only
    split_ifs <;> simp [model.updateInputs, length_refocus]
  | other n => simp [model.updateInputs]

/-- The form has two inputs after any sequence of messages. -/
theorem length_inputs_handled {T : Textinput} (m : model T) (msgs : List Msg) :
    (handled m msgs).inputs.length = m.inputs.length := by
  induction msgs generalizing m with
  | nil => rfl
  | cons msg rest ih =>
    unfold handled
    rw [List.foldl_cons]
    exact (ih (m.Update msg).1).trans (length_inputs_Update m msg)

/-- Messages that do not end the program are handled one after the other. -/
theorem eventLoop_of_keepsRunning {T : Textinput} (m : model T) (pre : List Msg)
    (rest : List (Except String Msg)) (hpre : keepsRunning m pre = true) :
    eventLoop m (pre.map Except.ok ++ rest) = eventLoop (handled m pre) rest := by
  induction pre generalizing m with
  | nil => rfl
  | cons msg pre ih =>
    rw [keepsRunning, Bool.and_eq_true, decide_eq_true_eq] at hpre
    rw [List.map_cons, List.cons_append, eventLoop]
    have hu : m.Update msg = ((m.Update msg).1, Cmd.Batch) := by
      rw [← hpre.1]
    rw [hu]
    dsimp only
    rw [ih _ hpre.2]
    rfl

/-- The keys that end the form: Esc, Ctrl+C, and Enter while the last input is
focused; the model is returned as it is. -/
theorem Update_quit_iff {T : Textinput} (m : model T) (msg : Msg) :
    (m.Update msg).2 = Cmd.Quit
      ↔ ∃ k, msg = Msg.key k
        ∧ (k = "esc" ∨ k = "ctrl+c" ∨ (k = "enter" ∧ m.focused = (m.inputs.length : Int) - 1)) := by
  unfold model.Update
  cases msg with
  | other n => simp
  | key s =>
    dsimp only
    constructor
    · intro h
      refine ⟨s, rfl, ?_⟩
      split_ifs at h with h1 h2 h3
      · rcases h1 with h1 | h1
        · exact Or.inr (Or.inl h1)
        · exact Or.inl h1
      · exact Or.inr (Or.inr h3)
    · rintro ⟨k, hk, hend⟩
      cases hk
      rcases hend with h | h | ⟨h, hf⟩
      · rw [if_pos (Or.inr h)]
      · rw [if_pos (Or.inl h)]
      · subst h
        rw [if_neg (by decide), if_pos (by decide), if_pos ⟨rfl, hf⟩]

/-- An update that ends the form returns the model unchanged. -/
theorem Update_quit_model {T : Textinput} (m : model T) (msg : Msg)
    (h : (m.Update msg).2 = Cmd.Quit) : (m.Update msg).1 = m := by
  unfold model.Update at h ⊢
  cases msg with
  | other n => simp at h
  | key s =>
    dsimp only at h ⊢
    split_ifs at h ⊢ <;> rfl

/-- A run that returns ends at a quitting key or at an error of the terminal,
after messages that were all handled. -/
theorem eventLoop_some {T : Textinput} (m : model T) (session : List (Except String Msg))
    (r : model T × Option String) (h : eventLoop m session = some r) :
    ∃ pre later, keepsRunning m pre = true ∧ r.1 = handled m pre
      ∧ ((∃ msg, session = pre.map Except.ok ++ Except.ok msg :: later
            ∧ ((handled m pre).Update msg).2 = Cmd.Quit ∧ r.2 = none)
        ∨ (∃ err, session = pre.map Except.ok ++ Except.error err :: later ∧ r.2 = some err)) := by
  induction session generalizing m with
  | nil => simp [eventLoop] at h
  | cons e rest ih =>
    cases e with
    | error err =>
      rw [eventLoop, Option.some.injEq] at h
      subst h
      exact ⟨[], rest, rfl, rfl, Or.inr ⟨err, rfl, rfl⟩⟩
    | ok msg =>
      rw [eventLoop] at h
      cases hc : (m.Update msg).2 with
      | Quit =>
        have hu : m.Update msg = ((m.Update msg).1, Cmd.Quit) := by rw [← hc]
        rw [hu] at h
        dsimp only at h
        rw [Option.some.injEq] at h
        subst h
        refine ⟨[], rest, rfl, ?_, Or.inl ⟨msg, rfl, hc, rfl⟩⟩
        exact Update_quit_model m msg hc
      | Batch =>
        have hu : m.Update msg = ((m.Update msg).1, Cmd.Batch) := by rw [← hc]
        rw [hu] at h
        dsimp only at h
        obtain ⟨pre, later, hk, hr, hcase⟩ := ih _ h
        refine ⟨msg :: pre, later, ?_, ?_, ?_⟩
        · rw [keepsRunning, Bool.and_eq_true, decide_eq_true_eq]
          exact ⟨hc, hk⟩
        · exact hr
        · rcases hcase with ⟨msg2, hs, hq, hn⟩ | ⟨err, hs, hn⟩
          · exact Or.inl ⟨msg2, by rw [hs]; rfl, hq, hn⟩
          · exact Or.inr ⟨err, by rw [hs]; rfl, hn⟩

/-- The result of the loop at a quitting key after handled messages. -/
theorem eventLoop_quit {T : Textinput} (m : model T) (pre : List Msg) (k : String)
    (later : List (Except String Msg)) (hpre : keepsRunning m pre = true)
    (hend : k = "esc" ∨ k = "ctrl+c"
      ∨ (k = "enter" ∧ (handled m pre).focused = ((handled m pre).inputs.length : Int) - 1)) :
    eventLoop m (pre.map Except.ok ++ Except.ok (Msg.key k) :: later)
      = some (handled m pre, none) := by
  have hq : ((handled m pre).Update (Msg.key k)).2 = Cmd.Quit :=
    (Update_quit_iff _ _).2 ⟨k, rfl, hend⟩
  have hm := Update_quit_model _ _ hq
  have hu : (handled m pre).Update (Msg.key k) = (handled m pre, Cmd.Quit) := Prod.ext hm hq
  rw [eventLoop_of_keepsRunning m pre _ hpre, eventLoop, hu]

/-- C13, the claim as stated, fails: after the key "a" the key Esc ends the
form and `PromptForConfig` returns the text typed so far, "a", with a nil
error; so does Ctrl+C after "a", Tab and "b". -/
theorem form_abort_counterexample :
    PromptForConfig sampleTextinput [Except.ok (Msg.key "a"), Except.ok (Msg.key "esc")]
        = some ("a", "", "", "", none)
      ∧ PromptForConfig sampleTextinput
          [Except.ok (Msg.key "a"), Except.ok (Msg.key "tab"), Except.ok (Msg.key "b"),
            Except.ok (Msg.key "ctrl+c")]
        = some ("a", "b", "", "", none)
      ∧ ¬ (∀ (pre : List Msg) (k : String),
          keepsRunning (initialModel sampleTextinput) pre = true → k = "esc" ∨ k = "ctrl+c" →
          ∃ a b c d err, PromptForConfig sampleTextinput ((pre ++ [Msg.key k]).map Except.ok)
            = some (a, b, c, d, some err)) := by
  refine ⟨by decide, by decide, ?_⟩
  intro h
  obtain ⟨a, b, c, d, err, he⟩ := h [Msg.key "a"] "esc" (by decide) (Or.inl rfl)
  have hv : PromptForConfig sampleTextinput (([Msg.key "a"] ++ [Msg.key "esc"]).map Except.ok)
      = some ("a", "", "", "", none) := by decide
  rw [hv] at he
  simp at he

/-- C13, amended: for every sequence of messages handled by `Update` that ends
with Esc, with Ctrl+C or with Enter on the last (token) input, `PromptForConfig`
returns the texts of the two inputs as entered so far with a nil error; it
returns a nil error only when the form ends in one of these three ways, and a
non-nil error only when the terminal delivers that error. -/
theorem form_end_returns_entered_strings (T : Textinput) :
    (∀ (pre : List Msg) (k : String) (later : List (Except String Msg)),
        keepsRunning (initialModel T) pre = true →
        (k = "esc" ∨ k = "ctrl+c" ∨ (k = "enter" ∧ (handled (initialModel T) pre).focused = 1)) →
        ∃ keyInput tokenInput, (handled (initialModel T) pre).inputs = [keyInput, tokenInput]
          ∧ PromptForConfig T (pre.map Except.ok ++ Except.ok (Msg.key k) :: later)
            = some (T.Value keyInput, T.Value tokenInput, "", "", none))
      ∧ (∀ session a b c d, PromptForConfig T session = some (a, b, c, d, none) →
        ∃ pre k later, session = pre.map Except.ok ++ Except.ok (Msg.key k) :: later
          ∧ keepsRunning (initialModel T) pre = true
          ∧ (k = "esc" ∨ k = "ctrl+c"
            ∨ (k = "enter" ∧ (handled (initialModel T) pre).focused = 1)))
      ∧ (∀ session a b c d err, PromptForConfig T session = some (a, b, c, d, some err) →
        Except.error err ∈ session) := by
  have hlen : ∀ pre, (handled (initialModel T) pre).inputs.length = 2 := fun pre =>
    length_inputs_handled (initialModel T) pre
  refine ⟨?_, ?_, ?_⟩
  · intro pre k later hpre hend
    have hl := hlen pre
    obtain ⟨keyInput, tokenInput, hin⟩ :
        ∃ keyInput tokenInput, (handled (initialModel T) pre).inputs = [keyInput, tokenInput] :=
      List.length_eq_two.mp hl
    refine ⟨keyInput, tokenInput, hin, ?_⟩
    have hend2 : k = "esc" ∨ k = "ctrl+c" ∨ (k = "enter"
        ∧ (handled (initialModel T) pre).focused
          = ((handled (initialModel T) pre).inputs.length : Int) - 1) := by
      rw [hl]
      exact hend
    unfold PromptForConfig
    rw [eventLoop_quit _ pre k later hpre hend2]
    simp [hin]
  · intro session a b c d h
    unfold PromptForConfig at h
    cases hr : eventLoop (initialModel T) session with
    | none => rw [hr] at h; simp at h
    | some r =>
      obtain ⟨m, e⟩ := r
      cases e with
      | some err => rw [hr] at h; simp at h
      | none =>
        obtain ⟨pre, later, hk, _, hcase⟩ := eventLoop_some _ _ _ hr
        rcases hcase with ⟨msg, hs, hq, _⟩ | ⟨err, _, hn⟩
        · obtain ⟨k, hmsg, hend⟩ := (Update_quit_iff _ _).1 hq
          subst hmsg
          rw [hlen pre] at hend
          exact ⟨pre, k, later, hs, hk, hend⟩
        · simp at hn
  · intro session a b c d err h
    unfold PromptForConfig at h
    cases hr : eventLoop (initialModel T) session with
    | none => rw [hr] at h; simp at h
    | some r =>
      obtain ⟨m, e⟩ := r
      cases e with
      | none => rw [hr] at h; simp at h
      | some err2 =>
        rw [hr] at h
        simp only [Option.some.injEq, Prod.mk.injEq] at h
        obtain ⟨pre, later, _, _, hcase⟩ := eventLoop_some _ _ _ hr
        rcases hcase with ⟨msg, _, _, hn⟩ | ⟨err3, hs, hn⟩
        · simp at hn
        · simp only [Option.some.injEq] at hn
          rw [hs, ← h.2.2.2.2, hn]
          simp

/-- C13, amended, at the keys "k", Tab, "t" followed by Esc, and followed by
Enter. -/
theorem form_end_witness :
    PromptForConfig sampleTextinput
        ([Msg.key "k", Msg.key "tab", Msg.key "t"].map Except.ok
          ++ Except.ok (Msg.key "esc") :: [])
      = some ("k", "t", "", "", none)
    ∧ PromptForConfig sampleTextinput
        ([Msg.key "k", Msg.key "tab", Msg.key "t"].map Except.ok
          ++ Except.ok (Msg.key "enter") :: [])
      = some ("k", "t", "", "", none) := by
  obtain ⟨a, b, hin, hr⟩ := (form_end_returns_entered_strings sampleTextinput).1
    [Msg.key "k", Msg.key "tab", Msg.key "t"] "esc" [] (by decide) (Or.inl rfl)
  obtain ⟨a2, b2, hin2, hr2⟩ := (form_end_returns_entered_strings sampleTextinput).1
    [Msg.key "k", Msg.key "tab", Msg.key "t"] "enter" [] (by decide)
    (Or.inr (Or.inr ⟨rfl, by decide⟩))
  have hv : (handled (initialModel sampleTextinput) [Msg.key "k", Msg.key "tab", Msg.key "t"]).inputs
      = [("k", false), ("t", true)] := rfl
  rw [hv] at hin hin2
  simp only [List.cons.injEq, and_true] at hin hin2
  rw [hr, hr2, ← hin.1, ← hin.2, ← hin2.1, ← hin2.2]
  exact ⟨rfl, rfl⟩

/-! ## The function `main`: when the config is saved -/

/-- The fetches and the listing leave the saves and the file system as they are. -/
theorem fetchAndList_saves (L : Lib) (tr : Transport) (flags : Flags) (cfg : Config)
    (client : Client) (out : String) (sent : List Request)
    (saves : List (List Request × Config)) (fs : FS) :
    (fetchAndList L tr flags cfg client out sent saves fs).saves = saves
      ∧ (fetchAndList L tr flags cfg client out sent saves fs).fs = fs := by
  unfold fetchAndList
  split
  · exact ⟨rfl, rfl⟩
  · split
    · exact ⟨rfl, rfl⟩
    · split <;> exact ⟨rfl, rfl⟩

/-- With workspace and board in the config, lines 309-332 are skipped: nothing
is saved. -/
theorem selectBoard_of_board_set (L : Lib) (tr : Transport) (term : Terminal) (flags : Flags)
    (cfg : Config) (client : Client) (out : String) (sent : List Request) (fs : FS)
    (hw : cfg.Workspace ≠ "") (hb : cfg.BoardID ≠ "") :
    (selectBoard L tr term flags cfg client out sent fs).saves = []
      ∧ (selectBoard L tr term flags cfg client out sent fs).fs = fs := by
  unfold selectBoard
  rw [if_neg (by simp [hw, hb])]
  exact fetchAndList_saves L tr flags cfg client out sent [] fs

/-- With workspace and board in the config, lines 287-430 never call
`SaveConfig`. -/
theorem withConfig_saves_nothing (L : Lib) (T : Textinput) (w : World) (term : Terminal)
    (flags : Flags) (cfg : Config) (out : String) (run : Run)
    (hw : cfg.Workspace ≠ "") (hb : cfg.BoardID ≠ "")
    (hrun : withConfig L T w term flags cfg out = some run) : run.saves = [] ∧ run.fs = w.fs := by
  unfold withConfig at hrun
  by_cases hc : cfg.APIKey = "" ∨ cfg.APIToken = ""
  · rw [if_pos hc] at hrun
    dsimp only at hrun
    split at hrun
    · simp at hrun
    · simp only [Option.some.injEq] at hrun
      subst hrun
      exact ⟨rfl, rfl⟩
    · split at hrun
      · simp only [Option.some.injEq] at hrun
        subst hrun
        exact ⟨rfl, rfl⟩
      · simp only [Option.some.injEq] at hrun
        subst hrun
        exact selectBoard_of_board_set L _ term flags _ _ _ _ _ hw hb
  · rw [if_neg hc] at hrun
    simp only [Option.some.injEq] at hrun
    subst hrun
    exact selectBoard_of_board_set L _ term flags _ _ _ _ _ hw hb

/-- A listing run whose loaded config has workspace and board never calls
`SaveConfig`, whatever is entered into the credential form. -/
theorem main_saves_nothing_of_board_set (L : Lib) (T : Textinput) (w : World) (term : Terminal)
    (flags : Flags) (cfg : Config) (run : Run) (hflag : flags.showCard = "")
    (hload : LoadConfig L w.fs = Except.ok cfg) (hw : cfg.Workspace ≠ "") (hb : cfg.BoardID ≠ "")
    (hrun : main L T w term flags = some run) : run.saves = [] ∧ run.fs = w.fs := by
  unfold main at hrun
  simp only [hflag, ne_eq, not_true_eq_false, if_false, hload] at hrun
  exact withConfig_saves_nothing L T w term flags cfg _ run hw hb hrun

/-- C12 at the failing input: the config file holds workspace "w" and board "b"
and no credentials, "k" and "t" are entered into the form, and every request
is answered with status 200.  The run checks the entered credentials, fetches
the cards with them and prints the listing; `SaveConfig` is not called, and the
config file holds no credentials afterwards. -/
theorem entered_credentials_not_saved :
    LoadConfig boardLib boardOnlyFS = Except.ok ⟨"", "", "w", "b"⟩
      ∧ PromptForConfig sampleTextinput sampleTerminal.session = some ("k", "t", "", "", none)
      ∧ (main boardLib sampleTextinput ⟨boardOnlyFS, sampleWorld.transport, ""⟩ sampleTerminal
            defaultFlags).map
          (fun run => (run.stdout, run.fatal, run.sent, run.saves, LoadConfig boardLib run.fs))
        = some ("Please provide your Trello API credentials:\n#7  First\n", none,
            [⟨"GET", "https://api.trello.com/1/members/me", [("key", "k"), ("token", "t")]⟩,
             ⟨"GET", "https://api.trello.com/1/members/me", [("key", "k"), ("token", "t")]⟩,
             ⟨"GET", "https://api.trello.com/1/boards/b/cards",
               [("key", "k"), ("token", "t"), ("members", "true")]⟩,
             ⟨"GET", "https://api.trello.com/1/boards/b/lists", [("key", "k"), ("token", "t")]⟩],
            [], Except.ok ⟨"", "", "w", "b"⟩) := by
  refine ⟨rfl, by decide, rfl⟩

/-- The sibling path: with no config file, the same entries and the choice of
workspace 1 and board 1, `SaveConfig` is called once, with the entered
credentials, after the selection requests and before the cards are fetched. -/
theorem entered_credentials_saved_with_board :
    (main boardLib sampleTextinput ⟨emptyFS, sampleWorld.transport, ""⟩ sampleTerminal
          defaultFlags).map
        (fun run => (run.fatal, run.sent.map (fun r => r.url), run.saves.map
          (fun s => (s.1.length, s.2)), LoadConfig boardLib run.fs))
      = some (none,
          ["https://api.trello.com/1/members/me",
           "https://api.trello.com/1/members/me/organizations",
           "https://api.trello.com/1/organizations/w/boards",
           "https://api.trello.com/1/members/me",
           "https://api.trello.com/1/boards/b/cards",
           "https://api.trello.com/1/boards/b/lists"],
          [(3, ⟨"k", "t", "w", "b"⟩)], Except.ok ⟨"k", "t", "w", "b"⟩) := by
  rfl

/-- A listing that ends without a fatal error has made its three requests, in
the order user, cards, lists. -/
theorem fetchAndList_sent (L : Lib) (tr : Transport) (flags : Flags) (cfg : Config)
    (client : Client) (out : String) (sent : List Request)
    (saves : List (List Request × Config)) (fs : FS)
    (hf : (fetchAndList L tr flags cfg client out sent saves fs).fatal = none) :
    (fetchAndList L tr flags cfg client out sent saves fs).sent
      = sent ++ [client.makeRequest "GET" "/members/me" [],
          client.makeRequest "GET" ("/boards/" ++ cfg.BoardID ++ "/cards") [("members", "true")],
          client.makeRequest "GET" ("/boards/" ++ cfg.BoardID ++ "/lists") []] := by
  unfold fetchAndList at hf ⊢
  split at hf
  · simp at hf
  · rename_i userID sent1 h1
    have e1 : sent1 = sent ++ [client.makeRequest "GET" "/members/me" []] := by
      have := fetch_sent client tr "/members/me" [] "" L.unmarshalMemberID sent
      rw [← Client.GetMemberID, h1] at this
      exact this
    split at hf
    · simp at hf
    · rename_i cards sent2 h2
      have e2 : sent2 = sent1 ++ [client.makeRequest "GET" ("/boards/" ++ cfg.BoardID ++ "/cards")
          [("members", "true")]] := by
        have := fetch_sent client tr ("/boards/" ++ cfg.BoardID ++ "/cards") [("members", "true")]
          [] L.unmarshalCards sent1
        rw [← Client.GetCards, h2] at this
        exact this
      split at hf
      · simp at hf
      · rename_i lists sent3 h3
        have e3 : sent3 = sent2 ++ [client.makeRequest "GET" ("/boards/" ++ cfg.BoardID ++ "/lists")
            []] := by
          have := fetch_sent client tr ("/boards/" ++ cfg.BoardID ++ "/lists") [] []
            L.unmarshalLists sent2
          rw [← Client.GetLists, h3] at this
          exact this
        rw [e3, e2, e1]
        simp

/-- The sibling path in general: when the config lacks workspace or board and
the run ends without a fatal error, `SaveConfig` is called exactly once, with
the credentials of the run, and the requests for user, cards and lists all
come after it. -/
theorem selectBoard_saves_before_cards (L : Lib) (tr : Transport) (term : Terminal)
    (flags : Flags) (cfg : Config) (client : Client) (out : String) (sent : List Request)
    (fs : FS) (h : cfg.Workspace = "" ∨ cfg.BoardID = "")
    (hf : (selectBoard L tr term flags cfg client out sent fs).fatal = none) :
    ∃ before workspace board,
      (selectBoard L tr term flags cfg client out sent fs).saves
          = [(before, ⟨cfg.APIKey, cfg.APIToken, workspace, board⟩)]
        ∧ (selectBoard L tr term flags cfg client out sent fs).sent
          = before ++ [client.makeRequest "GET" "/members/me" [],
              client.makeRequest "GET" ("/boards/" ++ board ++ "/cards") [("members", "true")],
              client.makeRequest "GET" ("/boards/" ++ board ++ "/lists") []] := by
  unfold selectBoard at hf ⊢
  rw [if_pos h] at hf ⊢
  dsimp only at hf ⊢
  split at hf
  · simp at hf
  · rename_i horg
    split at hf
    · simp at hf
    · rename_i hboard
      split at hf
      · simp at hf
      · rename_i fs2 hsave
        refine ⟨_, _, _, (fetchAndList_saves _ _ _ _ _ _ _ _ _).1, ?_⟩
        exact fetchAndList_sent _ _ _ _ _ _ _ _ _ hf

end TrelloCli
